import Mathlib

/-!
# Verification of the rubus-ecs archetype storage core

This file is a shallow embedding of the archetype-based ECS store implemented
in `src/rubus-ecs/ecs.hpp` and `ecs.cpp` (the `ruecs` namespace), together
with proofs about the embedded operations.

Modelling conventions:
* Entities are represented by their 64-bit id (`Nat`); a single storage is
  modelled, so the `arch_storage` back-pointer of `ruecs::Entity` is dropped
  (equality of entity handles within one storage is equality of ids).
* `std::unordered_map` is modelled as an association list `List (Nat × α)`
  with unique keys; `try_emplace`, `erase` and `at` are translated literally.
  Iteration order of an unordered map is unspecified in C++, the list order
  plays that role here.
* Component payloads are opaque byte lists (`List Nat`).  `memcpy` of
  `n` bytes is modelled as writing exactly `n` bytes (short sources are
  zero-padded, mirroring the zero-filled bytes produced by
  `std::vector::resize`; in C++ a size mismatch here would be undefined
  behaviour and never happens in well-typed use).
* A failed `assert` and a throwing `std::unordered_map::at` both terminate
  the process; both are modelled as `none`.
* Destructor function pointers carried by columns are not observable in the
  model; the only destructor invocations that are tracked are the ones on
  command-buffer `AddComponent` payloads, which claims C2/C3/C10 are about.
  Each appended record carries a ghost sequence number used solely to state
  the exactly-once consumption property.
-/

namespace Ruecs

/-! ## Association-list maps (model of `std::unordered_map`) -/

/-- Lookup in an association list (`unordered_map::find` / `::at`). -/
def alookup {α : Type} : List (Nat × α) → Nat → Option α
  | [], _ => none
  | (k, v) :: r, k' => if k = k' then some v else alookup r k'

/-- `unordered_map::contains`. -/
def amem {α : Type} (m : List (Nat × α)) (k : Nat) : Bool :=
  (alookup m k).isSome

/-- `unordered_map::try_emplace`: inserts only if the key is absent. -/
def aemplace {α : Type} (m : List (Nat × α)) (k : Nat) (v : α) : List (Nat × α) :=
  if amem m k then m else m ++ [(k, v)]

/-- Overwrite the value stored at an existing key (mutation through a
reference obtained from `at`/`operator[]`).  Absent keys are untouched. -/
def aset {α : Type} (m : List (Nat × α)) (k : Nat) (v : α) : List (Nat × α) :=
  m.map (fun p => if p.1 = k then (k, v) else p)

/-- `unordered_map::erase` by key. -/
def aerase {α : Type} (m : List (Nat × α)) (k : Nat) : List (Nat × α) :=
  m.filter (fun p => p.1 ≠ k)

/-- The keys of an association list. -/
def akeys {α : Type} (m : List (Nat × α)) : List Nat :=
  m.map Prod.fst

/-! ## Component columns (`ruecs::ComponentArray`) -/

/-- Exactly `s` bytes taken from `v`, zero-padded if `v` is shorter.
This is the byte string a `memcpy` of `s` bytes writes. -/
def bytesOf (s : Nat) (v : List Nat) : List Nat :=
  v.take s ++ List.replicate (s - v.length) 0

/-- A type-erased packed column: `ruecs::ComponentArray`.  The destructor
function pointer is not representable and is determined by `id` in practice,
so it is dropped. -/
structure ComponentArray where
  id : Nat
  each_size : Nat
  count : Nat
  array : List Nat
  deriving DecidableEq, Repr, Inhabited

/-- `ComponentArray::get_at` (ecs.cpp): the `each_size` bytes of element
`i`.  For `each_size == 0` the C++ code returns the (empty) whole array;
`take 0` yields the same. -/
def ComponentArray.get_at (c : ComponentArray) (i : Nat) : List Nat :=
  (c.array.drop (i * c.each_size)).take c.each_size

/-- `ComponentArray::get_last`. -/
def ComponentArray.get_last (c : ComponentArray) : List Nat :=
  c.get_at (c.count - 1)

/-- `ComponentArray::set_at`: overwrite element `i` with `each_size` bytes
of `v` (a no-op slice juggle when `each_size == 0`, as in the source). -/
def ComponentArray.set_at (c : ComponentArray) (i : Nat) (v : List Nat) : ComponentArray :=
  { c with array :=
      c.array.take (i * c.each_size) ++ bytesOf c.each_size v
        ++ c.array.drop ((i + 1) * c.each_size) }

/-- `ComponentArray::take_out_at`: swap-remove element `i` without running
its destructor.  If `i` is not the last element, the last element's bytes
are copied into slot `i`; then the count is decremented and the byte vector
shrunk by one element. -/
def ComponentArray.take_out_at (c : ComponentArray) (i : Nat) : ComponentArray :=
  let c1 := if c.each_size ≠ 0 ∧ i < c.count - 1 then c.set_at i c.get_last else c
  { c1 with count := c.count - 1, array := c1.array.take (c1.array.length - c.each_size) }

/-- `ComponentArray::delete_at`: runs the element's destructor (not
observable in the model) and then `take_out_at`. -/
def ComponentArray.delete_at (c : ComponentArray) (i : Nat) : ComponentArray :=
  c.take_out_at i

/-- Grow a column by one uninitialised (zero-filled, per `vector::resize`)
element: the per-column body of `Archetype::add_entity`. -/
def ComponentArray.grow (c : ComponentArray) : ComponentArray :=
  { c with count := c.count + 1, array := c.array ++ List.replicate c.each_size 0 }

/-! ## Archetypes (`ruecs::Archetype`) -/

/-- `ruecs::Archetype`: the population of one exact component set. -/
structure Archetype where
  id : Nat
  component_ids : List Nat
  entities : List Nat
  components : List ComponentArray
  deriving DecidableEq, Repr

instance : Inhabited Archetype := ⟨⟨0, [], [], []⟩⟩

/-- The `(id, size)` pairs of an archetype's columns
(`ComponentArray::to_component_info`, destructor dropped). -/
def infos_of (a : Archetype) : List (Nat × Nat) :=
  a.components.map (fun c => (c.id, c.each_size))

/-- The `Archetype(id, arch_storage, infos)` constructor. -/
def Archetype.mk_from_infos (aid : Nat) (infos : List (Nat × Nat)) : Archetype :=
  { id := aid
    component_ids := infos.map Prod.fst
    entities := []
    components := infos.map (fun p => { id := p.1, each_size := p.2, count := 0, array := [] }) }

/-- `Archetype::has_component`: linear membership test. -/
def Archetype.has_component (a : Archetype) (cid : Nat) : Bool :=
  a.component_ids.contains cid

/-- `Archetype::has_components`: two-pointer merge over the two sorted
lists, true iff every id of `ids` occurs in `component_ids`. -/
def has_components_merge : List Nat → List Nat → Bool
  | _, [] => true
  | [], _ :: _ => false
  | x :: xs, y :: ys =>
    if x = y then has_components_merge xs ys
    else if x < y then has_components_merge xs (y :: ys)
    else false

/-- `Archetype::not_has_components`: two-pointer merge, true iff no id of
`ids` occurs in `component_ids`. -/
def not_has_components_merge : List Nat → List Nat → Bool
  | _, [] => true
  | [], _ :: _ => true
  | x :: xs, y :: ys =>
    if x = y then false
    else if x < y then not_has_components_merge xs (y :: ys)
    else not_has_components_merge (x :: xs) ys

def Archetype.has_components (a : Archetype) (ids : List Nat) : Bool :=
  has_components_merge a.component_ids ids

def Archetype.not_has_components (a : Archetype) (ids : List Nat) : Bool :=
  not_has_components_merge a.component_ids ids

/-- `Archetype::add_entity`: append the entity handle, grow every column by
one slot, return the new row.  (The source's
`assert(entity_locations.at(entity).arch != this)` is checked by the
callers in this model, where the storage is in scope.) -/
def Archetype.add_entity (a : Archetype) (e : Nat) : Archetype × Nat :=
  ({ a with entities := a.entities ++ [e], components := a.components.map ComponentArray.grow },
   a.entities.length)

/-! ## Entity locations and the storage (`ruecs::ArchetypeStorage`) -/

/-- `ruecs::EntityLocation`, with the archetype pointer replaced by the
archetype id keying `ArchetypeStorage::archetypes`. -/
abbrev Location := Nat × Nat

/-- `ruecs::ArchetypeStorage` (its `command` member is modelled separately
as `CmdState`).  `component_locations` maps a component id to a map from
archetype id to column index; `id_gen` models `Entity::id_gen`. -/
structure ArchetypeStorage where
  archetypes : List (Nat × Archetype)
  entity_locations : List (Nat × Location)
  component_locations : List (Nat × List (Nat × Nat))
  id_gen : Nat
  deriving DecidableEq, Repr

/-- The archetype stored under `aid`, defaulting to the trivial archetype
(lookups are guarded by well-formedness wherever this is used). -/
def findArchD (st : ArchetypeStorage) (aid : Nat) : Archetype :=
  (alookup st.archetypes aid).getD default

/-- `ArchetypeStorage::ArchetypeStorage()`: a fresh storage holding only the
empty archetype with id 0. -/
def ArchetypeStorage.init : ArchetypeStorage :=
  { archetypes := [(0, ⟨0, [], [], []⟩)]
    entity_locations := []
    component_locations := []
    id_gen := 0 }

/-- Word size of `std::size_t`. -/
def wsize : Nat := 2 ^ 64

/-- The integer mix used by `ArchetypeStorage::calculate_archetype_id`
(`x = ((x >> 16) ^ x) * 0x45d9f3b` twice, then `(x >> 16) ^ x`), on
`size_t` arithmetic. -/
def mix (x0 : Nat) : Nat :=
  let x1 := (((x0 >>> 16) ^^^ x0) * 0x45d9f3b) % wsize
  let x2 := (((x1 >>> 16) ^^^ x1) * 0x45d9f3b) % wsize
  (x2 >>> 16) ^^^ x2

/-- `ArchetypeStorage::calculate_archetype_id`: fold the mixed component ids
into `hash`, seeded with the list length. -/
def calculate_archetype_id (infos : List (Nat × Nat)) : Nat :=
  infos.foldl
    (fun hash info =>
      hash ^^^ ((mix (info.1 % wsize) + 0x9e3779b9 + ((hash <<< 6) % wsize) + (hash >>> 2)) % wsize))
    (infos.length % wsize)

/-- `Archetype::take_out_entity`: swap-remove row `i`.  If `i` is not the
last row, the last entity is moved into row `i` and its recorded row index
in `entity_locations` is updated; then each column swap-removes without
destruction.  `none` models the `assert(not entities.empty())` and the
`entity_locations.at` of a handle with no location. -/
def Archetype.take_out_entity (locs : List (Nat × Location)) (a : Archetype) (i : Nat) :
    Option (List (Nat × Location) × Archetype) :=
  if a.entities.isEmpty then none
  else do
    let last := a.entities.getD (a.entities.length - 1) 0
    let (locs1, ents1) ←
      if i < a.entities.length - 1 then do
        let lloc ← alookup locs last
        some (aset locs last (lloc.1, i), a.entities.set i last)
      else
        some (locs, a.entities)
    some (locs1,
      { a with entities := ents1.dropLast,
               components := a.components.map (fun c => c.take_out_at i) })

/-- `Archetype::delete_entity`: like `take_out_entity` but each column runs
the destructor on the evicted element (`delete_at`; the destructor call is
not observable in the model). -/
def Archetype.delete_entity_row (locs : List (Nat × Location)) (a : Archetype) (i : Nat) :
    Option (List (Nat × Location) × Archetype) :=
  if a.entities.isEmpty then none
  else do
    let last := a.entities.getD (a.entities.length - 1) 0
    let (locs1, ents1) ←
      if i < a.entities.length - 1 then do
        let lloc ← alookup locs last
        some (aset locs last (lloc.1, i), a.entities.set i last)
      else
        some (locs, a.entities)
    some (locs1,
      { a with entities := ents1.dropLast,
               components := a.components.map (fun c => c.delete_at i) })

/-- `ArchetypeStorage::create_entity`: mint `++id_gen`, place the entity in
the empty archetype (id 0) and record its location. -/
def create_entity (st : ArchetypeStorage) : Option (ArchetypeStorage × Nat) := do
  let arch0 ← alookup st.archetypes 0
  let eid := st.id_gen + 1
  let locs := aemplace st.entity_locations eid (0, arch0.entities.length)
  let arch0' := { arch0 with entities := arch0.entities ++ [eid] }
  some ({ st with id_gen := eid
                  entity_locations := locs
                  archetypes := aset st.archetypes 0 arch0' }, eid)

/-- `ArchetypeStorage::delete_entity`: `delete_row`-remove the entity's row
from its archetype and erase the entity-location entry.  `none` models the
fatal `entity_locations.at` on an unknown handle. -/
def delete_entity (st : ArchetypeStorage) (e : Nat) : Option ArchetypeStorage := do
  let loc ← alookup st.entity_locations e
  let a ← alookup st.archetypes loc.1
  let (locs1, a1) ← Archetype.delete_entity_row st.entity_locations a loc.2
  some { st with archetypes := aset st.archetypes loc.1 a1
                 entity_locations := aerase locs1 e }

/-- The index at which `cid` is inserted into the sorted id list:
`find_if(component_ids, id > component_id)` in the source. -/
def insert_pos (ids : List Nat) (cid : Nat) : Nat :=
  ids.findIdx (fun id => cid < id)

/-- Insert an info at index `j` (the source builds this list with a shifted
copy loop). -/
def insert_info (infos : List (Nat × Nat)) (j : Nat) (info : Nat × Nat) : List (Nat × Nat) :=
  infos.take j ++ [info] ++ infos.drop j

/-- Remove the info at index `j` (the shifted copy loop of
`remove_component`). -/
def remove_info (infos : List (Nat × Nat)) (j : Nat) : List (Nat × Nat) :=
  infos.take j ++ infos.drop (j + 1)

/-- `component_locations.at(cid).try_emplace(arch, i)`: registers column `i`
of archetype `aid` in the inverted index; `none` when `cid` has no entry
(a throwing `at`). -/
def cl_emplace (clocs : List (Nat × List (Nat × Nat))) (cid aid i : Nat) :
    Option (List (Nat × List (Nat × Nat))) := do
  let m ← alookup clocs cid
  some (aset clocs cid (aemplace m aid i))

/-- Overwrite element `i` of a list, identity when out of range. -/
def modN {α : Type} : List α → Nat → (α → α) → List α
  | [], _, _ => []
  | x :: xs, 0, f => f x :: xs
  | x :: xs, i + 1, f => x :: modN xs i f

/-- A C++ `for (i = s; i < n; ++i)` loop whose body can fail fatally,
structurally recursive on the remaining iteration count. -/
def for_loop_aux {β : Type} (step : β → Nat → Option β) : Nat → Nat → β → Option β
  | 0, _, acc => some acc
  | fuel + 1, s, acc => do
    let acc' ← step acc s
    for_loop_aux step fuel (s + 1) acc'

/-- A C++ `for (i = s; i < n; ++i)` loop whose body can fail fatally. -/
def for_loop {β : Type} (step : β → Nat → Option β) (s n : Nat) (acc : β) : Option β :=
  for_loop_aux step (n - s) s acc

theorem for_loop_stop {β : Type} (step : β → Nat → Option β) (s n : Nat) (acc : β)
    (h : n ≤ s) : for_loop step s n acc = some acc := by
  unfold for_loop
  rw [Nat.sub_eq_zero_of_le h]
  rfl

theorem for_loop_step {β : Type} (step : β → Nat → Option β) (s n : Nat) (acc : β)
    (h : s < n) :
    for_loop step s n acc = (step acc s).bind (for_loop step (s + 1) n) := by
  unfold for_loop
  have h1 : n - s = (n - (s + 1)) + 1 := by omega
  rw [h1]
  rfl

/-- The bytes written into new-archetype column `i` (at its freshly grown
last row) by the copy loop of `add_component`: the constructed payload at
the insertion column, a `memcpy` from old column `i - x` otherwise. -/
def add_write (a : Archetype) (row j : Nat) (v : List Nat) (i : Nat)
    (c : ComponentArray) : ComponentArray :=
  if i = j then c.set_at (c.count - 1) (bytesOf c.each_size v)
  else c.set_at (c.count - 1)
    ((a.components.getD (if i < j then i else i - 1) default).get_at row)

/-- One iteration of the copy loop of `add_component` / the `AddComponent`
branch of `Command::run`: column `insert_index` receives the new payload
bytes, every other column `i` receives a `memcpy` of the entity's bytes
from old column `i - x`, and each column is registered in the inverted
index. -/
def add_copy_step (a : Archetype) (row j cid newAid : Nat) (v : List Nat)
    (acc : Archetype × List (Nat × List (Nat × Nat))) (i : Nat) :
    Option (Archetype × List (Nat × List (Nat × Nat))) := do
  let (na, clocs) := acc
  let na' := { na with components := modN na.components i (add_write a row j v i) }
  let key := if i = j then cid
    else (a.components.getD (if i < j then i else i - 1) default).id
  let clocs' ← cl_emplace clocs key newAid i
  some (na', clocs')

/-- `ArchetypeStorage::add_component` (ecs.hpp) and, identically, the
migration block of the `AddComponent` branch of `Command::run` (ecs.cpp):
returns the updated storage and whether the payload was applied (`false`
when the entity already has the component and the call is a no-op).
`none` models the fatal `entity_locations.at` on an unknown handle, a
throwing `component_locations.at`, and the
`assert(entity_locations.at(entity).arch != this)` in `add_entity`. -/
def add_component (st : ArchetypeStorage) (e cid size : Nat) (v : List Nat) :
    Option (ArchetypeStorage × Bool) := do
  let loc ← alookup st.entity_locations e
  let a ← alookup st.archetypes loc.1
  if a.has_component cid then
    some (st, false)
  else do
    let j := insert_pos a.component_ids cid
    let infos := insert_info (infos_of a) j (cid, size)
    let newAid := calculate_archetype_id infos
    let archs1 := aemplace st.archetypes newAid (Archetype.mk_from_infos newAid infos)
    let clocs1 := aemplace st.component_locations cid []
    let na ← alookup archs1 newAid
    if newAid = loc.1 then none
    else do
      let (na1, newRow) := na.add_entity e
      let (na2, clocs2) ← for_loop (add_copy_step a loc.2 j cid newAid v)
        0 na1.components.length (na1, clocs1)
      let archs2 := aset archs1 newAid na2
      let (locs1, a1) ← Archetype.take_out_entity st.entity_locations a loc.2
      some ({ st with archetypes := aset archs2 loc.1 a1
                      entity_locations := aset locs1 e (newAid, newRow)
                      component_locations := clocs2 }, true)

/-- The bytes written into new-archetype column `dstIdx` by the copy loop
of `remove_component` / the `RemoveComponent` branch of `Command::run`
(where the removed column's element gets its destructor run, not
observable here): a `memcpy` of the entity's element of old column
`i`. -/
def remove_write (a : Archetype) (row i : Nat) (c : ComponentArray) : ComponentArray :=
  c.set_at (c.count - 1) ((a.components.getD i default).get_at row)

def remove_copy_step (a : Archetype) (row j newAid : Nat)
    (acc : Archetype × List (Nat × List (Nat × Nat))) (i : Nat) :
    Option (Archetype × List (Nat × List (Nat × Nat))) := do
  let (na, clocs) := acc
  if i = j then
    some (na, clocs)
  else do
    let dstIdx := if i < j then i else i - 1
    let na' := { na with components := modN na.components dstIdx (remove_write a row i) }
    let clocs' ← cl_emplace clocs (a.components.getD i default).id newAid dstIdx
    some (na', clocs')

/-- `ArchetypeStorage::remove_component` (ecs.hpp) and, identically, the
migration block of the `RemoveComponent` branch of `Command::run`
(ecs.cpp).  A no-op when the entity does not have the component. -/
def remove_component (st : ArchetypeStorage) (e cid : Nat) : Option ArchetypeStorage := do
  let loc ← alookup st.entity_locations e
  let a ← alookup st.archetypes loc.1
  if ¬ a.has_component cid then
    some st
  else do
    let j := a.component_ids.findIdx (fun id => id = cid)
    let infos := remove_info (infos_of a) j
    let newAid := calculate_archetype_id infos
    let archs1 := aemplace st.archetypes newAid (Archetype.mk_from_infos newAid infos)
    let na ← alookup archs1 newAid
    if newAid = loc.1 then none
    else do
      let (na1, newRow) := na.add_entity e
      let (na2, clocs2) ← for_loop (remove_copy_step a loc.2 j newAid)
        0 a.components.length (na1, st.component_locations)
      let archs2 := aset archs1 newAid na2
      let (locs1, a1) ← Archetype.take_out_entity st.entity_locations a loc.2
      some { st with archetypes := aset archs2 loc.1 a1
                     entity_locations := aset locs1 e (newAid, newRow)
                     component_locations := clocs2 }

/-- `Entity::get_component` (ecs.hpp): locate the entity, find the column
index of `cid` in its archetype through the inverted index, and return the
element bytes at the entity's row.  `none` models the throwing `at`s and
the `assert(component_loc.contains(entity_arch->id))`. -/
def get_component (st : ArchetypeStorage) (e cid : Nat) : Option (List Nat) := do
  let loc ← alookup st.entity_locations e
  let a ← alookup st.archetypes loc.1
  let cmap ← alookup st.component_locations cid
  let colIdx ← alookup cmap a.id
  let col := a.components.getD colIdx default
  some (col.get_at loc.2)

/-! ## The command buffer (`ruecs::Command`)

The serialized byte log is modelled as a list of decoded records.
Modelled from the spec (§4.6): the `AlignedBuf` container used by the
current `ecs.cpp` (its `emplace_back` / `get` / `get_ptr_at` methods are
declared in a header revision not present in the sources) writes every
field at its natural alignment and reads the same value back, the
`AddComponent` record carrying the absolute payload offset so the reader
re-finds the payload; record encoding therefore round-trips and a record
list is a faithful view of the buffer.  Each record carries a ghost
sequence number identifying its payload, so that destructor invocations on
recorded payloads can be counted. -/

/-- One decoded command record (`ruecs::CommandType` plus its payload). -/
inductive CommandRec where
  | createEntity : CommandRec
  | deleteEntity (e : Nat) : CommandRec
  | addComponent (e cid size : Nat) (v : List Nat) : CommandRec
  | removeComponent (e cid : Nat) : CommandRec
  deriving DecidableEq, Repr

/-- How an `AddComponent` payload was consumed: applied into the
destination column by `run`, destroyed by `run` because the entity already
had the component, or destroyed by `discard`. -/
inductive ConsumeKind where
  | applied : ConsumeKind
  | destroyedByRun : ConsumeKind
  | destroyedByDiscard : ConsumeKind
  deriving DecidableEq, Repr

/-- Dispatch of one record inside `Command::run`: `CreateEntity` is a
no-op (the entity was created at record time), `DeleteEntity` is skipped
when the entity is already gone, `AddComponent` either migrates (payload
applied) or destroys the payload when the entity already has the
component, `RemoveComponent` is a no-op when absent.  The returned
`Option ConsumeKind` reports the consumption of an `AddComponent`
payload. -/
def run_one (st : ArchetypeStorage) : CommandRec → Option (ArchetypeStorage × Option ConsumeKind)
  | .createEntity => some (st, none)
  | .deleteEntity e =>
    if amem st.entity_locations e then do
      let st1 ← delete_entity st e
      some (st1, none)
    else
      some (st, none)
  | .addComponent e cid size v => do
    let (st1, applied) ← add_component st e cid size v
    some (st1, some (if applied then .applied else .destroyedByRun))
  | .removeComponent e cid => do
    let st1 ← remove_component st e cid
    some (st1, none)

/-- `Command::run`: walk the buffer in order, dispatching each record;
afterwards the buffer is cleared.  Returns the final storage and the
consumption events of the `AddComponent` payloads, tagged with their
sequence numbers. -/
def run (st : ArchetypeStorage) :
    List (Nat × CommandRec) → Option (ArchetypeStorage × List (Nat × ConsumeKind))
  | [] => some (st, [])
  | (k, c) :: rest => do
    let (st1, ev) ← run_one st c
    let (st2, evs) ← run st1 rest
    some (st2, (match ev with | some kind => [(k, kind)] | none => []) ++ evs)

/-- `Command::discard`: walk the buffer and run the destructor on every
`AddComponent` payload; the storage is untouched.  Also invoked by the
`Command` destructor. -/
def discard (buf : List (Nat × CommandRec)) : List (Nat × ConsumeKind) :=
  buf.filterMap (fun kc =>
    match kc.2 with
    | .addComponent _ _ _ _ => some (kc.1, ConsumeKind.destroyedByDiscard)
    | _ => none)

/-- The state of one `Command` object over its lifetime: the storage it
points at, the pending record list, the next ghost sequence number, and
the consumption events emitted so far. -/
structure CmdState where
  st : ArchetypeStorage
  buf : List (Nat × CommandRec)
  next_seq : Nat
  events : List (Nat × ConsumeKind)
  deriving DecidableEq, Repr

/-- One operation on a command buffer: appending a record (the recorder
methods `Command::delete_entity`, `Command::add_component<T>`,
`Command::remove_component<T>` only serialize), running, or discarding. -/
inductive BufOp where
  | append (c : CommandRec) : BufOp
  | runBuf : BufOp
  | discardBuf : BufOp
  deriving DecidableEq, Repr

/-- Execute one buffer operation. -/
def life_step (s : CmdState) : BufOp → Option CmdState
  | .append c => some { s with buf := s.buf ++ [(s.next_seq, c)], next_seq := s.next_seq + 1 }
  | .runBuf => do
    let (st1, evs) ← run s.st s.buf
    some { s with st := st1, buf := [], events := s.events ++ evs }
  | .discardBuf =>
    some { s with buf := [], events := s.events ++ discard s.buf }

/-- Execute a sequence of buffer operations. -/
def life_exec (s : CmdState) : List BufOp → Option CmdState
  | [] => some s
  | op :: rest => do
    let s1 ← life_step s op
    life_exec s1 rest

/-- `Command::create_entity`: appends a `CreateEntity` record and creates
the entity in the storage immediately, returning its handle
(`PendingEntity`). -/
def command_create_entity (s : CmdState) : Option (CmdState × Nat) := do
  let (st1, e) ← create_entity s.st
  some ({ s with st := st1
                 buf := s.buf ++ [(s.next_seq, CommandRec.createEntity)]
                 next_seq := s.next_seq + 1 }, e)

/-- The record sequence appended by a list of buffer operations. -/
def appended (ops : List BufOp) : List CommandRec :=
  ops.filterMap (fun o => match o with | .append c => some c | _ => none)

/-- Whether a record is an `AddComponent`. -/
def CommandRec.isAdd : CommandRec → Bool
  | .addComponent _ _ _ _ => true
  | _ => false

/-- Number of consumption events carrying sequence tag `k`. -/
def evCount (evs : List (Nat × ConsumeKind)) (k : Nat) : Nat :=
  (evs.filter (fun ev => ev.1 = k)).length

/-- Number of pending `AddComponent` records carrying sequence tag `k`. -/
def bufAddCount (buf : List (Nat × CommandRec)) (k : Nat) : Nat :=
  (buf.filter (fun kc => kc.1 = k ∧ kc.2.isAdd)).length

/-! ## Queries (`ruecs::Query`) -/

/-- `Query::unorderd_map_intersection`: erase from `s` every key not in
`other`. -/
def map_intersection (s other : List (Nat × Nat)) : List (Nat × Nat) :=
  s.filter (fun p => amem other p.1)

/-- `Query::unorderd_map_exclude`: erase from `s` every key of `ex`. -/
def map_exclude (s ex : List (Nat × Nat)) : List (Nat × Nat) :=
  s.filter (fun p => ¬ amem ex p.1)

/-- `Query::update_archs`: resolve the candidate archetype set from the
inverted index.  Empty `includes`: the union over all indexed archetypes.
Otherwise: seed with the map of the first include (empty/missing seeds an
empty set), intersect with each remaining include, then set-difference out
each exclude.  The source breaks out of the loops once the set is empty;
intersecting or excluding from an empty set is the identity, so the fold
below computes the same set. -/
def update_archs (st : ArchetypeStorage) (includes excludes : List Nat) : List (Nat × Nat) :=
  let base :=
    match includes with
    | [] =>
      st.component_locations.foldl
        (fun acc p => p.2.foldl (fun acc q => aemplace acc q.1 q.2) acc) []
    | c0 :: rest =>
      match alookup st.component_locations c0 with
      | none => []
      | some m0 =>
        if m0.isEmpty then []
        else
          rest.foldl
            (fun acc c =>
              match alookup st.component_locations c with
              | none => []
              | some m => map_intersection acc m)
            m0
  excludes.foldl
    (fun acc b =>
      match alookup st.component_locations b with
      | none => acc
      | some m => map_exclude acc m)
    base

/-- The cursor state of a `Query`: the memoised candidate list (`archs`),
the memoised archetype count (`arch_count`), the iterator position into
`archs` (`pos`, modelling `archs_it`) and the row index (`index`). -/
structure QueryState where
  includes : List Nat
  excludes : List Nat
  archs : List (Nat × Nat)
  arch_count : Nat
  pos : Nat
  index : Nat
  deriving DecidableEq, Repr

/-- A freshly constructed query with the given include/exclude id lists. -/
def QueryState.fresh (includes excludes : List Nat) : QueryState :=
  { includes := includes, excludes := excludes, archs := [], arch_count := 0, pos := 0, index := 0 }

/-- `Query::start`: recompute the candidate set if the storage's archetype
count changed since the last resolution, then rewind the cursor. -/
def QueryState.start (q : QueryState) (st : ArchetypeStorage) : QueryState :=
  let q1 :=
    if q.arch_count ≠ st.archetypes.length then
      { q with archs := update_archs st q.includes q.excludes
               arch_count := st.archetypes.length }
    else q
  { q1 with pos := 0, index := 0 }

/-- Structurally recursive worker for `get_next_entity`; `fuel` is the
number of candidate archetypes not yet exhausted (`archs.length - pos`,
maintained by `get_next_entity`), so the `0` case is exactly the
`archs_it == archs.end()` sentinel case. -/
def QueryState.get_next_entity_aux (st : ArchetypeStorage) :
    Nat → QueryState → Option Nat × QueryState
  | 0, q => (none, { q with index := 0 })
  | fuel + 1, q =>
    let aid := (q.archs.getD q.pos (0, 0)).1
    let ents := (findArchD st aid).entities
    if q.index = ents.length then
      QueryState.get_next_entity_aux st fuel { q with pos := q.pos + 1, index := 0 }
    else if q.index < ents.length then
      (some (ents.getD q.index 0), { q with index := q.index + 1 })
    else
      -- unreachable from `start` (the row index never exceeds the entity
      -- count); reading past the end would be undefined behaviour
      (none, { q with pos := q.archs.length, index := 0 })

/-- `Query::get_next_entity`: walk the candidate archetypes from the
cursor; yield the entity at `index` of the current archetype (advancing
`index`), move to the next archetype when its entities are exhausted, and
return the sentinel (`none`, the null `ReadOnlyEntity`) at the end. -/
def QueryState.get_next_entity (st : ArchetypeStorage) (q : QueryState) :
    Option Nat × QueryState :=
  QueryState.get_next_entity_aux st (q.archs.length - q.pos) q

/-- Repeatedly call `get_next_entity` until the sentinel, collecting the
yielded entities (one full pass of the cursor).  `fuel` bounds the number
of calls; every pass terminates within `archs.length + Σ entities + 1`
calls. -/
def collect (st : ArchetypeStorage) (q : QueryState) : Nat → List Nat
  | 0 => []
  | fuel + 1 =>
    match QueryState.get_next_entity st q with
    | (some e, q1) => e :: collect st q1 fuel
    | (none, _) => []

/-- Enough fuel for one full pass of the cursor. -/
def passFuel (st : ArchetypeStorage) (q : QueryState) : Nat :=
  q.archs.length + (q.archs.map (fun p => (findArchD st p.1).entities.length)).sum + 1

/-- One full pass of the cursor after `start`. -/
def full_pass (st : ArchetypeStorage) (q : QueryState) : List Nat :=
  collect st (q.start st) (passFuel st (q.start st))

/-! ## Storage well-formedness

The decidable invariants of §8 of the specification, phrased over the
model state.  `StorageInv` is the inductive part preserved by every public
operation (claim C5); `IndexInv` is the inverted-index consistency used by
the query claims. -/

/-- Every recorded entity location points at an existing archetype that
stores the entity at the recorded row. -/
def locSound (st : ArchetypeStorage) : Prop :=
  ∀ p ∈ st.entity_locations,
    (alookup st.archetypes p.2.1).isSome = true ∧
    p.2.2 < (findArchD st p.2.1).entities.length ∧
    (findArchD st p.2.1).entities.getD p.2.2 0 = p.1

/-- Every row of every archetype belongs to an entity whose recorded
location is exactly that archetype and row. -/
def locComplete (st : ArchetypeStorage) : Prop :=
  ∀ q ∈ st.archetypes, ∀ er ∈ q.2.entities.enum,
    alookup st.entity_locations er.2 = some (q.1, er.1)

/-- Columns are in lock-step with the entity list, and hold exactly
`count * each_size` bytes. -/
def lockstep (st : ArchetypeStorage) : Prop :=
  ∀ q ∈ st.archetypes, ∀ c ∈ q.2.components,
    c.count = q.2.entities.length ∧ c.array.length = c.count * c.each_size

/-- The empty archetype (id 0) exists and has no components. -/
def arch0ok (st : ArchetypeStorage) : Prop :=
  (alookup st.archetypes 0).isSome = true ∧
  (findArchD st 0).component_ids = [] ∧ (findArchD st 0).components = []

/-- Archetypes record the id they are keyed under, and their id list is the
id sequence of their columns. -/
def archsAligned (st : ArchetypeStorage) : Prop :=
  ∀ q ∈ st.archetypes,
    q.2.id = q.1 ∧ q.2.component_ids = q.2.components.map ComponentArray.id

/-- All minted entity ids are bounded by the generator. -/
def idBound (st : ArchetypeStorage) : Prop :=
  ∀ p ∈ st.entity_locations, p.1 ≤ st.id_gen

/-- The inductive storage invariant (spec §8, invariant 1 plus the plumbing
needed to restate it after any operation). -/
def StorageInv (st : ArchetypeStorage) : Prop :=
  (akeys st.archetypes).Nodup ∧
  (akeys st.entity_locations).Nodup ∧
  arch0ok st ∧ archsAligned st ∧ lockstep st ∧
  locSound st ∧ locComplete st ∧ idBound st

/-- Every inverted-index entry `index[c][a] = i` points at an existing
archetype whose id list has `c` at position `i` (spec §8, invariant 2,
soundness half). -/
def indexSound (st : ArchetypeStorage) : Prop :=
  ∀ q ∈ st.component_locations, ∀ r ∈ q.2,
    (alookup st.archetypes r.1).isSome = true ∧
    (findArchD st r.1).component_ids.getD r.2 (q.1 + 1) = q.1

/-- Every component occurrence `a.component_ids[i] = c` is indexed
(spec §8, invariant 2, completeness half). -/
def indexComplete (st : ArchetypeStorage) : Prop :=
  ∀ q ∈ st.archetypes, ∀ ic ∈ q.2.component_ids.enum,
    ∃ m, alookup st.component_locations ic.2 = some m ∧ alookup m q.1 = some ic.1

/-- Inverted-index maps have unique keys. -/
def indexNodup (st : ArchetypeStorage) : Prop :=
  (akeys st.component_locations).Nodup ∧
  ∀ q ∈ st.component_locations, (akeys q.2).Nodup

/-- Full well-formedness: the inductive invariant plus inverted-index
consistency. -/
def IndexInv (st : ArchetypeStorage) : Prop :=
  StorageInv st ∧ indexSound st ∧ indexComplete st ∧ indexNodup st

/-! ## The public operations (for the global invariant claim) -/

/-- One public operation of the storage API. -/
inductive PublicOp where
  | create : PublicOp
  | delete (e : Nat) : PublicOp
  | add (e cid size : Nat) (v : List Nat) : PublicOp
  | remove (e cid : Nat) : PublicOp
  | runBuf (buf : List (Nat × CommandRec)) : PublicOp
  | discardBuf (buf : List (Nat × CommandRec)) : PublicOp
  deriving DecidableEq, Repr

/-- Apply a public operation to the storage (`discard` never touches the
storage). -/
def apply_op (st : ArchetypeStorage) : PublicOp → Option ArchetypeStorage
  | .create => (create_entity st).map Prod.fst
  | .delete e => delete_entity st e
  | .add e cid size v => (add_component st e cid size v).map Prod.fst
  | .remove e cid => remove_component st e cid
  | .runBuf buf => (run st buf).map Prod.fst
  | .discardBuf _ => some st

/-! ## Association-list lemmas -/

@[simp] theorem alookup_nil {α : Type} (k : Nat) : alookup ([] : List (Nat × α)) k = none := rfl

@[simp] theorem alookup_cons {α : Type} (p : Nat × α) (m : List (Nat × α)) (k : Nat) :
    alookup (p :: m) k = if p.1 = k then some p.2 else alookup m k := by
  cases p
  rfl

theorem alookup_append {α : Type} (m m' : List (Nat × α)) (k : Nat) :
    alookup (m ++ m') k = ((alookup m k).elim (alookup m' k) some) := by
  induction m with
  | nil => simp
  | cons p r ih =>
    by_cases h : p.1 = k
    · simp [h]
    · simp [h, ih]

theorem alookup_aset {α : Type} (m : List (Nat × α)) (k : Nat) (v : α) (x : Nat) :
    alookup (aset m k v) x =
      if x = k then (alookup m k).map (fun _ => v) else alookup m x := by
  induction m with
  | nil => by_cases h : x = k <;> simp [aset, h]
  | cons p r ih =>
    rcases p with ⟨a, b⟩
    simp only [aset, List.map_cons] at ih ⊢
    by_cases h1 : a = k
    · subst h1
      by_cases h2 : x = a
      · subst h2
        simp [ih]
      · have h2' : ¬ a = x := fun h => h2 h.symm
        simp [h2, h2', ih]
    · by_cases h2 : x = k
      · subst h2
        have h1' : ¬ a = x := h1
        simp [h1, h1', ih]
      · by_cases h3 : a = x
        · subst h3
          simp [h1, h2, ih]
        · simp [h1, h2, h3, ih]

theorem alookup_aemplace {α : Type} (m : List (Nat × α)) (k : Nat) (v : α) (x : Nat) :
    alookup (aemplace m k v) x =
      if x = k then ((alookup m k).elim (some v) some) else alookup m x := by
  unfold aemplace amem
  by_cases h : (alookup m k).isSome
  · rcases Option.isSome_iff_exists.mp h with ⟨w, hw⟩
    by_cases h2 : x = k
    · subst h2
      simp [h, hw]
    · simp [h, h2]
  · have hn : alookup m k = none := Option.not_isSome_iff_eq_none.mp h
    by_cases h2 : x = k
    · subst h2
      simp [h, hn, alookup_append]
    · have h2' : ¬ k = x := fun he => h2 he.symm
      simp only [Bool.false_eq_true, if_neg h, if_neg h2, alookup_append]
      cases hx : alookup m x <;> simp [h2']

theorem alookup_aerase {α : Type} (m : List (Nat × α)) (k : Nat) (x : Nat) :
    alookup (aerase m k) x = if x = k then none else alookup m x := by
  induction m with
  | nil => by_cases h : x = k <;> simp [aerase, h]
  | cons p r ih =>
    rcases p with ⟨a, b⟩
    simp only [aerase, ne_eq, List.filter_cons, decide_not] at ih ⊢
    by_cases h1 : a = k
    · subst h1
      by_cases h2 : x = a
      · subst h2
        simp [ih]
      · have h2' : ¬ a = x := fun h => h2 h.symm
        simp [ih, h2, h2']
    · by_cases h2 : x = k
      · subst h2
        have h1' : ¬ a = x := h1
        simp [ih, h1, h1']
      · by_cases h3 : a = x
        · subst h3
          simp [ih, h1, h2]
        · simp [ih, h1, h2, h3]

@[simp] theorem akeys_aset {α : Type} (m : List (Nat × α)) (k : Nat) (v : α) :
    akeys (aset m k v) = akeys m := by
  induction m with
  | nil => rfl
  | cons p r ih =>
    simp only [aset, akeys, List.map] at ih ⊢
    by_cases h : p.1 = k <;> simp [h, ih]

theorem akeys_aemplace {α : Type} (m : List (Nat × α)) (k : Nat) (v : α) :
    akeys (aemplace m k v) = if amem m k then akeys m else akeys m ++ [k] := by
  unfold aemplace
  by_cases h : amem m k <;> simp [h, akeys]

theorem alookup_isSome_iff_mem_akeys {α : Type} (m : List (Nat × α)) (k : Nat) :
    (alookup m k).isSome = true ↔ k ∈ akeys m := by
  induction m with
  | nil => simp [akeys]
  | cons p r ih =>
    rcases p with ⟨a, b⟩
    by_cases h : a = k
    · subst h
      simp [akeys]
    · have h' : ¬ k = a := fun he => h he.symm
      simp only [akeys, List.map_cons, List.mem_cons] at ih ⊢
      simp [h, h', ih]

theorem alookup_eq_some_mem {α : Type} {m : List (Nat × α)} {k : Nat} {v : α}
    (h : alookup m k = some v) : (k, v) ∈ m := by
  induction m with
  | nil => simp at h
  | cons p r ih =>
    rcases p with ⟨k', v'⟩
    by_cases hk : k' = k
    · subst hk
      simp at h
      simp [h]
    · simp [hk] at h
      exact List.mem_cons_of_mem _ (ih h)

theorem mem_alookup_of_nodup {α : Type} {m : List (Nat × α)} {k : Nat} {v : α}
    (hn : (akeys m).Nodup) (h : (k, v) ∈ m) : alookup m k = some v := by
  induction m with
  | nil => simp at h
  | cons p r ih =>
    rcases p with ⟨a, b⟩
    simp only [akeys, List.map_cons, List.nodup_cons] at hn
    rcases List.mem_cons.mp h with h1 | h1
    · injection h1 with ha hb
      subst ha
      subst hb
      simp
    · have hk : ¬ a = k := by
        intro he
        subst he
        exact hn.1 (List.mem_map.mpr ⟨(a, v), h1, rfl⟩)
      simp [hk, ih hn.2 h1]

theorem aemplace_of_isSome {α : Type} {m : List (Nat × α)} {k : Nat} (v : α)
    (h : (alookup m k).isSome = true) : aemplace m k v = m := by
  simp [aemplace, amem, h]

theorem akeys_aerase {α : Type} (m : List (Nat × α)) (k : Nat) :
    akeys (aerase m k) = (akeys m).filter (fun x => x ≠ k) := by
  induction m with
  | nil => rfl
  | cons p r ih =>
    rcases p with ⟨a, b⟩
    simp only [aerase, akeys, ne_eq, List.filter_cons, decide_not] at ih ⊢
    by_cases h : a = k <;> simp [h, ih]

theorem nodup_akeys_aemplace {α : Type} {m : List (Nat × α)} (k : Nat) (v : α)
    (hn : (akeys m).Nodup) : (akeys (aemplace m k v)).Nodup := by
  rw [akeys_aemplace]
  by_cases h : amem m k
  · simpa [h]
  · have : k ∉ akeys m := by
      intro hk
      exact h ((alookup_isSome_iff_mem_akeys m k).mpr hk)
    simp [h, List.nodup_append, this, hn]

theorem nodup_akeys_aerase {α : Type} {m : List (Nat × α)} (k : Nat)
    (hn : (akeys m).Nodup) : (akeys (aerase m k)).Nodup := by
  rw [akeys_aerase]
  exact hn.filter _

/-! ## List-update and column lemmas -/

@[simp] theorem bytesOf_length (s : Nat) (v : List Nat) : (bytesOf s v).length = s := by
  simp [bytesOf]
  omega

@[simp] theorem modN_length {α : Type} (l : List α) (i : Nat) (f : α → α) :
    (modN l i f).length = l.length := by
  induction l generalizing i with
  | nil => rfl
  | cons x xs ih =>
    cases i with
    | zero => simp [modN]
    | succ n => simp [modN, ih]

theorem getD_modN_self {α : Type} (d : α) (l : List α) (i : Nat) (f : α → α)
    (h : i < l.length) : (modN l i f).getD i d = f (l.getD i d) := by
  induction l generalizing i with
  | nil => simp at h
  | cons x xs ih =>
    cases i with
    | zero => simp [modN]
    | succ n =>
      simp only [modN, List.getD_cons_succ]
      exact ih n (by simpa using h)

theorem getD_modN_ne {α : Type} (d : α) (l : List α) (i : Nat) (f : α → α) (x : Nat)
    (h : x ≠ i) : (modN l i f).getD x d = l.getD x d := by
  induction l generalizing i x with
  | nil => cases i <;> rfl
  | cons a xs ih =>
    cases i with
    | zero =>
      cases x with
      | zero => exact absurd rfl h
      | succ m => simp [modN]
    | succ n =>
      cases x with
      | zero => simp [modN]
      | succ m =>
        simp only [modN, List.getD_cons_succ]
        exact ih n m (by omega)

@[simp] theorem set_at_id (c : ComponentArray) (i : Nat) (v : List Nat) :
    (c.set_at i v).id = c.id := rfl

@[simp] theorem set_at_each_size (c : ComponentArray) (i : Nat) (v : List Nat) :
    (c.set_at i v).each_size = c.each_size := rfl

@[simp] theorem set_at_count (c : ComponentArray) (i : Nat) (v : List Nat) :
    (c.set_at i v).count = c.count := rfl

@[simp] theorem grow_id (c : ComponentArray) : c.grow.id = c.id := rfl

@[simp] theorem grow_each_size (c : ComponentArray) : c.grow.each_size = c.each_size := rfl

@[simp] theorem grow_count (c : ComponentArray) : c.grow.count = c.count + 1 := rfl

@[simp] theorem grow_array_length (c : ComponentArray) :
    c.grow.array.length = c.array.length + c.each_size := by
  simp [ComponentArray.grow]

theorem set_at_array_length (c : ComponentArray) (i : Nat) (v : List Nat)
    (h : (i + 1) * c.each_size ≤ c.array.length) :
    (c.set_at i v).array.length = c.array.length := by
  have hs : (i + 1) * c.each_size = i * c.each_size + c.each_size := by ring
  rw [hs] at h
  simp only [ComponentArray.set_at, List.length_append, List.length_take,
    List.length_drop, bytesOf_length, hs]
  omega

theorem get_at_set_at_self (c : ComponentArray) (i : Nat) (v : List Nat)
    (h : (i + 1) * c.each_size ≤ c.array.length) :
    (c.set_at i v).get_at i = bytesOf c.each_size v := by
  have hs : (i + 1) * c.each_size = i * c.each_size + c.each_size := by ring
  rw [hs] at h
  have htake : (c.array.take (i * c.each_size)).length = i * c.each_size := by
    rw [List.length_take]
    omega
  simp only [ComponentArray.get_at, ComponentArray.set_at]
  rw [List.append_assoc, List.drop_left' htake, List.take_left' (bytesOf_length _ _)]

theorem get_at_set_at_lt (c : ComponentArray) (x i : Nat) (v : List Nat)
    (hx : x < i) (h : i * c.each_size ≤ c.array.length) :
    (c.set_at i v).get_at x = c.get_at x := by
  have h1 : x * c.each_size + c.each_size ≤ i * c.each_size := by
    have : (x + 1) * c.each_size ≤ i * c.each_size := Nat.mul_le_mul_right _ hx
    have hs : (x + 1) * c.each_size = x * c.each_size + c.each_size := by ring
    omega
  have htake : (c.array.take (i * c.each_size)).length = i * c.each_size := by
    rw [List.length_take]
    omega
  simp only [ComponentArray.get_at, ComponentArray.set_at]
  rw [List.append_assoc,
    List.drop_append_of_le_length (by omega),
    List.take_append_of_le_length (by rw [List.length_drop, htake]; omega),
    List.drop_take, List.take_take,
    Nat.min_eq_left (by omega)]

theorem get_at_set_at_gt (c : ComponentArray) (x i : Nat) (v : List Nat)
    (hx : i < x) (h : (i + 1) * c.each_size ≤ c.array.length) :
    (c.set_at i v).get_at x = c.get_at x := by
  have hs : (i + 1) * c.each_size = i * c.each_size + c.each_size := by ring
  rw [hs] at h
  have h1 : i * c.each_size + c.each_size ≤ x * c.each_size := by
    have : (i + 1) * c.each_size ≤ x * c.each_size := Nat.mul_le_mul_right _ hx
    omega
  have hpre : (c.array.take (i * c.each_size) ++ bytesOf c.each_size v).length =
      i * c.each_size + c.each_size := by
    rw [List.length_append, List.length_take, bytesOf_length]
    omega
  simp only [ComponentArray.get_at, ComponentArray.set_at]
  have hsplit : x * c.each_size =
      (c.array.take (i * c.each_size) ++ bytesOf c.each_size v).length +
        (x * c.each_size - (i * c.each_size + c.each_size)) := by
    rw [hpre]
    omega
  rw [hsplit, List.drop_append, List.drop_drop, hpre, hs]

theorem get_at_grow (c : ComponentArray) (x : Nat)
    (hlen : c.array.length = c.count * c.each_size) (hx : x < c.count) :
    c.grow.get_at x = c.get_at x := by
  have h1 : x * c.each_size + c.each_size ≤ c.array.length := by
    have : (x + 1) * c.each_size ≤ c.count * c.each_size := Nat.mul_le_mul_right _ hx
    have hs : (x + 1) * c.each_size = x * c.each_size + c.each_size := by ring
    omega
  simp only [ComponentArray.get_at, ComponentArray.grow]
  rw [List.drop_append_of_le_length (by omega),
    List.take_append_of_le_length (by rw [List.length_drop]; omega)]

theorem get_at_grow_last (c : ComponentArray)
    (hlen : c.array.length = c.count * c.each_size) :
    c.grow.get_at c.count = List.replicate c.each_size 0 := by
  simp only [ComponentArray.get_at, ComponentArray.grow]
  rw [List.drop_left' hlen]
  simp

theorem take_out_at_id (c : ComponentArray) (i : Nat) :
    (c.take_out_at i).id = c.id := by
  simp only [ComponentArray.take_out_at]
  by_cases h : c.each_size ≠ 0 ∧ i < c.count - 1 <;> simp [h]

theorem take_out_at_each_size (c : ComponentArray) (i : Nat) :
    (c.take_out_at i).each_size = c.each_size := by
  simp only [ComponentArray.take_out_at]
  by_cases h : c.each_size ≠ 0 ∧ i < c.count - 1 <;> simp [h]

@[simp] theorem take_out_at_count (c : ComponentArray) (i : Nat) :
    (c.take_out_at i).count = c.count - 1 := rfl

theorem take_out_at_array_length (c : ComponentArray) (i : Nat)
    (hlen : c.array.length = c.count * c.each_size) (hc : i < c.count) :
    (c.take_out_at i).array.length = (c.count - 1) * c.each_size := by
  have hsub : (c.count - 1) * c.each_size = c.count * c.each_size - c.each_size :=
    Nat.sub_one_mul c.count c.each_size
  simp only [ComponentArray.take_out_at]
  by_cases h : c.each_size ≠ 0 ∧ i < c.count - 1
  · have hset : (c.set_at i c.get_last).array.length = c.array.length := by
      apply set_at_array_length
      have : (i + 1) * c.each_size ≤ c.count * c.each_size := Nat.mul_le_mul_right _ hc
      omega
    rw [if_pos h]
    simp only [List.length_take, hset, hlen]
    omega
  · rw [if_neg h]
    simp only [List.length_take, hlen]
    omega

/-! ## Inverted-index update lemmas -/

/-- `clocs2` refines `clocs` by possibly registering archetype `newAid` in
the inner maps of the keys in `touched`: keys are unchanged, untouched
keys map to the same inner map, and every existing inner entry is
preserved (only a `newAid` entry may appear). -/
def clocs_extend (touched : List Nat) (newAid : Nat)
    (clocs clocs2 : List (Nat × List (Nat × Nat))) : Prop :=
  akeys clocs2 = akeys clocs ∧
  (∀ c, c ∉ touched → alookup clocs2 c = alookup clocs c) ∧
  (∀ c m, alookup clocs c = some m → ∃ m2, alookup clocs2 c = some m2 ∧
    (∀ x, x ≠ newAid → alookup m2 x = alookup m x) ∧
    (∀ w, alookup m newAid = some w → alookup m2 newAid = some w))

theorem clocs_extend_refl (t : List Nat) (n : Nat)
    (clocs : List (Nat × List (Nat × Nat))) : clocs_extend t n clocs clocs :=
  ⟨rfl, fun _ _ => rfl, fun _ m h => ⟨m, h, fun _ _ => rfl, fun _ hw => hw⟩⟩

theorem clocs_extend_trans {t : List Nat} {n : Nat}
    {c1 c2 c3 : List (Nat × List (Nat × Nat))}
    (h1 : clocs_extend t n c1 c2) (h2 : clocs_extend t n c2 c3) :
    clocs_extend t n c1 c3 := by
  obtain ⟨hk1, hu1, he1⟩ := h1
  obtain ⟨hk2, hu2, he2⟩ := h2
  refine ⟨hk2.trans hk1, fun c hc => (hu2 c hc).trans (hu1 c hc), ?_⟩
  intro c m hm
  obtain ⟨m2, hm2, hx2, hw2⟩ := he1 c m hm
  obtain ⟨m3, hm3, hx3, hw3⟩ := he2 c m2 hm2
  exact ⟨m3, hm3, fun x hx => (hx3 x hx).trans (hx2 x hx),
    fun w hw => hw3 w (hw2 w hw)⟩

theorem clocs_extend_mono {t1 t2 : List Nat} {n : Nat}
    {c1 c2 : List (Nat × List (Nat × Nat))}
    (hsub : ∀ x ∈ t1, x ∈ t2) (h : clocs_extend t1 n c1 c2) :
    clocs_extend t2 n c1 c2 :=
  ⟨h.1, fun c hc => h.2.1 c (fun hmem => hc (hsub c hmem)), h.2.2⟩

theorem clocs_extend_isSome {t : List Nat} {n : Nat}
    {c1 c2 : List (Nat × List (Nat × Nat))} (h : clocs_extend t n c1 c2) (c : Nat) :
    (alookup c2 c).isSome = (alookup c1 c).isSome := by
  by_cases h1 : (alookup c1 c).isSome = true
  · have h2 : c ∈ akeys c1 := (alookup_isSome_iff_mem_akeys _ _).mp h1
    have h3 : (alookup c2 c).isSome = true :=
      (alookup_isSome_iff_mem_akeys _ _).mpr (h.1 ▸ h2)
    rw [h1, h3]
  · have h2 : c ∉ akeys c1 := fun hm => h1 ((alookup_isSome_iff_mem_akeys _ _).mpr hm)
    have h3 : ¬ (alookup c2 c).isSome = true :=
      fun hs => h2 (h.1 ▸ (alookup_isSome_iff_mem_akeys _ _).mp hs)
    simp only [Bool.not_eq_true] at h1 h3
    rw [h1, h3]

theorem cl_emplace_eq {clocs : List (Nat × List (Nat × Nat))} {key : Nat}
    (newAid i : Nat) {m : List (Nat × Nat)} (h : alookup clocs key = some m) :
    cl_emplace clocs key newAid i = some (aset clocs key (aemplace m newAid i)) := by
  simp [cl_emplace, h]

theorem cl_emplace_extend {clocs : List (Nat × List (Nat × Nat))} {key : Nat}
    (newAid i : Nat) {m : List (Nat × Nat)} (h : alookup clocs key = some m) :
    clocs_extend [key] newAid clocs (aset clocs key (aemplace m newAid i)) := by
  refine ⟨akeys_aset _ _ _, ?_, ?_⟩
  · intro c hc
    have hck : ¬ c = key := by simpa using hc
    rw [alookup_aset]
    simp [hck]
  · intro c m' hm'
    by_cases hc : c = key
    · subst hc
      rw [h] at hm'
      injection hm' with hm'
      subst hm'
      refine ⟨aemplace m newAid i, ?_, ?_, ?_⟩
      · rw [alookup_aset]
        simp [h]
      · intro x hx
        rw [alookup_aemplace]
        simp [hx]
      · intro w hw
        rw [alookup_aemplace]
        simp [hw]
    · exact ⟨m', by rw [alookup_aset]; simp [hc, hm'], fun _ _ => rfl, fun _ hw => hw⟩

/-! ## Characterizations of the migration copy loops -/

/-- Any successful run of the `add_component` copy loop writes `add_write`
into exactly the columns of the iteration range and preserves everything
else about the archetype. -/
theorem add_loop_shape (a : Archetype) (row j cid newAid : Nat) (v : List Nat) :
    ∀ (fuel s : Nat) (na : Archetype) (clocs : List (Nat × List (Nat × Nat)))
      (na2 : Archetype) (clocs2 : List (Nat × List (Nat × Nat))),
      for_loop_aux (add_copy_step a row j cid newAid v) fuel s (na, clocs) =
        some (na2, clocs2) →
      na2.id = na.id ∧ na2.component_ids = na.component_ids ∧
      na2.entities = na.entities ∧ na2.components.length = na.components.length ∧
      (∀ x, x < s ∨ s + fuel ≤ x →
        na2.components.getD x default = na.components.getD x default) ∧
      (∀ x, s ≤ x → x < s + fuel → x < na.components.length →
        na2.components.getD x default = add_write a row j v x (na.components.getD x default)) := by
  intro fuel
  induction fuel with
  | zero =>
    intro s na clocs na2 clocs2 h
    simp only [for_loop_aux, Option.some.injEq, Prod.mk.injEq] at h
    obtain ⟨h1, _⟩ := h
    subst h1
    exact ⟨rfl, rfl, rfl, rfl, fun _ _ => rfl, fun x h1 h2 _ => by omega⟩
  | succ fuel ih =>
    intro s na clocs na2 clocs2 h
    simp only [for_loop_aux, add_copy_step, Option.bind_eq_bind, Option.bind_eq_some] at h
    rcases h with ⟨⟨na', clocs'⟩, hstep, hrest⟩
    simp only [Option.bind_eq_some, Option.some.injEq, Prod.mk.injEq] at hstep
    rcases hstep with ⟨cl', hcl, hna', hcl'⟩
    subst hna'
    subst hcl'
    obtain ⟨hid, hids, hents, hlen, hunch, hwr⟩ := ih (s + 1) _ _ na2 clocs2 hrest
    simp only [modN_length] at hlen
    refine ⟨hid, hids, hents, hlen, ?_, ?_⟩
    · intro x hx
      have hx1 : x < s + 1 ∨ (s + 1) + fuel ≤ x := by omega
      rw [hunch x hx1]
      exact getD_modN_ne _ _ _ _ _ (by omega)
    · intro x hxs hxe hxlen
      by_cases hxeq : x = s
      · subst hxeq
        rw [hunch x (Or.inl (by omega))]
        exact getD_modN_self _ _ _ _ hxlen
      · have h1 := hwr x (by omega) (by omega) (by simpa using hxlen)
        rw [h1]
        rw [getD_modN_ne _ _ _ _ _ (by omega)]

/-- Under the well-formedness of the old archetype and the presence of all
relevant inverted-index keys, the `add_component` copy loop succeeds and
only extends the inverted index. -/
theorem add_loop_wf (a : Archetype) (row j cid newAid : Nat) (v : List Nat) :
    ∀ (fuel s : Nat) (na : Archetype) (clocs : List (Nat × List (Nat × Nat))),
      s + fuel = na.components.length →
      na.components.length = a.components.length + 1 →
      j ≤ a.components.length →
      (alookup clocs cid).isSome = true →
      (∀ c ∈ a.components, (alookup clocs c.id).isSome = true) →
      ∃ na2 clocs2,
        for_loop_aux (add_copy_step a row j cid newAid v) fuel s (na, clocs) =
          some (na2, clocs2) ∧
        clocs_extend (cid :: a.components.map ComponentArray.id) newAid clocs clocs2 := by
  intro fuel
  induction fuel with
  | zero =>
    intro s na clocs _ _ _ _ _
    exact ⟨na, clocs, rfl, clocs_extend_refl _ _ _⟩
  | succ fuel ih =>
    intro s na clocs hcnt hlen hj hcid hkeys
    have hs : s < na.components.length := by omega
    have hkey : (alookup clocs (if s = j then cid
        else (a.components.getD (if s < j then s else s - 1) default).id)).isSome = true := by
      by_cases hsj : s = j
      · simpa [hsj] using hcid
      · have hsrc : (if s < j then s else s - 1) < a.components.length := by
          by_cases hlt : s < j
          · simp only [hlt, if_true]
            omega
          · simp only [hlt, if_false]
            omega
        have hmem : a.components.getD (if s < j then s else s - 1) default ∈ a.components := by
          rw [List.getD_eq_getElem _ _ hsrc]
          exact List.getElem_mem _
        simpa [hsj] using hkeys _ hmem
    obtain ⟨m, hm⟩ := Option.isSome_iff_exists.mp hkey
    have hstep := cl_emplace_eq newAid s hm
    have hext1 := cl_emplace_extend newAid s hm
    set na' : Archetype :=
      { na with components := modN na.components s (add_write a row j v s) } with hna'
    set cl' := aset clocs (if s = j then cid
      else (a.components.getD (if s < j then s else s - 1) default).id)
      (aemplace m newAid s) with hcl'
    obtain ⟨na2, clocs2, hloop, hext2⟩ := ih (s + 1) na' cl'
      (by simp [hna']; omega)
      (by simp [hna']; omega)
      hj
      (by rw [clocs_extend_isSome hext1 cid]; exact hcid)
      (by
        intro c hc
        rw [clocs_extend_isSome hext1 c.id]
        exact hkeys c hc)
    refine ⟨na2, clocs2, ?_, ?_⟩
    · simp only [for_loop_aux, add_copy_step, Option.bind_eq_bind]
      rw [hstep]
      simpa [hna', hcl'] using hloop
    · refine clocs_extend_trans (clocs_extend_mono ?_ hext1) hext2
      intro x hx
      simp only [List.mem_singleton] at hx
      subst hx
      by_cases hsj : s = j
      · simp [hsj]
      · simp only [hsj, if_false]
        right
        have hsrc : (if s < j then s else s - 1) < a.components.length := by
          by_cases hlt : s < j
          · simp only [hlt, if_true]
            omega
          · simp only [hlt, if_false]
            omega
        refine List.mem_map.mpr ⟨a.components.getD (if s < j then s else s - 1) default, ?_, rfl⟩
        rw [List.getD_eq_getElem _ _ hsrc]
        exact List.getElem_mem _

/-- Writing the last element of a lock-step column preserves its byte
length. -/
theorem set_at_last_length (c : ComponentArray) (v : List Nat)
    (hc : 1 ≤ c.count) (h : c.array.length = c.count * c.each_size) :
    (c.set_at (c.count - 1) v).array.length = c.array.length := by
  apply set_at_array_length
  have h1 : c.count - 1 + 1 = c.count := by omega
  rw [h1, ← h]

/-- Any successful run of the `remove_component` copy loop preserves every
column's id, element size, count and byte length (each write is a
`set_at` into the last row). -/
theorem remove_loop_shape (a : Archetype) (row j newAid : Nat) :
    ∀ (fuel s : Nat) (na : Archetype) (clocs : List (Nat × List (Nat × Nat)))
      (na2 : Archetype) (clocs2 : List (Nat × List (Nat × Nat))),
      (∀ x, x < na.components.length →
        1 ≤ (na.components.getD x default).count ∧
        (na.components.getD x default).array.length =
          (na.components.getD x default).count * (na.components.getD x default).each_size) →
      for_loop_aux (remove_copy_step a row j newAid) fuel s (na, clocs) =
        some (na2, clocs2) →
      na2.id = na.id ∧ na2.component_ids = na.component_ids ∧
      na2.entities = na.entities ∧ na2.components.length = na.components.length ∧
      (∀ x, x < na.components.length →
        (na2.components.getD x default).id = (na.components.getD x default).id ∧
        (na2.components.getD x default).each_size = (na.components.getD x default).each_size ∧
        (na2.components.getD x default).count = (na.components.getD x default).count ∧
        (na2.components.getD x default).array.length =
          (na.components.getD x default).array.length) := by
  intro fuel
  induction fuel with
  | zero =>
    intro s na clocs na2 clocs2 _ h
    simp only [for_loop_aux, Option.some.injEq, Prod.mk.injEq] at h
    obtain ⟨h1, _⟩ := h
    subst h1
    exact ⟨rfl, rfl, rfl, rfl, fun x _ => ⟨rfl, rfl, rfl, rfl⟩⟩
  | succ fuel ih =>
    intro s na clocs na2 clocs2 hwf h
    by_cases hsj : s = j
    · subst hsj
      simp only [for_loop_aux, remove_copy_step, if_pos rfl, Option.bind_eq_bind,
        Option.some_bind] at h
      exact ih _ na clocs na2 clocs2 hwf h
    · simp only [for_loop_aux, remove_copy_step, if_neg hsj, Option.bind_eq_bind,
        Option.bind_eq_some] at h
      rcases h with ⟨⟨na', clocs'⟩, hstep, hrest⟩
      simp only [Option.bind_eq_some, Option.some.injEq, Prod.mk.injEq] at hstep
      rcases hstep with ⟨cl', hcl, hna', hcl'⟩
      subst hna'
      subst hcl'
      have hwf' : ∀ x, x < (modN na.components (if s < j then s else s - 1)
          (remove_write a row s)).length →
          1 ≤ ((modN na.components (if s < j then s else s - 1)
            (remove_write a row s)).getD x default).count ∧
          ((modN na.components (if s < j then s else s - 1)
            (remove_write a row s)).getD x default).array.length =
          ((modN na.components (if s < j then s else s - 1)
            (remove_write a row s)).getD x default).count *
          ((modN na.components (if s < j then s else s - 1)
            (remove_write a row s)).getD x default).each_size := by
        intro x hx
        simp only [modN_length] at hx
        by_cases hxd : x = (if s < j then s else s - 1)
        · subst hxd
          rw [getD_modN_self _ _ _ _ hx]
          obtain ⟨hc1, hc2⟩ := hwf _ hx
          simp only [remove_write, set_at_count, set_at_each_size]
          rw [set_at_last_length _ _ hc1 hc2]
          exact ⟨hc1, hc2⟩
        · rw [getD_modN_ne _ _ _ _ _ hxd]
          exact hwf _ hx
      obtain ⟨hid, hids, hents, hlen, hcols⟩ := ih (s + 1) _ _ na2 clocs2 hwf' hrest
      simp only [modN_length] at hlen hcols
      refine ⟨hid, hids, hents, hlen, ?_⟩
      intro x hx
      obtain ⟨h1, h2, h3, h4⟩ := hcols x hx
      by_cases hxd : x = (if s < j then s else s - 1)
      · subst hxd
        rw [getD_modN_self _ _ _ _ hx] at h1 h2 h3 h4
        obtain ⟨hc1, hc2⟩ := hwf _ hx
        simp only [remove_write, set_at_count, set_at_each_size, set_at_id] at h1 h2 h3 h4
        rw [set_at_last_length _ _ hc1 hc2] at h4
        exact ⟨h1, h2, h3, h4⟩
      · rw [getD_modN_ne _ _ _ _ _ hxd] at h1 h2 h3 h4
        exact ⟨h1, h2, h3, h4⟩

/-- Under presence of the inverted-index keys of all old columns, the
`remove_component` copy loop succeeds and only extends the inverted
index. -/
theorem remove_loop_wf (a : Archetype) (row j newAid : Nat) :
    ∀ (fuel s : Nat) (na : Archetype) (clocs : List (Nat × List (Nat × Nat))),
      s + fuel = a.components.length →
      (∀ c ∈ a.components, (alookup clocs c.id).isSome = true) →
      ∃ na2 clocs2,
        for_loop_aux (remove_copy_step a row j newAid) fuel s (na, clocs) =
          some (na2, clocs2) ∧
        clocs_extend (a.components.map ComponentArray.id) newAid clocs clocs2 := by
  intro fuel
  induction fuel with
  | zero =>
    intro s na clocs _ _
    exact ⟨na, clocs, rfl, clocs_extend_refl _ _ _⟩
  | succ fuel ih =>
    intro s na clocs hcnt hkeys
    have hs : s < a.components.length := by omega
    by_cases hsj : s = j
    · obtain ⟨na2, clocs2, hloop, hext⟩ := ih (s + 1) na clocs (by omega) hkeys
      refine ⟨na2, clocs2, ?_, hext⟩
      subst hsj
      simp only [for_loop_aux, remove_copy_step, if_pos rfl, Option.bind_eq_bind,
        Option.some_bind]
      exact hloop
    · have hmem : a.components.getD s default ∈ a.components := by
        rw [List.getD_eq_getElem _ _ hs]
        exact List.getElem_mem _
      have hkey := hkeys _ hmem
      obtain ⟨m, hm⟩ := Option.isSome_iff_exists.mp hkey
      have hstep := cl_emplace_eq newAid (if s < j then s else s - 1) hm
      have hext1 := cl_emplace_extend newAid (if s < j then s else s - 1) hm
      obtain ⟨na2, clocs2, hloop, hext2⟩ := ih (s + 1)
        ⟨na.id, na.component_ids, na.entities,
          modN na.components (if s < j then s else s - 1) (remove_write a row s)⟩
        (aset clocs (a.components.getD s default).id
          (aemplace m newAid (if s < j then s else s - 1)))
        (by omega)
        (by
          intro c hc
          rw [clocs_extend_isSome hext1 c.id]
          exact hkeys c hc)
      refine ⟨na2, clocs2, ?_, ?_⟩
      · simp only [for_loop_aux, remove_copy_step, if_neg hsj, Option.bind_eq_bind]
        rw [hstep]
        simpa using hloop
      · refine clocs_extend_trans (clocs_extend_mono ?_ hext1) hext2
        intro x hx
        simp only [List.mem_singleton] at hx
        subst hx
        exact List.mem_map.mpr ⟨a.components.getD s default, hmem, rfl⟩

theorem for_loop_snoc {β : Type} (step : β → Nat → Option β) (n : Nat) :
    ∀ (k s : Nat) (acc : β), n - s = k → s ≤ n →
      for_loop step s (n + 1) acc =
        (for_loop step s n acc).bind (fun acc2 => step acc2 n) := by
  intro k
  induction k with
  | zero =>
    intro s acc hk hs
    have hsn : s = n := by omega
    subst hsn
    rw [for_loop_step step s (s + 1) acc (by omega), for_loop_stop step s s acc (Nat.le_refl s)]
    simp only [Option.some_bind]
    cases hst : step acc s with
    | none => simp
    | some acc2 => simp [for_loop_stop step (s + 1) (s + 1) acc2 (Nat.le_refl _)]
  | succ k ihk =>
    intro s acc hk hs
    have hlt : s < n := by omega
    rw [for_loop_step step s (n + 1) acc (by omega), for_loop_step step s n acc hlt]
    cases hst : step acc s with
    | none => simp
    | some acc2 =>
      simp only [Option.some_bind, Option.bind_eq_bind]
      exact ihk (s + 1) acc2 (by omega) (by omega)

/-- Exact description of the `remove_component` copy loop on a
correctly-sized destination archetype: destination column `y` receives the
entity's bytes of old column `y` (when `y < j`) or `y + 1` (when
`y ≥ j`). -/
theorem remove_loop_bytes (a : Archetype) (row j newAid : Nat)
    (hj : j < a.components.length) :
    ∀ (n : Nat), n ≤ a.components.length →
    ∀ (na : Archetype) (clocs : List (Nat × List (Nat × Nat)))
      (na2 : Archetype) (clocs2 : List (Nat × List (Nat × Nat))),
      na.components.length = a.components.length - 1 →
      for_loop (remove_copy_step a row j newAid) 0 n (na, clocs) = some (na2, clocs2) →
      na2.id = na.id ∧ na2.component_ids = na.component_ids ∧
      na2.entities = na.entities ∧ na2.components.length = na.components.length ∧
      (∀ y, y < na.components.length →
        na2.components.getD y default =
          if (if y < j then y else y + 1) < n then
            remove_write a row (if y < j then y else y + 1) (na.components.getD y default)
          else na.components.getD y default) := by
  intro n
  induction n with
  | zero =>
    intro _ na clocs na2 clocs2 hlen h
    rw [for_loop_stop _ _ _ _ (Nat.le_refl 0)] at h
    simp only [Option.some.injEq, Prod.mk.injEq] at h
    obtain ⟨h1, _⟩ := h
    subst h1
    exact ⟨rfl, rfl, rfl, rfl, fun y _ => by simp⟩
  | succ n ihn =>
    intro hn na clocs na2 clocs2 hlen h
    rw [for_loop_snoc (remove_copy_step a row j newAid) n (n - 0) 0 (na, clocs) rfl
      (Nat.zero_le n)] at h
    rcases Option.bind_eq_some.mp h with ⟨⟨na1, clocs1⟩, hpre, hstep⟩
    obtain ⟨hid, hids, hents, hlen1, hdesc⟩ :=
      ihn (by omega) na clocs na1 clocs1 hlen hpre
    by_cases hnj : n = j
    · simp only [remove_copy_step, if_pos hnj, Option.some.injEq, Prod.mk.injEq] at hstep
      obtain ⟨h1, _⟩ := hstep
      subst h1
      refine ⟨hid, hids, hents, hlen1, ?_⟩
      intro y hy
      rw [hdesc y hy]
      by_cases hyj : y < j
      · have hc : y < n := by omega
        have hc1 : y < n + 1 := by omega
        simp [hyj, hc, hc1]
      · have h1 : ¬ y + 1 < n := by omega
        have h2 : ¬ y + 1 < n + 1 := by omega
        simp [hyj, h1, h2]
    · simp only [remove_copy_step, if_neg hnj, Option.bind_eq_bind, Option.bind_eq_some,
        Option.some.injEq, Prod.mk.injEq] at hstep
      rcases hstep with ⟨cl', hcl, hna2, hcl2⟩
      have hdst : (if n < j then n else n - 1) < na.components.length := by
        by_cases hlt : n < j
        · simp only [hlt, if_true]
          omega
        · simp only [hlt, if_false]
          omega
      refine ⟨?_, ?_, ?_, ?_, ?_⟩
      · rw [← hna2]
        exact hid
      · rw [← hna2]
        exact hids
      · rw [← hna2]
        exact hents
      · rw [← hna2]
        simp [hlen1]
      · intro y hy
        rw [← hna2]
        simp only []
        by_cases hyd : y = (if n < j then n else n - 1)
        · subst hyd
          rw [getD_modN_self _ _ _ _ (by omega)]
          rw [hdesc _ hdst]
          by_cases hlt : n < j
          · simp only [hlt, if_true] at *
            have h1 : ¬ n < n := by omega
            have h2 : n < n + 1 := by omega
            simp [h1, h2, hlt]
          · have hgt : j < n := by omega
            simp only [hlt, if_false] at *
            have hyj : ¬ n - 1 < j := by omega
            have h1 : n - 1 + 1 = n := by omega
            have h2 : ¬ n < n := by omega
            have h3 : n < n + 1 := by omega
            simp [hyj, h1, h2, h3]
        · rw [getD_modN_ne _ _ _ _ _ hyd]
          rw [hdesc y hy]
          have hneq : ¬ (if y < j then y else y + 1) = n := by
            by_cases hylt : y < j
            · simp only [if_pos hylt]
              intro he
              apply hyd
              have hlt : n < j := by omega
              simp [if_pos hlt]
              omega
            · simp only [if_neg hylt]
              intro he
              apply hyd
              have hgt : ¬ n < j := by omega
              simp [if_neg hgt]
              omega
          by_cases hc : (if y < j then y else y + 1) < n
          · have hc1 : (if y < j then y else y + 1) < n + 1 := by omega
            simp [hc, hc1]
          · have hc1 : ¬ (if y < j then y else y + 1) < n + 1 := by omega
            simp [hc, hc1]

/-! ## Operation-level characterizations -/

theorem alookup_aemplace_self {α : Type} (m : List (Nat × α)) (k : Nat) (v : α) :
    alookup (aemplace m k v) k = some ((alookup m k).getD v) := by
  rw [alookup_aemplace]
  cases h : alookup m k <;> simp

theorem alookup_aemplace_isSome_mono {α : Type} {m : List (Nat × α)} {c : Nat}
    (k : Nat) (v : α) (h : (alookup m c).isSome = true) :
    (alookup (aemplace m k v) c).isSome = true := by
  rw [alookup_aemplace]
  by_cases hc : c = k
  · subst hc
    cases hm : alookup m c <;> simp
  · simpa [hc]

theorem getD_map_lt {α β : Type} (f : α → β) (l : List α) (x : Nat) (d : α) (d2 : β)
    (h : x < l.length) : (l.map f).getD x d2 = f (l.getD x d) := by
  rw [List.getD_eq_getElem _ _ (by simpa using h), List.getD_eq_getElem _ _ h,
    List.getElem_map]

/-- The component-info list `add_component` builds when inserting `cid` of
size `size` into the set of archetype `a`. -/
def add_infos (a : Archetype) (cid size : Nat) : List (Nat × Nat) :=
  insert_info (infos_of a) (insert_pos a.component_ids cid) (cid, size)

/-- The archetype `add_component` migrates into: the one already stored
under the computed id, or the freshly constructed one. -/
def add_target (st : ArchetypeStorage) (a : Archetype) (cid size : Nat) : Archetype :=
  (alookup st.archetypes (calculate_archetype_id (add_infos a cid size))).getD
    (Archetype.mk_from_infos (calculate_archetype_id (add_infos a cid size)) (add_infos a cid size))

/-- Full characterization of a successful `add_component` migration: the
resulting storage is assembled from the mutated new archetype `na2`
(entity appended, payload and old bytes written), the swap-removed old
archetype `a1`, the displaced-entity location fix `locs1`, the moved
entity's new location, and an inverted index that is only extended. -/
theorem add_component_spec
    (st : ArchetypeStorage) (e cid size : Nat) (v : List Nat)
    (aid row : Nat) (a : Archetype) (newAid : Nat) (naQ : Archetype)
    (locs1 : List (Nat × Location)) (a1 : Archetype)
    (h1 : alookup st.entity_locations e = some (aid, row))
    (h2 : alookup st.archetypes aid = some a)
    (h3 : a.has_component cid = false)
    (halign : a.component_ids.length = a.components.length)
    (hnew : newAid = calculate_archetype_id (add_infos a cid size))
    (hnaQ : naQ = add_target st a cid size)
    (h4 : newAid ≠ aid)
    (hnalen : naQ.components.length = a.components.length + 1)
    (hkeys : ∀ c ∈ a.components, (alookup st.component_locations c.id).isSome = true)
    (htake : Archetype.take_out_entity st.entity_locations a row = some (locs1, a1)) :
    ∃ na2 clocs2,
      add_component st e cid size v =
        some ({ st with
          archetypes := aset (aset
            (aemplace st.archetypes newAid (Archetype.mk_from_infos newAid (add_infos a cid size)))
            newAid na2) aid a1
          entity_locations := aset locs1 e (newAid, naQ.entities.length)
          component_locations := clocs2 }, true) ∧
      na2.id = naQ.id ∧
      na2.component_ids = naQ.component_ids ∧
      na2.entities = naQ.entities ++ [e] ∧
      na2.components.length = naQ.components.length ∧
      (∀ x, x < naQ.components.length →
        na2.components.getD x default =
          add_write a row (insert_pos a.component_ids cid) v x
            ((naQ.components.getD x default).grow)) ∧
      clocs_extend (cid :: a.components.map ComponentArray.id) newAid
        (aemplace st.component_locations cid []) clocs2 := by
  have hj : insert_pos a.component_ids cid ≤ a.components.length := by
    rw [← halign]
    exact List.findIdx_le_length _
  have hna1len : (naQ.add_entity e).1.components.length = a.components.length + 1 := by
    simp [Archetype.add_entity, hnalen]
  obtain ⟨na2, clocs2, hloop, hext⟩ :=
    add_loop_wf a row (insert_pos a.component_ids cid) cid newAid v
      ((naQ.add_entity e).1.components.length) 0 (naQ.add_entity e).1
      (aemplace st.component_locations cid [])
      (by omega) (by omega) hj
      (by rw [alookup_aemplace_self]; rfl)
      (fun c hc => alookup_aemplace_isSome_mono cid [] (hkeys c hc))
  obtain ⟨hid, hids, hents, hlen, _, hwr⟩ :=
    add_loop_shape a row (insert_pos a.component_ids cid) cid newAid v
      ((naQ.add_entity e).1.components.length) 0 (naQ.add_entity e).1
      (aemplace st.component_locations cid []) na2 clocs2 hloop
  refine ⟨na2, clocs2, ?_, ?_, ?_, ?_, ?_, ?_, hext⟩
  · have hnew2 : newAid =
        calculate_archetype_id (insert_info (infos_of a) (insert_pos a.component_ids cid) (cid, size)) :=
      hnew
    have hlook : alookup (aemplace st.archetypes newAid
        (Archetype.mk_from_infos newAid
          (insert_info (infos_of a) (insert_pos a.component_ids cid) (cid, size)))) newAid =
        some naQ := by
      rw [alookup_aemplace_self, hnaQ]
      simp only [add_target, add_infos]
      rw [← hnew2]
    have hloop2 : for_loop (add_copy_step a row (insert_pos a.component_ids cid) cid newAid v)
        0 ((naQ.add_entity e).1).components.length
        ((naQ.add_entity e).1, aemplace st.component_locations cid []) = some (na2, clocs2) := by
      unfold for_loop
      simpa using hloop
    simp only [Archetype.add_entity] at hloop2
    unfold add_component
    rw [h1]
    simp only [Option.some_bind, Option.bind_eq_bind]
    rw [h2]
    simp only [Option.some_bind, h3, Bool.false_eq_true, if_false]
    rw [← hnew2, hlook]
    simp only [Option.some_bind, if_neg h4, Archetype.add_entity]
    rw [hloop2]
    simp only [Option.some_bind]
    rw [htake]
    simp only [Option.some_bind]
    rfl
  · simpa [Archetype.add_entity] using hid
  · simpa [Archetype.add_entity] using hids
  · simpa [Archetype.add_entity] using hents
  · simpa [Archetype.add_entity, hnalen] using hlen
  · intro x hx
    have hx1 : x < (naQ.add_entity e).1.components.length := by
      simpa [Archetype.add_entity] using hx
    have h5 := hwr x (Nat.zero_le x) (by omega) hx1
    rw [h5]
    congr 1
    simp only [Archetype.add_entity]
    rw [getD_map_lt ComponentArray.grow naQ.components x default default hx]

/-- The component-info list `remove_component` builds when deleting `cid`
from the set of archetype `a`. -/
def remove_infos (a : Archetype) (cid : Nat) : List (Nat × Nat) :=
  remove_info (infos_of a) (a.component_ids.findIdx (fun id => id = cid))

/-- The archetype `remove_component` migrates into. -/
def remove_target (st : ArchetypeStorage) (a : Archetype) (cid : Nat) : Archetype :=
  (alookup st.archetypes (calculate_archetype_id (remove_infos a cid))).getD
    (Archetype.mk_from_infos (calculate_archetype_id (remove_infos a cid)) (remove_infos a cid))

/-- Full characterization of a successful `remove_component` migration,
mirroring `add_component_spec`. -/
theorem remove_component_spec
    (st : ArchetypeStorage) (e cid : Nat)
    (aid row : Nat) (a : Archetype) (newAid j : Nat) (naQ : Archetype)
    (locs1 : List (Nat × Location)) (a1 : Archetype)
    (h1 : alookup st.entity_locations e = some (aid, row))
    (h2 : alookup st.archetypes aid = some a)
    (h3 : a.has_component cid = true)
    (hjdef : j = a.component_ids.findIdx (fun id => id = cid))
    (hjlt : j < a.components.length)
    (hnew : newAid = calculate_archetype_id (remove_infos a cid))
    (hnaQ : naQ = remove_target st a cid)
    (h4 : newAid ≠ aid)
    (hnalen : naQ.components.length = a.components.length - 1)
    (hkeys : ∀ c ∈ a.components, (alookup st.component_locations c.id).isSome = true)
    (htake : Archetype.take_out_entity st.entity_locations a row = some (locs1, a1)) :
    ∃ na2 clocs2,
      remove_component st e cid =
        some { st with
          archetypes := aset (aset
            (aemplace st.archetypes newAid (Archetype.mk_from_infos newAid (remove_infos a cid)))
            newAid na2) aid a1
          entity_locations := aset locs1 e (newAid, naQ.entities.length)
          component_locations := clocs2 } ∧
      na2.id = naQ.id ∧
      na2.component_ids = naQ.component_ids ∧
      na2.entities = naQ.entities ++ [e] ∧
      na2.components.length = naQ.components.length ∧
      (∀ y, y < naQ.components.length →
        na2.components.getD y default =
          remove_write a row (if y < j then y else y + 1)
            ((naQ.components.getD y default).grow)) ∧
      clocs_extend (a.components.map ComponentArray.id) newAid
        st.component_locations clocs2 := by
  have hna1len : (naQ.add_entity e).1.components.length = a.components.length - 1 := by
    simp [Archetype.add_entity, hnalen]
  obtain ⟨na2, clocs2, hloop, hext⟩ :=
    remove_loop_wf a row j newAid (a.components.length) 0 (naQ.add_entity e).1
      st.component_locations (by omega) hkeys
  obtain ⟨hid, hids, hents, hlen, hdesc⟩ :=
    remove_loop_bytes a row j newAid hjlt a.components.length (Nat.le_refl _)
      (naQ.add_entity e).1 st.component_locations na2 clocs2 hna1len
      (by unfold for_loop; simpa using hloop)
  refine ⟨na2, clocs2, ?_, ?_, ?_, ?_, ?_, ?_, hext⟩
  · have hnew2 : newAid = calculate_archetype_id
        (remove_info (infos_of a) (a.component_ids.findIdx (fun id => id = cid))) := by
      rw [hnew]
      rfl
    have hlook : alookup (aemplace st.archetypes newAid
        (Archetype.mk_from_infos newAid
          (remove_info (infos_of a) (a.component_ids.findIdx (fun id => id = cid))))) newAid =
        some naQ := by
      rw [alookup_aemplace_self, hnaQ]
      simp only [remove_target, remove_infos]
      rw [← hnew2]
    have hloop2 : for_loop (remove_copy_step a row j newAid)
        0 a.components.length
        ((naQ.add_entity e).1, st.component_locations) = some (na2, clocs2) := by
      unfold for_loop
      simpa using hloop
    simp only [Archetype.add_entity] at hloop2
    rw [← hjdef] at hnew2 hlook
    unfold remove_component
    rw [h1]
    simp only [Option.some_bind, Option.bind_eq_bind]
    rw [h2]
    simp only [Option.some_bind, h3, not_true, Bool.true_eq_false, if_false]
    rw [← hjdef, ← hnew2, hlook]
    simp only [Option.some_bind, if_neg h4, Archetype.add_entity]
    rw [hloop2]
    simp only [Option.some_bind]
    rw [htake]
    simp only [Option.some_bind]
    rw [hjdef]
    rfl
  · simpa [Archetype.add_entity] using hid
  · simpa [Archetype.add_entity] using hids
  · simpa [Archetype.add_entity] using hents
  · simpa [Archetype.add_entity, hnalen] using hlen
  · intro y hy
    have hy1 : y < (naQ.add_entity e).1.components.length := by
      simpa [Archetype.add_entity] using hy
    have h5 := hdesc y hy1
    have hcond : (if y < j then y else y + 1) < a.components.length := by
      by_cases hyj : y < j
      · simp only [hyj, if_true]
        omega
      · simp only [hyj, if_false]
        omega
    rw [h5, if_pos hcond]
    congr 1
    simp only [Archetype.add_entity]
    rw [getD_map_lt ComponentArray.grow naQ.components y default default hy]

/-- Case analysis of a successful swap-remove (`Archetype::take_out_entity`). -/
theorem take_out_entity_cases (locs : List (Nat × Location)) (a : Archetype) (i : Nat)
    (locs1 : List (Nat × Location)) (a1 : Archetype)
    (h : Archetype.take_out_entity locs a i = some (locs1, a1)) :
    a.entities.isEmpty = false ∧
    a1.id = a.id ∧ a1.component_ids = a.component_ids ∧
    a1.components = a.components.map (fun c => c.take_out_at i) ∧
    ((i < a.entities.length - 1 ∧
      ∃ lloc, alookup locs (a.entities.getD (a.entities.length - 1) 0) = some lloc ∧
        locs1 = aset locs (a.entities.getD (a.entities.length - 1) 0) (lloc.1, i) ∧
        a1.entities = (a.entities.set i (a.entities.getD (a.entities.length - 1) 0)).dropLast) ∨
     (¬ i < a.entities.length - 1 ∧ locs1 = locs ∧ a1.entities = a.entities.dropLast)) := by
  unfold Archetype.take_out_entity at h
  by_cases hemp : a.entities.isEmpty
  · simp [hemp] at h
  · simp only [hemp, Bool.false_eq_true, if_false] at h
    refine ⟨by simpa using hemp, ?_⟩
    by_cases hswap : i < a.entities.length - 1
    · simp only [if_pos hswap, Option.bind_eq_bind, Option.bind_eq_some] at h
      rcases h with ⟨lloc, hlloc, h⟩
      simp only [Option.some_bind, Option.some.injEq, Prod.mk.injEq] at h
      obtain ⟨p, rfl, rfl, rfl⟩ := h
      exact ⟨rfl, rfl, rfl, Or.inl ⟨hswap, lloc, hlloc, rfl, rfl⟩⟩
    · simp only [if_neg hswap, Option.some_bind, Option.some.injEq, Prod.mk.injEq] at h
      obtain ⟨p, rfl, rfl, rfl⟩ := h
      exact ⟨rfl, rfl, rfl, Or.inr ⟨hswap, rfl, rfl⟩⟩

/-- Swap-remove never adds or removes entity-location keys. -/
theorem take_out_entity_keys {locs : List (Nat × Location)} {a : Archetype} {i : Nat}
    {locs1 : List (Nat × Location)} {a1 : Archetype}
    (h : Archetype.take_out_entity locs a i = some (locs1, a1)) :
    akeys locs1 = akeys locs := by
  obtain ⟨-, -, -, -, hc⟩ := take_out_entity_cases locs a i locs1 a1 h
  rcases hc with ⟨-, lloc, -, hlocs1, -⟩ | ⟨-, hlocs1, -⟩
  · rw [hlocs1, akeys_aset]
  · rw [hlocs1]

/-- The same case analysis for the destructor-running variant
(`Archetype::delete_entity`). -/
theorem delete_entity_row_cases (locs : List (Nat × Location)) (a : Archetype) (i : Nat)
    (locs1 : List (Nat × Location)) (a1 : Archetype)
    (h : Archetype.delete_entity_row locs a i = some (locs1, a1)) :
    a.entities.isEmpty = false ∧
    a1.id = a.id ∧ a1.component_ids = a.component_ids ∧
    a1.components = a.components.map (fun c => c.delete_at i) ∧
    ((i < a.entities.length - 1 ∧
      ∃ lloc, alookup locs (a.entities.getD (a.entities.length - 1) 0) = some lloc ∧
        locs1 = aset locs (a.entities.getD (a.entities.length - 1) 0) (lloc.1, i) ∧
        a1.entities = (a.entities.set i (a.entities.getD (a.entities.length - 1) 0)).dropLast) ∨
     (¬ i < a.entities.length - 1 ∧ locs1 = locs ∧ a1.entities = a.entities.dropLast)) := by
  unfold Archetype.delete_entity_row at h
  by_cases hemp : a.entities.isEmpty
  · simp [hemp] at h
  · simp only [hemp, Bool.false_eq_true, if_false] at h
    refine ⟨by simpa using hemp, ?_⟩
    by_cases hswap : i < a.entities.length - 1
    · simp only [if_pos hswap, Option.bind_eq_bind, Option.bind_eq_some] at h
      rcases h with ⟨lloc, hlloc, h⟩
      simp only [Option.some_bind, Option.some.injEq, Prod.mk.injEq] at h
      obtain ⟨p, rfl, rfl, rfl⟩ := h
      exact ⟨rfl, rfl, rfl, Or.inl ⟨hswap, lloc, hlloc, rfl, rfl⟩⟩
    · simp only [if_neg hswap, Option.some_bind, Option.some.injEq, Prod.mk.injEq] at h
      obtain ⟨p, rfl, rfl, rfl⟩ := h
      exact ⟨rfl, rfl, rfl, Or.inr ⟨hswap, rfl, rfl⟩⟩

/-! ## Claim C6 — archetype-id derivation and archetype reuse -/

/-- `calculate_archetype_id` only reads the component-id column of the
info list. -/
theorem calculate_archetype_id_eq_on_ids (infos : List (Nat × Nat)) :
    calculate_archetype_id infos =
      (infos.map Prod.fst).foldl
        (fun hash i =>
          hash ^^^ ((mix (i % wsize) + 0x9e3779b9 + ((hash <<< 6) % wsize) + (hash >>> 2)) % wsize))
        ((infos.map Prod.fst).length % wsize) := by
  unfold calculate_archetype_id
  rw [List.foldl_map]
  simp

/-- C6: the archetype-id derivation is a deterministic function of the
component-id list (two structural operations computing the id of the same
sorted id list obtain equal ids), and consequently a second entity
migrating to an already-existing component set reuses that archetype
instance: `add_component` creates no new archetype key and appends the
entity as a new row of the stored archetype. -/
theorem archetype_id_deterministic_and_shared :
    (∀ infos1 infos2 : List (Nat × Nat),
      infos1.map Prod.fst = infos2.map Prod.fst →
      calculate_archetype_id infos1 = calculate_archetype_id infos2) ∧
    (∀ (st : ArchetypeStorage) (e cid size : Nat) (v : List Nat)
       (aid row newAid : Nat) (a naQ : Archetype)
       (locs1 : List (Nat × Location)) (a1 : Archetype),
      alookup st.entity_locations e = some (aid, row) →
      alookup st.archetypes aid = some a →
      a.has_component cid = false →
      a.component_ids.length = a.components.length →
      newAid = calculate_archetype_id (add_infos a cid size) →
      alookup st.archetypes newAid = some naQ →
      newAid ≠ aid →
      naQ.components.length = a.components.length + 1 →
      (∀ c ∈ a.components, (alookup st.component_locations c.id).isSome = true) →
      Archetype.take_out_entity st.entity_locations a row = some (locs1, a1) →
      ∃ st' na2,
        add_component st e cid size v = some (st', true) ∧
        akeys st'.archetypes = akeys st.archetypes ∧
        alookup st'.archetypes newAid = some na2 ∧
        na2.entities = naQ.entities ++ [e] ∧
        alookup st'.entity_locations e = some (newAid, naQ.entities.length)) := by
  constructor
  · intro infos1 infos2 h
    rw [calculate_archetype_id_eq_on_ids infos1, calculate_archetype_id_eq_on_ids infos2, h]
  · intro st e cid size v aid row newAid a naQ locs1 a1
    intro h1 h2 h3 halign hnew hm h4 hnalen hkeys htake
    have hnaQ : naQ = add_target st a cid size := by
      rw [add_target, ← hnew, hm]
      rfl
    obtain ⟨na2, clocs2, heq, _, _, hents, _, _, _⟩ :=
      add_component_spec st e cid size v aid row a newAid naQ locs1 a1
        h1 h2 h3 halign hnew hnaQ h4 hnalen hkeys htake
    have hemp : aemplace st.archetypes newAid
        (Archetype.mk_from_infos newAid (add_infos a cid size)) = st.archetypes :=
      aemplace_of_isSome _ (by rw [hm]; rfl)
    rw [hemp] at heq
    refine ⟨_, na2, heq, ?_, ?_, hents, ?_⟩
    · simp
    · rw [alookup_aset, if_neg h4, alookup_aset, if_pos rfl, hm]
      rfl
    · simp only []
      rw [alookup_aset, if_pos rfl]
      have hkeyse : (alookup locs1 e).isSome = true := by
        rw [alookup_isSome_iff_mem_akeys, take_out_entity_keys htake,
          ← alookup_isSome_iff_mem_akeys, h1]
        rfl
      obtain ⟨w, hw⟩ := Option.isSome_iff_exists.mp hkeyse
      rw [hw]
      rfl

/-! ## Sample storages (reachable states used by the witnesses) -/

/-- A fresh storage. -/
def sample0 : ArchetypeStorage := ArchetypeStorage.init

/-- `sample0` after `create_entity` (entity 1, no components). -/
def sample1 : ArchetypeStorage :=
  ((create_entity sample0).map Prod.fst).getD ArchetypeStorage.init

/-- `sample1` after `add_component` of component 10 (size 2, bytes [3, 4])
on entity 1. -/
def sample2 : ArchetypeStorage :=
  ((add_component sample1 1 10 2 [3, 4]).map Prod.fst).getD ArchetypeStorage.init

/-- `sample2` after `add_component` of component 20 (size 1, bytes [7]) on
entity 1. -/
def sample3 : ArchetypeStorage :=
  ((add_component sample2 1 20 1 [7]).map Prod.fst).getD ArchetypeStorage.init

/-- `sample2` after a second `create_entity` (entity 2, no components). -/
def sample4 : ArchetypeStorage :=
  ((create_entity sample2).map Prod.fst).getD ArchetypeStorage.init

/-! ## Claim C7 — remove of an absent component is the identity -/

/-- C7: for every `remove_component<T>(e)` call where the live entity `e`
does not have component `T`, the operation is the identity on the storage:
no archetype, column, entity-location entry or inverted-index entry is
created or mutated (the returned storage is the input storage itself). -/
theorem remove_component_absent_identity (st : ArchetypeStorage) (e cid : Nat)
    (loc : Location) (a : Archetype)
    (h1 : alookup st.entity_locations e = some loc)
    (h2 : alookup st.archetypes loc.1 = some a)
    (h3 : a.has_component cid = false) :
    remove_component st e cid = some st := by
  unfold remove_component
  simp [h1, h2, h3]

/-- The id of the archetype holding exactly component 10 (size 2). -/
def aidP : Nat := calculate_archetype_id [(10, 2)]

/-- The id of the archetype holding exactly components 10 and 20. -/
def aidPV : Nat := calculate_archetype_id [(10, 2), (20, 1)]

/-- The archetype value holding entity 1 with component 10 = [3, 4] inside
`sample2`. -/
def archP : Archetype := ⟨aidP, [10], [1], [⟨10, 2, 1, [3, 4]⟩]⟩

/-- Witness for C7: entity 1 of `sample2` holds only component 10, so
removing component 999 returns the storage unchanged. -/
theorem remove_component_absent_identity_witness :
    remove_component sample2 1 999 = some sample2 :=
  remove_component_absent_identity sample2 1 999 (aidP, 0) archP (by decide)
    (by decide) (by decide)

/-! ## Claim C8 — operations on unknown entity handles fail fatally -/

/-- C8: for every entity handle unknown to the storage (stale or never
created), `delete_entity` and `add_component` fail fatally (the
`entity_locations.at` lookup aborts, modelled as `none`). -/
theorem unknown_entity_fatal (st : ArchetypeStorage) (e cid size : Nat) (v : List Nat)
    (h : alookup st.entity_locations e = none) :
    delete_entity st e = none ∧ add_component st e cid size v = none := by
  unfold delete_entity add_component
  simp [h]

/-- Witness for C8: entity 99 was never created in `sample1`. -/
theorem unknown_entity_fatal_witness :
    delete_entity sample1 99 = none ∧ add_component sample1 99 10 2 [3, 4] = none :=
  unknown_entity_fatal sample1 99 10 2 [3, 4] rfl

/-- Witness for C6: two info lists with equal id columns hash equally, and
entity 2 of `sample4` adding component 10 reuses the stored archetype
(which already holds entity 1), creating no archetype key. -/
theorem archetype_id_deterministic_and_shared_witness :
    calculate_archetype_id [(10, 2), (30, 4)] = calculate_archetype_id [(10, 99), (30, 77)] ∧
    (∃ st' na2,
      add_component sample4 2 10 2 [9, 9] = some (st', true) ∧
      akeys st'.archetypes = akeys sample4.archetypes ∧
      alookup st'.archetypes aidP = some na2 ∧
      na2.entities = [1] ++ [2] ∧
      alookup st'.entity_locations 2 = some (aidP, 1)) :=
  ⟨archetype_id_deterministic_and_shared.1 [(10, 2), (30, 4)] [(10, 99), (30, 77)] rfl,
   by
    have h := archetype_id_deterministic_and_shared.2 sample4 2 10 2 [9, 9] 0 0 aidP
      ⟨0, [], [2], []⟩ archP sample4.entity_locations ⟨0, [], [], []⟩
      (by decide) (by decide) (by decide) (by decide) (by decide) (by decide)
      (by decide) (by decide) (by decide) (by decide)
    obtain ⟨st', na2, h1, h2, h3, h4, h5⟩ := h
    exact ⟨st', na2, h1, h2, h3, by simpa [archP] using h4, h5⟩⟩

/-! ## Claim C2 — every AddComponent payload is consumed exactly once -/

theorem evCount_append (a b : List (Nat × ConsumeKind)) (k : Nat) :
    evCount (a ++ b) k = evCount a k + evCount b k := by
  simp [evCount, List.filter_append]

theorem bufAddCount_append (a b : List (Nat × CommandRec)) (k : Nat) :
    bufAddCount (a ++ b) k = bufAddCount a k + bufAddCount b k := by
  simp [bufAddCount, List.filter_append]

@[simp] theorem evCount_nil (k : Nat) : evCount [] k = 0 := rfl

@[simp] theorem bufAddCount_nil (k : Nat) : bufAddCount [] k = 0 := rfl

/-- `run_one` reports a consumption event exactly for `AddComponent`
records. -/
theorem run_one_ev_isAdd {st : ArchetypeStorage} {c : CommandRec}
    {st1 : ArchetypeStorage} {ev : Option ConsumeKind}
    (h : run_one st c = some (st1, ev)) : ev.isSome = c.isAdd := by
  cases c with
  | createEntity =>
    simp only [run_one, Option.some.injEq, Prod.mk.injEq] at h
    simp [← h.2, CommandRec.isAdd]
  | deleteEntity e =>
    simp only [run_one] at h
    by_cases hc : amem st.entity_locations e
    · simp only [hc, if_true, Option.bind_eq_bind, Option.bind_eq_some,
        Option.some.injEq, Prod.mk.injEq] at h
      rcases h with ⟨w, hw, h1, h2⟩
      simp [← h2, CommandRec.isAdd]
    · simp only [hc, Bool.false_eq_true, if_false, Option.some.injEq, Prod.mk.injEq] at h
      simp [← h.2, CommandRec.isAdd]
  | addComponent e cid size v =>
    simp only [run_one, Option.bind_eq_bind, Option.bind_eq_some] at h
    rcases h with ⟨⟨w, b⟩, hw, he⟩
    simp only [Option.some.injEq, Prod.mk.injEq] at he
    simp [← he.2, CommandRec.isAdd]
  | removeComponent e cid =>
    simp only [run_one, Option.bind_eq_bind, Option.bind_eq_some] at h
    rcases h with ⟨w, hw, he⟩
    simp only [Option.some.injEq, Prod.mk.injEq] at he
    simp [← he.2, CommandRec.isAdd]

/-- `Command::run` emits exactly one consumption event per pending
`AddComponent` record (counted per ghost sequence tag). -/
theorem run_evCount :
    ∀ (buf : List (Nat × CommandRec)) (st st' : ArchetypeStorage)
      (evs : List (Nat × ConsumeKind)),
      run st buf = some (st', evs) → ∀ k, evCount evs k = bufAddCount buf k := by
  intro buf
  induction buf with
  | nil =>
    intro st st' evs h k
    simp [run] at h
    simp [h.2]
  | cons p rest ih =>
    intro st st' evs h k
    rcases p with ⟨k', c⟩
    simp only [run, Option.bind_eq_bind, Option.bind_eq_some] at h
    rcases h with ⟨⟨st1, ev⟩, hone, ⟨⟨st2, evs'⟩, hrest, heq⟩⟩
    simp only [Option.some.injEq, Prod.mk.injEq] at heq
    rw [← heq.2, evCount_append]
    have hev := run_one_ev_isAdd hone
    have hrest' := ih st1 st2 evs' hrest k
    rw [hrest']
    have : bufAddCount ((k', c) :: rest) k =
        (if k' = k ∧ c.isAdd = true then 1 else 0) + bufAddCount rest k := by
      by_cases h1 : k' = k
      · by_cases h2 : c.isAdd
        · simp only [bufAddCount, List.filter_cons, h1, h2]
          simp
          omega
        · simp [bufAddCount, List.filter_cons, h1, h2]
      · simp [bufAddCount, List.filter_cons, h1]
    rw [this]
    congr 1
    cases ev with
    | none =>
      have : c.isAdd = false := by simpa using hev.symm
      simp [evCount, this]
    | some kind =>
      have hadd : c.isAdd = true := by simpa using hev.symm
      by_cases h1 : k' = k
      · simp [evCount, h1, hadd]
      · simp [evCount, h1, hadd]

/-- `Command::discard` destroys exactly one payload per pending
`AddComponent` record. -/
theorem discard_evCount (buf : List (Nat × CommandRec)) (k : Nat) :
    evCount (discard buf) k = bufAddCount buf k := by
  induction buf with
  | nil => rfl
  | cons p rest ih =>
    rcases p with ⟨k', c⟩
    cases c with
    | addComponent e cid size v =>
      by_cases h1 : k' = k <;>
        simp [discard, bufAddCount, evCount, List.filter_cons, List.filterMap_cons,
          CommandRec.isAdd, h1] at * <;> omega
    | createEntity =>
      simp [discard, bufAddCount, evCount, List.filter_cons, List.filterMap_cons,
        CommandRec.isAdd] at *
      exact ih
    | deleteEntity e =>
      simp [discard, bufAddCount, evCount, List.filter_cons, List.filterMap_cons,
        CommandRec.isAdd] at *
      exact ih
    | removeComponent e cid =>
      simp [discard, bufAddCount, evCount, List.filter_cons, List.filterMap_cons,
        CommandRec.isAdd] at *
      exact ih

/-- The lifetime invariant of a command buffer: the ghost sequence counter
matches the number of appends so far, every `AddComponent` payload appended
so far is accounted for exactly once between the event log and the pending
buffer, and no other tags occur. -/
def PayloadInv (recs : List CommandRec) (s : CmdState) : Prop :=
  s.next_seq = recs.length ∧
  (∀ k, k < recs.length →
    evCount s.events k + bufAddCount s.buf k =
      (if (recs.getD k CommandRec.createEntity).isAdd then 1 else 0)) ∧
  (∀ k, recs.length ≤ k → evCount s.events k = 0 ∧ bufAddCount s.buf k = 0)

theorem appended_append (ops1 ops2 : List BufOp) :
    appended (ops1 ++ ops2) = appended ops1 ++ appended ops2 := by
  simp [appended, List.filterMap_append]

theorem appended_cons (op : BufOp) (ops : List BufOp) :
    appended (op :: ops) = appended [op] ++ appended ops := by
  simp [appended, List.filterMap_cons]
  cases op with
  | append c => simp
  | runBuf => simp
  | discardBuf => simp

theorem life_exec_append (s : CmdState) (ops1 ops2 : List BufOp) :
    life_exec s (ops1 ++ ops2) = (life_exec s ops1).bind (fun s1 => life_exec s1 ops2) := by
  induction ops1 generalizing s with
  | nil => simp [life_exec]
  | cons op rest ih =>
    simp only [List.cons_append, life_exec, Option.bind_eq_bind]
    cases life_step s op with
    | none => simp
    | some s1 => simp [ih s1]

/-- One buffer operation preserves the payload invariant. -/
theorem life_step_payloadInv {recs : List CommandRec} {s s' : CmdState} {op : BufOp}
    (hstep : life_step s op = some s') (hinv : PayloadInv recs s) :
    PayloadInv (recs ++ appended [op]) s' := by
  obtain ⟨hseq, hlow, hhigh⟩ := hinv
  cases op with
  | append c =>
    simp only [life_step, Option.some.injEq] at hstep
    subst hstep
    refine ⟨by simp [appended, hseq], ?_, ?_⟩
    · intro k hk
      simp only [appended, List.filterMap_cons, List.filterMap_nil, List.length_append,
        List.length_cons, List.length_nil] at hk ⊢
      rw [bufAddCount_append]
      by_cases hke : k = recs.length
      · subst hke
        have h0 := (hhigh recs.length (Nat.le_refl _)).1
        have h1 := (hhigh recs.length (Nat.le_refl _)).2
        rw [h0, h1]
        have : bufAddCount [(s.next_seq, c)] recs.length =
            if c.isAdd then 1 else 0 := by
          by_cases hc : c.isAdd = true <;> simp [bufAddCount, List.filter_cons, hseq, hc]
        rw [this]
        simp [List.getD_append_right, CommandRec.isAdd]
      · have hklt : k < recs.length := by
          simp at hk
          omega
        have hl := hlow k hklt
        have hone : bufAddCount [(s.next_seq, c)] k = 0 := by
          have : ¬ s.next_seq = k := by omega
          simp [bufAddCount, List.filter_cons, this]
        rw [hone]
        simp only [List.getD_append _ _ _ _ hklt]
        omega
    · intro k hk
      simp only [appended, List.filterMap_cons, List.filterMap_nil, List.length_append,
        List.length_cons, List.length_nil] at hk
      have hk' : recs.length + 1 ≤ k := by omega
      have := hhigh k (by omega)
      rw [bufAddCount_append]
      have hone : bufAddCount [(s.next_seq, c)] k = 0 := by
        have : ¬ s.next_seq = k := by omega
        simp [bufAddCount, List.filter_cons, this]
      constructor
      · exact this.1
      · rw [hone]
        omega
  | runBuf =>
    simp only [life_step, Option.bind_eq_bind, Option.bind_eq_some] at hstep
    rcases hstep with ⟨⟨st1, evs⟩, hrun, heq⟩
    simp only [Option.some.injEq] at heq
    subst heq
    have hcnt := run_evCount s.buf s.st st1 evs hrun
    refine ⟨by simp [appended, hseq], ?_, ?_⟩
    · intro k hk
      simp only [appended, List.filterMap_cons, List.filterMap_nil, List.append_nil] at hk ⊢
      rw [evCount_append, hcnt k]
      have := hlow k hk
      simpa using this
    · intro k hk
      simp only [appended, List.filterMap_cons, List.filterMap_nil, List.append_nil] at hk
      have := hhigh k hk
      rw [evCount_append, hcnt k]
      constructor
      · omega
      · simp [bufAddCount]
  | discardBuf =>
    simp only [life_step, Option.some.injEq] at hstep
    subst hstep
    have hcnt := discard_evCount s.buf
    refine ⟨by simp [appended, hseq], ?_, ?_⟩
    · intro k hk
      simp only [appended, List.filterMap_cons, List.filterMap_nil, List.append_nil] at hk ⊢
      rw [evCount_append, hcnt k]
      have := hlow k hk
      simpa using this
    · intro k hk
      simp only [appended, List.filterMap_cons, List.filterMap_nil, List.append_nil] at hk
      have := hhigh k hk
      rw [evCount_append, hcnt k]
      constructor
      · omega
      · simp [bufAddCount]

/-- The payload invariant holds along any executed operation sequence. -/
theorem life_exec_payloadInv :
    ∀ (ops : List BufOp) {recs : List CommandRec} {s sF : CmdState},
      life_exec s ops = some sF → PayloadInv recs s →
      PayloadInv (recs ++ appended ops) sF := by
  intro ops
  induction ops with
  | nil =>
    intro recs s sF h hinv
    simp [life_exec] at h
    subst h
    simpa [appended]
  | cons op rest ih =>
    intro recs s sF h hinv
    simp only [life_exec, Option.bind_eq_bind, Option.bind_eq_some] at h
    rcases h with ⟨s1, hstep, hrest⟩
    have h1 := life_step_payloadInv hstep hinv
    have h2 := ih hrest h1
    rw [appended_cons, ← List.append_assoc]
    exact h2

/-- C2: for every `AddComponent` record appended to a command buffer, the
recorded payload's destructor is invoked exactly once over the buffer's
lifetime — by `run` (the payload is applied into the destination column,
or destroyed immediately when the entity already has the component) or by
`discard` (including the implicit discard performed by the `Command`
destructor, the trailing `discardBuf` here), and never both: the event log
of the full lifetime holds exactly one consumption event for the record's
sequence tag. -/
theorem addComponent_payload_consumed_once
    (st : ArchetypeStorage) (ops : List BufOp) (sF : CmdState) (k : Nat)
    (hexec : life_exec ⟨st, [], 0, []⟩ (ops ++ [BufOp.discardBuf]) = some sF)
    (hlt : k < (appended ops).length)
    (hk : ((appended ops).getD k CommandRec.createEntity).isAdd = true) :
    evCount sF.events k = 1 := by
  have hinit : PayloadInv [] ⟨st, [], 0, []⟩ := by
    refine ⟨rfl, ?_, ?_⟩
    · intro k hk
      simp at hk
    · intro k _
      simp [evCount, bufAddCount]
  have hfin := life_exec_payloadInv (ops ++ [BufOp.discardBuf]) hexec hinit
  rw [List.nil_append, appended_append] at hfin
  obtain ⟨hseq, hlow, hhigh⟩ := hfin
  have hap : appended [BufOp.discardBuf] = [] := by simp [appended]
  rw [hap, List.append_nil] at hlow
  have := hlow k hlt
  rw [hk] at this
  -- after the final discard the pending buffer is empty
  have hbuf : sF.buf = [] := by
    rw [life_exec_append] at hexec
    cases hrun : life_exec ⟨st, [], 0, []⟩ ops with
    | none => simp [hrun] at hexec
    | some s1 =>
      simp only [hrun, Option.bind_eq_bind, Option.some_bind, life_exec, life_step,
        Option.bind_eq_bind, Option.some_bind, Option.some.injEq] at hexec
      rw [← hexec]
  rw [hbuf] at this
  simpa using this

/-- A sample buffer lifetime on `sample2` (entity 1 already holds
component 10): two `AddComponent` appends, a run, one more append, and the
implicit discard at destruction. -/
def c2ops : List BufOp :=
  [.append (.addComponent 1 20 1 [7]), .append (.addComponent 1 10 2 [5, 6]),
   .runBuf, .append (.addComponent 1 30 1 [8])]

/-- The final command state of the `c2ops` lifetime. -/
def c2final : CmdState :=
  (life_exec ⟨sample2, [], 0, []⟩ (c2ops ++ [BufOp.discardBuf])).getD ⟨sample2, [], 0, []⟩

/-- Witness for C2: in the `c2ops` lifetime, payload 1 (the double add,
destroyed by `run`) is consumed exactly once. -/
theorem addComponent_payload_consumed_once_witness :
    life_exec ⟨sample2, [], 0, []⟩ (c2ops ++ [BufOp.discardBuf]) = some c2final ∧
      evCount c2final.events 1 = 1 :=
  ⟨by decide,
   addComponent_payload_consumed_once sample2 c2ops c2final 1 (by decide) (by decide)
     (by decide)⟩

/-! ## Claim C3 — double add of the same component is a silent no-op -/

/-- C3: for every live entity `e` that already has component `T` with value
`v1`, a second immediate `add_component<T>(e, v2)` is a silent no-op that
returns the storage unchanged and unapplied (`false`), leaving `e` holding
`v1` (the second payload, never moved into the storage, is destroyed by
the caller); in the buffered path, `run` of an `AddComponent` record for
`e` and `T` destroys the recorded payload (`destroyedByRun`) and leaves
the storage unchanged. -/
theorem add_component_double_add (st : ArchetypeStorage) (e cid size : Nat)
    (v1 v2 : List Nat) (k : Nat) (loc : Location) (a : Archetype)
    (h1 : alookup st.entity_locations e = some loc)
    (h2 : alookup st.archetypes loc.1 = some a)
    (h3 : a.has_component cid = true)
    (h4 : get_component st e cid = some v1) :
    add_component st e cid size v2 = some (st, false) ∧
    get_component st e cid = some v1 ∧
    run st [(k, CommandRec.addComponent e cid size v2)] =
      some (st, [(k, ConsumeKind.destroyedByRun)]) := by
  have hadd : add_component st e cid size v2 = some (st, false) := by
    unfold add_component
    simp [h1, h2, h3]
  refine ⟨hadd, h4, ?_⟩
  simp [run, run_one, hadd]

/-- Witness for C3: entity 1 of `sample2` holds component 10 = [3, 4]; a
second add of [5, 6] is a no-op and the buffered payload is destroyed. -/
theorem add_component_double_add_witness :
    add_component sample2 1 10 2 [5, 6] = some (sample2, false) ∧
    get_component sample2 1 10 = some [3, 4] ∧
    run sample2 [(0, CommandRec.addComponent 1 10 2 [5, 6])] =
      some (sample2, [(0, ConsumeKind.destroyedByRun)]) :=
  add_component_double_add sample2 1 10 2 [3, 4] [5, 6] 0 (aidP, 0) archP
    (by decide) (by decide) (by decide) (by decide)

/-! ## Claim C10 — buffered create_entity survives discard -/

/-- The recorder methods of `Command` only serialize: a sequence of appends
never touches the storage. -/
theorem life_exec_appends_st (recs : List CommandRec) :
    ∀ (s s2 : CmdState), life_exec s (recs.map BufOp.append) = some s2 → s2.st = s.st := by
  induction recs with
  | nil =>
    intro s s2 h
    simp [life_exec] at h
    rw [← h]
  | cons c rest ih =>
    intro s s2 h
    simp only [List.map_cons, life_exec, life_step, Option.bind_eq_bind,
      Option.some_bind] at h
    have h2 := ih _ s2 h
    rw [h2]

/-- `discard` only ever destroys payloads; it never applies one. -/
theorem discard_kinds (buf : List (Nat × CommandRec)) :
    ∀ ev ∈ discard buf, ev.2 = ConsumeKind.destroyedByDiscard := by
  intro ev hev
  simp only [discard, List.mem_filterMap] at hev
  rcases hev with ⟨kc, _, hmatch⟩
  cases h : kc.2 with
  | addComponent e cid size v =>
    rw [h] at hmatch
    simp only [Option.some.injEq] at hmatch
    rw [← hmatch]
  | createEntity => rw [h] at hmatch; simp at hmatch
  | deleteEntity e => rw [h] at hmatch; simp at hmatch
  | removeComponent e cid => rw [h] at hmatch; simp at hmatch

/-- C10: `Command::create_entity` inserts the entity into the storage
(empty archetype and entity-location map) at record time, and a subsequent
discard of the buffer does not remove it: the recorder methods appended
afterwards never touch the storage, `discard` leaves the storage unchanged
(the entity is still live, located in archetype 0, which has no
components), and every pending `AddComponent` payload is destroyed exactly
once without being applied. -/
theorem command_create_entity_survives_discard
    (s : CmdState) (arch0 : Archetype) (recs : List CommandRec) (s1 : CmdState) (e : Nat)
    (h0 : alookup s.st.archetypes 0 = some arch0)
    (hids : arch0.component_ids = [])
    (hfresh : alookup s.st.entity_locations (s.st.id_gen + 1) = none)
    (hc : command_create_entity s = some (s1, e)) :
    (e = s.st.id_gen + 1 ∧
     alookup s1.st.entity_locations e = some (0, arch0.entities.length) ∧
     (findArchD s1.st 0).entities = arch0.entities ++ [e] ∧
     (findArchD s1.st 0).component_ids = []) ∧
    (∀ s2, life_exec s1 (recs.map BufOp.append) = some s2 →
      life_step s2 BufOp.discardBuf =
        some { s2 with buf := [], events := s2.events ++ discard s2.buf } ∧
      s2.st = s1.st ∧
      alookup s2.st.entity_locations e = some (0, arch0.entities.length) ∧
      (findArchD s2.st 0).component_ids = [] ∧
      (∀ k, evCount (discard s2.buf) k = bufAddCount s2.buf k) ∧
      (∀ ev ∈ discard s2.buf, ev.2 = ConsumeKind.destroyedByDiscard)) := by
  simp only [command_create_entity, create_entity, Option.bind_eq_bind, h0,
    Option.some_bind, Option.some.injEq, Prod.mk.injEq] at hc
  obtain ⟨hs1, he⟩ := hc
  subst he
  have hlook1 : alookup s1.st.entity_locations (s.st.id_gen + 1) =
      some (0, arch0.entities.length) := by
    rw [← hs1]
    simp only [alookup_aemplace, hfresh]
    simp
  have harch1 : alookup s1.st.archetypes 0 =
      some { arch0 with entities := arch0.entities ++ [s.st.id_gen + 1] } := by
    rw [← hs1]
    simp only [alookup_aset, h0]
    simp
  refine ⟨⟨rfl, hlook1, ?_, ?_⟩, ?_⟩
  · simp [findArchD, harch1]
  · simp [findArchD, harch1, hids]
  · intro s2 hexec
    have hst : s2.st = s1.st := life_exec_appends_st recs s1 s2 hexec
    refine ⟨rfl, hst, ?_, ?_, ?_, ?_⟩
    · rw [hst]
      exact hlook1
    · rw [hst]
      simp [findArchD, harch1, hids]
    · exact discard_evCount s2.buf
    · exact discard_kinds s2.buf

/-- Witness for C10: record a create on a buffer over `sample2`, record an
`AddComponent` against the new entity 2, then discard. -/
theorem command_create_entity_survives_discard_witness :
    ((2 : Nat) = sample2.id_gen + 1 ∧
     alookup (((command_create_entity ⟨sample2, [], 0, []⟩).getD
        (⟨sample2, [], 0, []⟩, 0)).1.st.entity_locations) 2 = some (0, 0) ∧
     (findArchD ((command_create_entity ⟨sample2, [], 0, []⟩).getD
        (⟨sample2, [], 0, []⟩, 0)).1.st 0).entities = [] ++ [2] ∧
     (findArchD ((command_create_entity ⟨sample2, [], 0, []⟩).getD
        (⟨sample2, [], 0, []⟩, 0)).1.st 0).component_ids = []) ∧
    (∀ s2, life_exec ((command_create_entity ⟨sample2, [], 0, []⟩).getD
        (⟨sample2, [], 0, []⟩, 0)).1
        ([CommandRec.addComponent 2 40 1 [9]].map BufOp.append) = some s2 →
      life_step s2 BufOp.discardBuf =
        some { s2 with buf := [], events := s2.events ++ discard s2.buf } ∧
      s2.st = ((command_create_entity ⟨sample2, [], 0, []⟩).getD
        (⟨sample2, [], 0, []⟩, 0)).1.st ∧
      alookup s2.st.entity_locations 2 = some (0, 0) ∧
      (findArchD s2.st 0).component_ids = [] ∧
      (∀ k, evCount (discard s2.buf) k = bufAddCount s2.buf k) ∧
      (∀ ev ∈ discard s2.buf, ev.2 = ConsumeKind.destroyedByDiscard)) := by
  have h := command_create_entity_survives_discard ⟨sample2, [], 0, []⟩
    ⟨0, [], [], []⟩ [CommandRec.addComponent 2 40 1 [9]]
    ((command_create_entity ⟨sample2, [], 0, []⟩).getD (⟨sample2, [], 0, []⟩, 0)).1 2
    (by decide) (by decide) (by decide) (by decide)
  exact h

/-! ## Claim C5 — the storage invariant survives every public operation -/

theorem mem_akeys_of_mem {α : Type} {m : List (Nat × α)} {p : Nat × α} (h : p ∈ m) :
    p.1 ∈ akeys m :=
  List.mem_map.mpr ⟨p, h, rfl⟩

theorem akeys_mem_exists {α : Type} {m : List (Nat × α)} {k : Nat} (h : k ∈ akeys m) :
    ∃ v, (k, v) ∈ m := by
  obtain ⟨⟨k', v⟩, hp, he⟩ := List.mem_map.mp h
  cases he
  exact ⟨v, hp⟩

theorem alookup_none_of_forall_ne {α : Type} {m : List (Nat × α)} {k : Nat}
    (h : ∀ p ∈ m, p.1 ≠ k) : alookup m k = none := by
  cases hl : alookup m k with
  | none => rfl
  | some v => exact absurd rfl (h (k, v) (alookup_eq_some_mem hl))

theorem mem_aemplace_elim {α : Type} {m : List (Nat × α)} {k : Nat} {v : α} {q : Nat × α}
    (h : q ∈ aemplace m k v) : q ∈ m ∨ q = (k, v) := by
  unfold aemplace at h
  by_cases hm : amem m k
  · rw [if_pos hm] at h
    exact Or.inl h
  · rw [if_neg hm] at h
    rcases List.mem_append.mp h with h1 | h1
    · exact Or.inl h1
    · exact Or.inr (List.mem_singleton.mp h1)

theorem getD_of_getElem? {α : Type} {l : List α} {n : Nat} {x : α} (d : α)
    (h : l[n]? = some x) : n < l.length ∧ l.getD n d = x := by
  obtain ⟨hlt, he⟩ := List.getElem?_eq_some.mp h
  exact ⟨hlt, by rw [List.getD_eq_getElem _ _ hlt, he]⟩

theorem getElem?_of_getD {α : Type} (l : List α) (n : Nat) (d : α) (h : n < l.length) :
    l[n]? = some (l.getD n d) := by
  rw [List.getElem?_eq_getElem h, List.getD_eq_getElem _ _ h]

theorem getD_append_left {α : Type} (l1 l2 : List α) (n : Nat) (d : α)
    (h : n < l1.length) : (l1 ++ l2).getD n d = l1.getD n d := by
  rw [List.getD_eq_getElem?_getD, List.getD_eq_getElem?_getD, List.getElem?_append,
    if_pos h]

theorem getD_append_right_self {α : Type} (l : List α) (x d : α) :
    (l ++ [x]).getD l.length d = x := by
  rw [List.getD_eq_getElem?_getD, List.getElem?_append_right (Nat.le_refl _)]
  simp

theorem getD_dropLast {α : Type} (l : List α) (n : Nat) (d : α)
    (h : n < l.length - 1) : l.dropLast.getD n d = l.getD n d := by
  have h1 : n < l.dropLast.length := by
    rw [List.length_dropLast]
    omega
  rw [List.getD_eq_getElem _ _ h1, List.getD_eq_getElem _ _ (by omega),
    List.getElem_dropLast]

theorem getD_set_self {α : Type} (l : List α) (i : Nat) (x d : α) (h : i < l.length) :
    (l.set i x).getD i d = x := by
  rw [List.getD_eq_getElem?_getD, List.getElem?_set_self h]
  rfl

theorem getD_set_ne {α : Type} (l : List α) (i j : Nat) (x d : α) (h : j ≠ i) :
    (l.set i x).getD j d = l.getD j d := by
  rw [List.getD_eq_getElem?_getD, List.getElem?_set_ne (Ne.symm h),
    ← List.getD_eq_getElem?_getD]

/-- Both branches of `add_write` are a `set_at` into the last row, which
preserves the column dimensions of a lock-step column. -/
theorem add_write_dims (a : Archetype) (row j : Nat) (v : List Nat) (x : Nat)
    (c : ComponentArray) (hc : 1 ≤ c.count) (hl : c.array.length = c.count * c.each_size) :
    (add_write a row j v x c).id = c.id ∧
    (add_write a row j v x c).each_size = c.each_size ∧
    (add_write a row j v x c).count = c.count ∧
    (add_write a row j v x c).array.length = c.array.length := by
  unfold add_write
  split
  · exact ⟨rfl, rfl, rfl, set_at_last_length c _ hc hl⟩
  · exact ⟨rfl, rfl, rfl, set_at_last_length c _ hc hl⟩

theorem mk_from_infos_aligned (aid : Nat) (infos : List (Nat × Nat)) :
    (Archetype.mk_from_infos aid infos).component_ids =
      (Archetype.mk_from_infos aid infos).components.map ComponentArray.id := by
  simp only [Archetype.mk_from_infos, List.map_map]
  exact List.map_congr_left (fun p _ => rfl)

/-- The common shape of a successful `add_component` / `remove_component`
migration, abstracting over the copy-loop contents: everything the storage
invariant needs to know about the state `st'` produced from `st` by moving
entity `e` out of row `row` of archetype `aid` (stored value `a`) to the
freshly grown last row of archetype `newAid` (pre-state value `naQ`,
post-state value `na2`; `a1` is the swap-removed source archetype). -/
structure MigrateShape (st st' : ArchetypeStorage) (e aid row newAid : Nat)
    (a naQ na2 a1 : Archetype) : Prop where
  hloc : alookup st.entity_locations e = some (aid, row)
  ha : alookup st.archetypes aid = some a
  hne : newAid ≠ aid
  hQid : naQ.id = newAid
  hQids : naQ.component_ids = naQ.components.map ComponentArray.id
  hQlock : ∀ c ∈ naQ.components,
    c.count = naQ.entities.length ∧ c.array.length = c.count * c.each_size
  hQloc : ∀ r ent, naQ.entities[r]? = some ent →
    alookup st.entity_locations ent = some (newAid, r)
  hQzero : newAid = 0 → naQ.component_ids = [] ∧ naQ.components = []
  hQstored : ∀ Q, alookup st.archetypes newAid = some Q → Q = naQ
  h2id : na2.id = naQ.id
  h2ids : na2.component_ids = naQ.component_ids
  h2ents : na2.entities = naQ.entities ++ [e]
  h2len : na2.components.length = naQ.components.length
  h2cols : ∀ x, x < naQ.components.length →
    (na2.components.getD x default).id = (naQ.components.getD x default).id ∧
    (na2.components.getD x default).each_size = (naQ.components.getD x default).each_size ∧
    (na2.components.getD x default).count = (naQ.components.getD x default).count + 1 ∧
    (na2.components.getD x default).array.length =
      (naQ.components.getD x default).array.length + (naQ.components.getD x default).each_size
  h1id : a1.id = a.id
  h1ids : a1.component_ids = a.component_ids
  h1comps : a1.components = a.components.map (fun c => c.take_out_at row)
  hcase : (row < a.entities.length - 1 ∧
      (∀ y, alookup st'.entity_locations y =
        if y = e then some (newAid, naQ.entities.length)
        else if y = a.entities.getD (a.entities.length - 1) 0 then some (aid, row)
        else alookup st.entity_locations y) ∧
      a1.entities = (a.entities.set row (a.entities.getD (a.entities.length - 1) 0)).dropLast) ∨
    (¬ row < a.entities.length - 1 ∧
      (∀ y, alookup st'.entity_locations y =
        if y = e then some (newAid, naQ.entities.length)
        else alookup st.entity_locations y) ∧
      a1.entities = a.entities.dropLast)
  harch : ∀ x, alookup st'.archetypes x =
    if x = aid then some a1 else if x = newAid then some na2
    else alookup st.archetypes x
  hkA : (akeys st'.archetypes).Nodup
  hkL : akeys st'.entity_locations = akeys st.entity_locations
  hgen : st'.id_gen = st.id_gen

/-- A migration of the common shape preserves the storage invariant. -/
theorem migrate_inv {st st' : ArchetypeStorage} {e aid row newAid : Nat}
    {a naQ na2 a1 : Archetype}
    (hinv : StorageInv st) (hs : MigrateShape st st' e aid row newAid a naQ na2 a1) :
    StorageInv st' := by
  unfold StorageInv arch0ok archsAligned lockstep locSound locComplete idBound at hinv ⊢
  obtain ⟨hA1, hA2, h0, hAl, hLS, hSnd, hCmp, hBnd⟩ := hinv
  have hfind : ∀ x arch, alookup st.archetypes x = some arch → findArchD st x = arch := by
    intro x arch hx
    rw [findArchD, hx]
    rfl
  have hfind' : ∀ x arch, alookup st'.archetypes x = some arch → findArchD st' x = arch := by
    intro x arch hx
    rw [findArchD, hx]
    rfl
  have hamem : (aid, a) ∈ st.archetypes := alookup_eq_some_mem hs.ha
  have haAl := hAl _ hamem
  have haLS := hLS _ hamem
  have hCmp' : ∀ x arch, alookup st.archetypes x = some arch → ∀ r ent,
      arch.entities[r]? = some ent → alookup st.entity_locations ent = some (x, r) := by
    intro x arch hx r ent hr
    exact hCmp (x, arch) (alookup_eq_some_mem hx) (r, ent) (List.mem_enum_iff_getElem?.mpr hr)
  have hSnd' : ∀ y x r, alookup st.entity_locations y = some (x, r) →
      (alookup st.archetypes x).isSome = true ∧
      r < (findArchD st x).entities.length ∧
      (findArchD st x).entities.getD r 0 = y := by
    intro y x r hy
    exact hSnd (y, (x, r)) (alookup_eq_some_mem hy)
  obtain ⟨-, hrow, hrowe⟩ := hSnd' e aid row hs.hloc
  rw [hfind aid a hs.ha] at hrow hrowe
  have hdlook : alookup st.entity_locations (a.entities.getD (a.entities.length - 1) 0) =
      some (aid, a.entities.length - 1) :=
    hCmp' aid a hs.ha _ _ (getElem?_of_getD _ _ 0 (by omega))
  have hne_e : ∀ y x r, alookup st.entity_locations y = some (x, r) →
      (x ≠ aid ∨ r ≠ row) → y ≠ e := by
    intro y x r hy hne he
    subst he
    rw [hs.hloc] at hy
    injection hy with hy
    injection hy with hy1 hy2
    rcases hne with hne | hne
    · exact hne hy1.symm
    · exact hne hy2.symm
  have hne_dl : ∀ y x r, alookup st.entity_locations y = some (x, r) →
      (x ≠ aid ∨ r ≠ a.entities.length - 1) →
      y ≠ a.entities.getD (a.entities.length - 1) 0 := by
    intro y x r hy hne he
    rw [he, hdlook] at hy
    injection hy with hy
    injection hy with hy1 hy2
    rcases hne with hne | hne
    · exact hne hy1.symm
    · exact hne hy2.symm
  have hlocse : alookup st'.entity_locations e = some (newAid, naQ.entities.length) := by
    rcases hs.hcase with ⟨-, hly, -⟩ | ⟨-, hly, -⟩ <;> rw [hly e, if_pos rfl]
  have hpres : ∀ y, y ≠ e →
      (row < a.entities.length - 1 → y ≠ a.entities.getD (a.entities.length - 1) 0) →
      alookup st'.entity_locations y = alookup st.entity_locations y := by
    intro y hy1 hy2
    rcases hs.hcase with ⟨hsw, hly, -⟩ | ⟨hsw, hly, -⟩
    · rw [hly y, if_neg hy1, if_neg (hy2 hsw)]
    · rw [hly y, if_neg hy1]
  have hdl' : row < a.entities.length - 1 →
      alookup st'.entity_locations (a.entities.getD (a.entities.length - 1) 0) =
        some (aid, row) := by
    intro hsw
    have hdne : a.entities.getD (a.entities.length - 1) 0 ≠ e :=
      hne_e _ _ _ hdlook (Or.inr (by omega))
    rcases hs.hcase with ⟨-, hly, -⟩ | ⟨hsw2, -, -⟩
    · rw [hly _, if_neg hdne, if_pos rfl]
    · exact absurd hsw hsw2
  have ha1len : a1.entities.length = a.entities.length - 1 := by
    rcases hs.hcase with ⟨-, -, hent⟩ | ⟨-, -, hent⟩
    · rw [hent, List.length_dropLast, List.length_set]
    · rw [hent, List.length_dropLast]
  have ha1get : ∀ r, r < a.entities.length - 1 →
      a1.entities.getD r 0 =
        if r = row then a.entities.getD (a.entities.length - 1) 0
        else a.entities.getD r 0 := by
    intro r hr
    rcases hs.hcase with ⟨hsw, -, hent⟩ | ⟨hsw, -, hent⟩
    · rw [hent, getD_dropLast _ _ _ (by rw [List.length_set]; omega)]
      by_cases hrr : r = row
      · rw [if_pos hrr, hrr, getD_set_self _ _ _ _ (by omega)]
      · rw [if_neg hrr, getD_set_ne _ _ _ _ _ hrr]
    · have hrr : ¬ r = row := by omega
      rw [hent, if_neg hrr, getD_dropLast _ _ _ hr]
  have h2elen : na2.entities.length = naQ.entities.length + 1 := by
    rw [hs.h2ents, List.length_append, List.length_singleton]
  have h2last : na2.entities.getD naQ.entities.length 0 = e := by
    rw [hs.h2ents]
    exact getD_append_right_self _ _ _
  have h2lt : ∀ r, r < naQ.entities.length →
      na2.entities.getD r 0 = naQ.entities.getD r 0 := by
    intro r hr
    rw [hs.h2ents, getD_append_left _ _ _ _ hr]
  have hmapid : na2.components.map ComponentArray.id =
      naQ.components.map ComponentArray.id := by
    apply List.ext_getElem (by rw [List.length_map, List.length_map, hs.h2len])
    intro n h1 h2
    have hn2 : n < naQ.components.length := by simpa using h2
    have hn1 : n < na2.components.length := by simpa using h1
    have hid := (hs.h2cols n hn2).1
    rw [List.getD_eq_getElem _ _ hn1, List.getD_eq_getElem _ _ hn2] at hid
    simp only [List.getElem_map]
    exact hid
  have harch_aid : alookup st'.archetypes aid = some a1 := by
    rw [hs.harch aid, if_pos rfl]
  have harch_new : alookup st'.archetypes newAid = some na2 := by
    rw [hs.harch newAid, if_neg hs.hne, if_pos rfl]
  have harch_other : ∀ x, x ≠ aid → x ≠ newAid →
      alookup st'.archetypes x = alookup st.archetypes x := by
    intro x h1 h2
    rw [hs.harch x, if_neg h1, if_neg h2]
  refine ⟨hs.hkA, by rw [hs.hkL]; exact hA2, ?_, ?_, ?_, ?_, ?_, ?_⟩
  · -- arch0ok
    by_cases hz1 : (0 : Nat) = aid
    · have ha0 : alookup st.archetypes 0 = some a := by
        rw [hz1]
        exact hs.ha
      obtain ⟨-, hids0, hcomps0⟩ := h0
      rw [hfind 0 a ha0] at hids0 hcomps0
      have h1 : alookup st'.archetypes 0 = some a1 := by
        rw [hz1]
        exact harch_aid
      refine ⟨by rw [h1]; rfl, ?_, ?_⟩
      · rw [hfind' 0 a1 h1, hs.h1ids, hids0]
      · rw [hfind' 0 a1 h1, hs.h1comps, hcomps0]
        rfl
    · by_cases hz2 : (0 : Nat) = newAid
      · obtain ⟨hq1, hq2⟩ := hs.hQzero hz2.symm
        have h1 : alookup st'.archetypes 0 = some na2 := by
          rw [hz2]
          exact harch_new
        refine ⟨by rw [h1]; rfl, ?_, ?_⟩
        · rw [hfind' 0 na2 h1, hs.h2ids, hq1]
        · rw [hfind' 0 na2 h1]
          have hlz : na2.components.length = 0 := by
            rw [hs.h2len, hq2]
            rfl
          exact List.length_eq_zero.mp hlz
      · have h1 : alookup st'.archetypes 0 = alookup st.archetypes 0 :=
          harch_other 0 hz1 hz2
        obtain ⟨hi0, hids0, hcomps0⟩ := h0
        refine ⟨by rw [h1]; exact hi0, ?_, ?_⟩
        · rw [findArchD, h1]
          exact hids0
        · rw [findArchD, h1]
          exact hcomps0
  · -- archsAligned
    intro q hq
    have hlq : alookup st'.archetypes q.1 = some q.2 := mem_alookup_of_nodup hs.hkA hq
    rw [hs.harch q.1] at hlq
    by_cases hq1 : q.1 = aid
    · rw [if_pos hq1] at hlq
      injection hlq with hlq
      rw [← hlq, hq1]
      refine ⟨by rw [hs.h1id]; exact haAl.1, ?_⟩
      rw [hs.h1ids, hs.h1comps, List.map_map, haAl.2]
      exact List.map_congr_left (fun c _ => (take_out_at_id c row).symm)
    · rw [if_neg hq1] at hlq
      by_cases hq2 : q.1 = newAid
      · rw [if_pos hq2] at hlq
        injection hlq with hlq
        rw [← hlq, hq2]
        refine ⟨by rw [hs.h2id]; exact hs.hQid, ?_⟩
        rw [hs.h2ids, hs.hQids, hmapid]
      · rw [if_neg hq2] at hlq
        exact hAl (q.1, q.2) (alookup_eq_some_mem hlq)
  · -- lockstep
    intro q hq c hc
    have hlq : alookup st'.archetypes q.1 = some q.2 := mem_alookup_of_nodup hs.hkA hq
    rw [hs.harch q.1] at hlq
    by_cases hq1 : q.1 = aid
    · rw [if_pos hq1] at hlq
      injection hlq with hlq
      rw [← hlq] at hc ⊢
      rw [hs.h1comps] at hc
      obtain ⟨c0, hc0, rfl⟩ := List.mem_map.mp hc
      obtain ⟨hcnt, hclen⟩ := haLS c0 hc0
      constructor
      · rw [take_out_at_count, ha1len, hcnt]
      · rw [take_out_at_each_size,
          take_out_at_array_length c0 row hclen (by rw [hcnt]; exact hrow),
          take_out_at_count]
    · rw [if_neg hq1] at hlq
      by_cases hq2 : q.1 = newAid
      · rw [if_pos hq2] at hlq
        injection hlq with hlq
        rw [← hlq] at hc ⊢
        obtain ⟨x, hxlt, hxe⟩ := List.mem_iff_getElem.mp hc
        have hx2 : x < naQ.components.length := by
          rw [← hs.h2len]
          exact hxlt
        have hxd : na2.components.getD x default = c := by
          rw [List.getD_eq_getElem _ _ hxlt, hxe]
        have hmemQ : naQ.components.getD x default ∈ naQ.components := by
          rw [List.getD_eq_getElem _ _ hx2]
          exact List.getElem_mem _
        obtain ⟨hqc, hql⟩ := hs.hQlock _ hmemQ
        obtain ⟨-, hes, hct, hal⟩ := hs.h2cols x hx2
        rw [hxd] at hes hct hal
        constructor
        · rw [hct, hqc, h2elen]
        · rw [hal, hct, hes, hql, Nat.add_mul, Nat.one_mul]
      · rw [if_neg hq2] at hlq
        exact hLS (q.1, q.2) (alookup_eq_some_mem hlq) c hc
  · -- locSound
    have hnod' : (akeys st'.entity_locations).Nodup := by
      rw [hs.hkL]
      exact hA2
    have hmain : ∀ y x r, alookup st.entity_locations y = some (x, r) → y ≠ e →
        (row < a.entities.length - 1 → y ≠ a.entities.getD (a.entities.length - 1) 0) →
        (alookup st'.archetypes x).isSome = true ∧
        r < (findArchD st' x).entities.length ∧
        (findArchD st' x).entities.getD r 0 = y := by
      intro y x r hy hy1 hy2
      obtain ⟨hi1, hi2, hi3⟩ := hSnd' y x r hy
      by_cases hx1 : x = aid
      · subst hx1
        rw [hfind x a hs.ha] at hi2 hi3
        have hrne : r ≠ row := by
          intro hrr
          exact hy1 (by rw [← hi3, hrr, hrowe])
        have hrlt : r < a.entities.length - 1 := by
          by_cases hsw : row < a.entities.length - 1
          · have hdl2 : y ≠ a.entities.getD (a.entities.length - 1) 0 := hy2 hsw
            have hrd : r ≠ a.entities.length - 1 := by
              intro hrr
              exact hdl2 (by rw [← hi3, hrr])
            omega
          · omega
        have harx : alookup st'.archetypes x = some a1 := by
          rw [hs.harch x, if_pos rfl]
        refine ⟨by rw [harx]; rfl, ?_, ?_⟩
        · rw [hfind' x a1 harx, ha1len]
          omega
        · rw [hfind' x a1 harx, ha1get r hrlt, if_neg hrne]
          exact hi3
      · by_cases hx2 : x = newAid
        · subst hx2
          obtain ⟨Q, hQ⟩ := Option.isSome_iff_exists.mp hi1
          have hQn := hs.hQstored Q hQ
          rw [hQn] at hQ
          rw [hfind x naQ hQ] at hi2 hi3
          have harx : alookup st'.archetypes x = some na2 := by
            rw [hs.harch x, if_neg hx1, if_pos rfl]
          refine ⟨by rw [harx]; rfl, ?_, ?_⟩
          · rw [hfind' x na2 harx, h2elen]
            omega
          · rw [hfind' x na2 harx, h2lt r hi2]
            exact hi3
        · refine ⟨?_, ?_, ?_⟩
          · rw [harch_other x hx1 hx2]
            exact hi1
          · rw [findArchD, harch_other x hx1 hx2]
            exact hi2
          · rw [findArchD, harch_other x hx1 hx2]
            exact hi3
    intro p hp
    have hlp : alookup st'.entity_locations p.1 = some p.2 := mem_alookup_of_nodup hnod' hp
    by_cases hpe : p.1 = e
    · rw [hpe, hlocse] at hlp
      injection hlp with hlp
      rw [← hlp]
      have g1 : (alookup st'.archetypes newAid).isSome = true := by
        rw [harch_new]
        rfl
      have g2 : naQ.entities.length < (findArchD st' newAid).entities.length := by
        rw [hfind' newAid na2 harch_new, h2elen]
        omega
      have g3 : (findArchD st' newAid).entities.getD naQ.entities.length 0 = p.1 := by
        rw [hfind' newAid na2 harch_new, h2last, hpe]
      exact ⟨g1, g2, g3⟩
    · by_cases hpd : row < a.entities.length - 1 ∧
          p.1 = a.entities.getD (a.entities.length - 1) 0
      · obtain ⟨hsw, hpd1⟩ := hpd
        rw [hpd1, hdl' hsw] at hlp
        injection hlp with hlp
        rw [← hlp]
        have g1 : (alookup st'.archetypes aid).isSome = true := by
          rw [harch_aid]
          rfl
        have g2 : row < (findArchD st' aid).entities.length := by
          rw [hfind' aid a1 harch_aid, ha1len]
          omega
        have g3 : (findArchD st' aid).entities.getD row 0 = p.1 := by
          rw [hfind' aid a1 harch_aid, ha1get row hsw, if_pos rfl, hpd1]
        exact ⟨g1, g2, g3⟩
      · have hy2 : row < a.entities.length - 1 →
            p.1 ≠ a.entities.getD (a.entities.length - 1) 0 := by
          intro hsw he
          exact hpd ⟨hsw, he⟩
        rw [hpres p.1 hpe hy2] at hlp
        exact hmain p.1 p.2.1 p.2.2 hlp hpe hy2
  · -- locComplete
    intro q hq er her
    have hlq : alookup st'.archetypes q.1 = some q.2 := mem_alookup_of_nodup hs.hkA hq
    obtain ⟨hbound, hgd⟩ := getD_of_getElem? 0 (List.mem_enum_iff_getElem?.mp her)
    rw [hs.harch q.1] at hlq
    by_cases hq1 : q.1 = aid
    · rw [if_pos hq1] at hlq
      injection hlq with hlq
      rw [← hlq] at hbound hgd
      rw [ha1len] at hbound
      rw [ha1get er.1 hbound] at hgd
      by_cases hrr : er.1 = row
      · rw [if_pos hrr] at hgd
        have hsw : row < a.entities.length - 1 := by omega
        rw [hq1, ← hgd, hrr]
        exact hdl' hsw
      · rw [if_neg hrr] at hgd
        have hlk : alookup st.entity_locations er.2 = some (aid, er.1) :=
          hCmp' aid a hs.ha er.1 er.2
            (by rw [← hgd]; exact getElem?_of_getD _ _ 0 (by omega))
        have hne1 : er.2 ≠ e := hne_e _ _ _ hlk (Or.inr hrr)
        have hne2 : row < a.entities.length - 1 →
            er.2 ≠ a.entities.getD (a.entities.length - 1) 0 :=
          fun _ => hne_dl _ _ _ hlk (Or.inr (by omega))
        rw [hq1, hpres er.2 hne1 hne2]
        exact hlk
    · rw [if_neg hq1] at hlq
      by_cases hq2 : q.1 = newAid
      · rw [if_pos hq2] at hlq
        injection hlq with hlq
        rw [← hlq] at hbound hgd
        rw [h2elen] at hbound
        by_cases hrr : er.1 = naQ.entities.length
        · rw [hrr, h2last] at hgd
          rw [hq2, ← hgd, hrr]
          exact hlocse
        · have hrlt : er.1 < naQ.entities.length := by omega
          rw [h2lt er.1 hrlt] at hgd
          have hlk : alookup st.entity_locations er.2 = some (newAid, er.1) :=
            hs.hQloc er.1 er.2 (by rw [← hgd]; exact getElem?_of_getD _ _ 0 hrlt)
          have hne1 : er.2 ≠ e := hne_e _ _ _ hlk (Or.inl hs.hne)
          have hne2 : row < a.entities.length - 1 →
              er.2 ≠ a.entities.getD (a.entities.length - 1) 0 :=
            fun _ => hne_dl _ _ _ hlk (Or.inl hs.hne)
          rw [hq2, hpres er.2 hne1 hne2]
          exact hlk
      · rw [if_neg hq2] at hlq
        have hlk : alookup st.entity_locations er.2 = some (q.1, er.1) :=
          hCmp' q.1 q.2 hlq er.1 er.2
            (by rw [← hgd]; exact getElem?_of_getD _ _ 0 hbound)
        have hne1 : er.2 ≠ e := hne_e _ _ _ hlk (Or.inl hq1)
        have hne2 : row < a.entities.length - 1 →
            er.2 ≠ a.entities.getD (a.entities.length - 1) 0 :=
          fun _ => hne_dl _ _ _ hlk (Or.inl hq1)
        rw [hpres er.2 hne1 hne2]
        exact hlk
  · -- idBound
    intro p hp
    rw [hs.hgen]
    have hk : p.1 ∈ akeys st.entity_locations := by
      rw [← hs.hkL]
      exact mem_akeys_of_mem hp
    obtain ⟨w, hw⟩ := akeys_mem_exists hk
    exact hBnd (p.1, w) hw

/-- `create_entity` preserves the storage invariant. -/
theorem storageInv_create {st st' : ArchetypeStorage} {e : Nat}
    (hinv : StorageInv st) (h : create_entity st = some (st', e)) : StorageInv st' := by
  unfold create_entity at h
  simp only [Option.bind_eq_bind, Option.bind_eq_some, Option.some.injEq,
    Prod.mk.injEq] at h
  obtain ⟨arch0, h0look, hrec, hee⟩ := h
  unfold StorageInv arch0ok archsAligned lockstep locSound locComplete idBound at hinv ⊢
  obtain ⟨hA1, hA2, h0, hAl, hLS, hSnd, hCmp, hBnd⟩ := hinv
  obtain ⟨h0s, h0ids, h0cmp⟩ := h0
  have hfa0 : findArchD st 0 = arch0 := by
    rw [findArchD, h0look]
    rfl
  rw [hfa0] at h0ids h0cmp
  have hA : st'.archetypes =
      aset st.archetypes 0 { arch0 with entities := arch0.entities ++ [st.id_gen + 1] } := by
    rw [← hrec]
  have hL : st'.entity_locations =
      aemplace st.entity_locations (st.id_gen + 1) (0, arch0.entities.length) := by
    rw [← hrec]
  have hG : st'.id_gen = st.id_gen + 1 := by
    rw [← hrec]
  have hfresh : alookup st.entity_locations (st.id_gen + 1) = none := by
    apply alookup_none_of_forall_ne
    intro p hp
    have := hBnd p hp
    omega
  have hlocs' : ∀ y, alookup st'.entity_locations y =
      if y = st.id_gen + 1 then some ((0 : Nat), arch0.entities.length)
      else alookup st.entity_locations y := by
    intro y
    rw [hL, alookup_aemplace]
    by_cases hy : y = st.id_gen + 1
    · rw [if_pos hy, if_pos hy, hfresh]
      rfl
    · rw [if_neg hy, if_neg hy]
  have harch' : ∀ x, alookup st'.archetypes x =
      if x = 0 then some { arch0 with entities := arch0.entities ++ [st.id_gen + 1] }
      else alookup st.archetypes x := by
    intro x
    rw [hA, alookup_aset]
    by_cases hx : x = 0
    · rw [if_pos hx, if_pos hx, h0look]
      rfl
    · rw [if_neg hx, if_neg hx]
  have hndA : (akeys st'.archetypes).Nodup := by
    rw [hA, akeys_aset]
    exact hA1
  have hndL : (akeys st'.entity_locations).Nodup := by
    rw [hL]
    exact nodup_akeys_aemplace _ _ hA2
  have hnotg : ∀ y l, alookup st.entity_locations y = some l → y ≠ st.id_gen + 1 := by
    intro y l hy he
    have := hBnd (y, l) (alookup_eq_some_mem hy)
    omega
  refine ⟨hndA, hndL, ?_, ?_, ?_, ?_, ?_, ?_⟩
  · have h1 : alookup st'.archetypes 0 =
        some { arch0 with entities := arch0.entities ++ [st.id_gen + 1] } := by
      rw [harch' 0, if_pos rfl]
    refine ⟨by rw [h1]; rfl, ?_, ?_⟩
    · rw [findArchD, h1]
      exact h0ids
    · rw [findArchD, h1]
      exact h0cmp
  · intro q hq
    have hlq : alookup st'.archetypes q.1 = some q.2 := mem_alookup_of_nodup hndA hq
    rw [harch' q.1] at hlq
    by_cases hq1 : q.1 = 0
    · rw [if_pos hq1] at hlq
      injection hlq with hlq
      rw [← hlq, hq1]
      have h00 := hAl (0, arch0) (alookup_eq_some_mem h0look)
      exact ⟨h00.1, h00.2⟩
    · rw [if_neg hq1] at hlq
      exact hAl (q.1, q.2) (alookup_eq_some_mem hlq)
  · intro q hq c hc
    have hlq : alookup st'.archetypes q.1 = some q.2 := mem_alookup_of_nodup hndA hq
    rw [harch' q.1] at hlq
    by_cases hq1 : q.1 = 0
    · rw [if_pos hq1] at hlq
      injection hlq with hlq
      rw [← hlq] at hc
      have hc' : c ∈ arch0.components := hc
      rw [h0cmp] at hc'
      simp at hc'
    · rw [if_neg hq1] at hlq
      exact hLS (q.1, q.2) (alookup_eq_some_mem hlq) c hc
  · intro p hp
    have hlp : alookup st'.entity_locations p.1 = some p.2 := mem_alookup_of_nodup hndL hp
    rw [hlocs' p.1] at hlp
    by_cases hpe : p.1 = st.id_gen + 1
    · rw [if_pos hpe] at hlp
      injection hlp with hlp
      rw [← hlp]
      have h1 : alookup st'.archetypes 0 =
          some { arch0 with entities := arch0.entities ++ [st.id_gen + 1] } := by
        rw [harch' 0, if_pos rfl]
      refine ⟨by rw [h1]; rfl, ?_, ?_⟩
      · rw [findArchD, h1]
        show arch0.entities.length < (arch0.entities ++ [st.id_gen + 1]).length
        rw [List.length_append, List.length_singleton]
        omega
      · rw [findArchD, h1]
        show (arch0.entities ++ [st.id_gen + 1]).getD arch0.entities.length 0 = p.1
        rw [getD_append_right_self, hpe]
    · rw [if_neg hpe] at hlp
      obtain ⟨hi1, hi2, hi3⟩ := hSnd (p.1, p.2) (alookup_eq_some_mem hlp)
      by_cases hq1 : p.2.1 = 0
      · have h1 : alookup st'.archetypes 0 =
            some { arch0 with entities := arch0.entities ++ [st.id_gen + 1] } := by
          rw [harch' 0, if_pos rfl]
        rw [hq1] at hi1 hi2 hi3
        rw [hfa0] at hi2 hi3
        have hi2' : p.2.2 < arch0.entities.length := hi2
        refine ⟨?_, ?_, ?_⟩
        · rw [hq1, h1]
          rfl
        · rw [hq1, findArchD, h1]
          show p.2.2 < (arch0.entities ++ [st.id_gen + 1]).length
          rw [List.length_append]
          omega
        · rw [hq1, findArchD, h1]
          show (arch0.entities ++ [st.id_gen + 1]).getD p.2.2 0 = p.1
          rw [getD_append_left _ _ _ _ hi2']
          exact hi3
      · refine ⟨?_, ?_, ?_⟩
        · rw [harch' p.2.1, if_neg hq1]
          exact hi1
        · rw [findArchD, harch' p.2.1, if_neg hq1]
          exact hi2
        · rw [findArchD, harch' p.2.1, if_neg hq1]
          exact hi3
  · intro q hq er her
    have hlq : alookup st'.archetypes q.1 = some q.2 := mem_alookup_of_nodup hndA hq
    obtain ⟨hbound, hgd⟩ := getD_of_getElem? 0 (List.mem_enum_iff_getElem?.mp her)
    rw [harch' q.1] at hlq
    by_cases hq1 : q.1 = 0
    · rw [if_pos hq1] at hlq
      injection hlq with hlq
      rw [← hlq] at hbound hgd
      have hgd' : (arch0.entities ++ [st.id_gen + 1]).getD er.1 0 = er.2 := hgd
      have hbound' : er.1 < arch0.entities.length + 1 := by
        have hb2 : er.1 < (arch0.entities ++ [st.id_gen + 1]).length := hbound
        rw [List.length_append, List.length_singleton] at hb2
        exact hb2
      by_cases hrr : er.1 = arch0.entities.length
      · rw [hrr, getD_append_right_self] at hgd'
        rw [hq1, ← hgd', hrr]
        rw [hlocs' _, if_pos rfl]
      · have hlt : er.1 < arch0.entities.length := by omega
        rw [getD_append_left _ _ _ _ hlt] at hgd'
        have hlk : alookup st.entity_locations er.2 = some (0, er.1) :=
          hCmp (0, arch0) (alookup_eq_some_mem h0look) (er.1, er.2)
            (List.mem_enum_iff_getElem?.mpr
              (by rw [← hgd']; exact getElem?_of_getD _ _ 0 hlt))
        have hne1 : er.2 ≠ st.id_gen + 1 := hnotg _ _ hlk
        rw [hq1, hlocs' _, if_neg hne1]
        exact hlk
    · rw [if_neg hq1] at hlq
      have hlk : alookup st.entity_locations er.2 = some (q.1, er.1) :=
        hCmp (q.1, q.2) (alookup_eq_some_mem hlq) (er.1, er.2)
          (List.mem_enum_iff_getElem?.mpr
            (by rw [← hgd]; exact getElem?_of_getD _ _ 0 hbound))
      have hne1 : er.2 ≠ st.id_gen + 1 := hnotg _ _ hlk
      rw [hlocs' _, if_neg hne1]
      exact hlk
  · intro p hp
    rw [hG]
    rw [hL] at hp
    rcases mem_aemplace_elim hp with h1 | h1
    · have := hBnd p h1
      omega
    · rw [h1]

theorem mem_aset_elim {α : Type} {m : List (Nat × α)} {k : Nat} {v : α} {q : Nat × α}
    (h : q ∈ aset m k v) : q = (k, v) ∨ q ∈ m := by
  unfold aset at h
  obtain ⟨p, hp, he⟩ := List.mem_map.mp h
  by_cases hk : p.1 = k
  · rw [if_pos hk] at he
    exact Or.inl he.symm
  · rw [if_neg hk] at he
    exact Or.inr (he ▸ hp)

/-- `delete_entity` preserves the storage invariant. -/
theorem storageInv_delete {st st' : ArchetypeStorage} {e : Nat}
    (hinv : StorageInv st) (h : delete_entity st e = some st') : StorageInv st' := by
  unfold delete_entity at h
  simp only [Option.bind_eq_bind, Option.bind_eq_some] at h
  obtain ⟨loc, hloc, h⟩ := h
  obtain ⟨a, ha, h⟩ := h
  obtain ⟨⟨locs1, a1⟩, hdel, h⟩ := h
  simp only [Option.some.injEq] at h
  obtain ⟨hemp, h1id, h1ids, h1comps, hcs⟩ := delete_entity_row_cases _ _ _ _ _ hdel
  have h1comps' : a1.components = a.components.map (fun c => c.take_out_at loc.2) := h1comps
  unfold StorageInv arch0ok archsAligned lockstep locSound locComplete idBound at hinv ⊢
  obtain ⟨hA1, hA2, h0, hAl, hLS, hSnd, hCmp, hBnd⟩ := hinv
  have hfind : ∀ x arch, alookup st.archetypes x = some arch → findArchD st x = arch := by
    intro x arch hx
    rw [findArchD, hx]
    rfl
  have hfind' : ∀ x arch, alookup st'.archetypes x = some arch → findArchD st' x = arch := by
    intro x arch hx
    rw [findArchD, hx]
    rfl
  have hA : st'.archetypes = aset st.archetypes loc.1 a1 := by
    rw [← h]
  have hL : st'.entity_locations = aerase locs1 e := by
    rw [← h]
  have hG : st'.id_gen = st.id_gen := by
    rw [← h]
  have hamem : (loc.1, a) ∈ st.archetypes := alookup_eq_some_mem ha
  have haAl := hAl _ hamem
  have haLS := hLS _ hamem
  have hCmp' : ∀ x arch, alookup st.archetypes x = some arch → ∀ r ent,
      arch.entities[r]? = some ent → alookup st.entity_locations ent = some (x, r) := by
    intro x arch hx r ent hr
    exact hCmp (x, arch) (alookup_eq_some_mem hx) (r, ent) (List.mem_enum_iff_getElem?.mpr hr)
  have hSnd' : ∀ y x r, alookup st.entity_locations y = some (x, r) →
      (alookup st.archetypes x).isSome = true ∧
      r < (findArchD st x).entities.length ∧
      (findArchD st x).entities.getD r 0 = y := by
    intro y x r hy
    exact hSnd (y, (x, r)) (alookup_eq_some_mem hy)
  obtain ⟨-, hrow, hrowe⟩ := hSnd' e loc.1 loc.2 hloc
  rw [hfind loc.1 a ha] at hrow hrowe
  have hdlook : alookup st.entity_locations (a.entities.getD (a.entities.length - 1) 0) =
      some (loc.1, a.entities.length - 1) :=
    hCmp' loc.1 a ha _ _ (getElem?_of_getD _ _ 0 (by omega))
  have hne_e : ∀ y x r, alookup st.entity_locations y = some (x, r) →
      (x ≠ loc.1 ∨ r ≠ loc.2) → y ≠ e := by
    intro y x r hy hne he
    subst he
    rw [hloc] at hy
    injection hy with hy
    have hx : x = loc.1 := by rw [hy]
    have hr : r = loc.2 := by rw [hy]
    rcases hne with hne | hne
    · exact hne hx
    · exact hne hr
  have hne_dl : ∀ y x r, alookup st.entity_locations y = some (x, r) →
      (x ≠ loc.1 ∨ r ≠ a.entities.length - 1) →
      y ≠ a.entities.getD (a.entities.length - 1) 0 := by
    intro y x r hy hne he
    rw [he, hdlook] at hy
    injection hy with hy
    injection hy with hy1 hy2
    rcases hne with hne | hne
    · exact hne hy1.symm
    · exact hne hy2.symm
  have hkeys1 : akeys locs1 = akeys st.entity_locations := by
    rcases hcs with ⟨-, lloc, -, hlocs1, -⟩ | ⟨-, hlocs1, -⟩
    · rw [hlocs1, akeys_aset]
    · rw [hlocs1]
  have hndA : (akeys st'.archetypes).Nodup := by
    rw [hA, akeys_aset]
    exact hA1
  have hndL : (akeys st'.entity_locations).Nodup := by
    rw [hL]
    exact nodup_akeys_aerase _ (hkeys1 ▸ hA2)
  have he' : alookup st'.entity_locations e = none := by
    rw [hL, alookup_aerase, if_pos rfl]
  have hpres : ∀ y, y ≠ e →
      (loc.2 < a.entities.length - 1 → y ≠ a.entities.getD (a.entities.length - 1) 0) →
      alookup st'.entity_locations y = alookup st.entity_locations y := by
    intro y hy1 hy2
    rw [hL, alookup_aerase, if_neg hy1]
    rcases hcs with ⟨hsw, lloc, hlloc, hlocs1, -⟩ | ⟨hsw, hlocs1, -⟩
    · rw [hlocs1, alookup_aset, if_neg (hy2 hsw)]
    · rw [hlocs1]
  have hdl' : loc.2 < a.entities.length - 1 →
      alookup st'.entity_locations (a.entities.getD (a.entities.length - 1) 0) =
        some (loc.1, loc.2) := by
    intro hsw
    have hdne : a.entities.getD (a.entities.length - 1) 0 ≠ e :=
      hne_e _ _ _ hdlook (Or.inr (by omega))
    rw [hL, alookup_aerase, if_neg hdne]
    rcases hcs with ⟨-, lloc, hlloc, hlocs1, -⟩ | ⟨hsw2, -, -⟩
    · have hll : lloc = (loc.1, a.entities.length - 1) :=
        Option.some.inj (hlloc.symm.trans hdlook)
      rw [hlocs1, alookup_aset, if_pos rfl, hlloc, hll]
      rfl
    · exact absurd hsw hsw2
  have ha1len : a1.entities.length = a.entities.length - 1 := by
    rcases hcs with ⟨-, lloc, -, -, hent⟩ | ⟨-, -, hent⟩
    · rw [hent, List.length_dropLast, List.length_set]
    · rw [hent, List.length_dropLast]
  have ha1get : ∀ r, r < a.entities.length - 1 →
      a1.entities.getD r 0 =
        if r = loc.2 then a.entities.getD (a.entities.length - 1) 0
        else a.entities.getD r 0 := by
    intro r hr
    rcases hcs with ⟨hsw, lloc, -, -, hent⟩ | ⟨hsw, -, hent⟩
    · rw [hent, getD_dropLast _ _ _ (by rw [List.length_set]; omega)]
      by_cases hrr : r = loc.2
      · rw [if_pos hrr, hrr, getD_set_self _ _ _ _ (by omega)]
      · rw [if_neg hrr, getD_set_ne _ _ _ _ _ hrr]
    · have hrr : ¬ r = loc.2 := by omega
      rw [hent, if_neg hrr, getD_dropLast _ _ _ hr]
  have harch' : ∀ x, alookup st'.archetypes x =
      if x = loc.1 then some a1 else alookup st.archetypes x := by
    intro x
    rw [hA, alookup_aset]
    by_cases hx : x = loc.1
    · rw [if_pos hx, if_pos hx, ha]
      rfl
    · rw [if_neg hx, if_neg hx]
  have harch_aid : alookup st'.archetypes loc.1 = some a1 := by
    rw [harch' loc.1, if_pos rfl]
  refine ⟨hndA, hndL, ?_, ?_, ?_, ?_, ?_, ?_⟩
  · by_cases hz1 : (0 : Nat) = loc.1
    · have ha0 : alookup st.archetypes 0 = some a := by
        rw [hz1]
        exact ha
      obtain ⟨-, hids0, hcomps0⟩ := h0
      rw [hfind 0 a ha0] at hids0 hcomps0
      have h1 : alookup st'.archetypes 0 = some a1 := by
        rw [hz1]
        exact harch_aid
      refine ⟨by rw [h1]; rfl, ?_, ?_⟩
      · rw [hfind' 0 a1 h1, h1ids, hids0]
      · rw [hfind' 0 a1 h1, h1comps', hcomps0]
        rfl
    · have h1 : alookup st'.archetypes 0 = alookup st.archetypes 0 := by
        rw [harch' 0, if_neg hz1]
      obtain ⟨hi0, hids0, hcomps0⟩ := h0
      refine ⟨by rw [h1]; exact hi0, ?_, ?_⟩
      · rw [findArchD, h1]
        exact hids0
      · rw [findArchD, h1]
        exact hcomps0
  · intro q hq
    have hlq : alookup st'.archetypes q.1 = some q.2 := mem_alookup_of_nodup hndA hq
    rw [harch' q.1] at hlq
    by_cases hq1 : q.1 = loc.1
    · rw [if_pos hq1] at hlq
      injection hlq with hlq
      rw [← hlq, hq1]
      refine ⟨by rw [h1id]; exact haAl.1, ?_⟩
      rw [h1ids, h1comps', List.map_map, haAl.2]
      exact List.map_congr_left (fun c _ => (take_out_at_id c loc.2).symm)
    · rw [if_neg hq1] at hlq
      exact hAl (q.1, q.2) (alookup_eq_some_mem hlq)
  · intro q hq c hc
    have hlq : alookup st'.archetypes q.1 = some q.2 := mem_alookup_of_nodup hndA hq
    rw [harch' q.1] at hlq
    by_cases hq1 : q.1 = loc.1
    · rw [if_pos hq1] at hlq
      injection hlq with hlq
      rw [← hlq] at hc ⊢
      rw [h1comps'] at hc
      obtain ⟨c0, hc0, rfl⟩ := List.mem_map.mp hc
      obtain ⟨hcnt, hclen⟩ := haLS c0 hc0
      constructor
      · rw [take_out_at_count, ha1len, hcnt]
      · rw [take_out_at_each_size,
          take_out_at_array_length c0 loc.2 hclen (by rw [hcnt]; exact hrow),
          take_out_at_count]
    · rw [if_neg hq1] at hlq
      exact hLS (q.1, q.2) (alookup_eq_some_mem hlq) c hc
  · have hmain : ∀ y x r, alookup st.entity_locations y = some (x, r) → y ≠ e →
        (loc.2 < a.entities.length - 1 →
          y ≠ a.entities.getD (a.entities.length - 1) 0) →
        (alookup st'.archetypes x).isSome = true ∧
        r < (findArchD st' x).entities.length ∧
        (findArchD st' x).entities.getD r 0 = y := by
      intro y x r hy hy1 hy2
      obtain ⟨hi1, hi2, hi3⟩ := hSnd' y x r hy
      by_cases hx1 : x = loc.1
      · rw [hx1] at hi2 hi3
        rw [hx1]
        rw [hfind loc.1 a ha] at hi2 hi3
        have hrne : r ≠ loc.2 := by
          intro hrr
          exact hy1 (by rw [← hi3, hrr, hrowe])
        have hrlt : r < a.entities.length - 1 := by
          by_cases hsw : loc.2 < a.entities.length - 1
          · have hdl2 : y ≠ a.entities.getD (a.entities.length - 1) 0 := hy2 hsw
            have hrd : r ≠ a.entities.length - 1 := by
              intro hrr
              exact hdl2 (by rw [← hi3, hrr])
            omega
          · omega
        refine ⟨by rw [harch_aid]; rfl, ?_, ?_⟩
        · rw [hfind' loc.1 a1 harch_aid, ha1len]
          omega
        · rw [hfind' loc.1 a1 harch_aid, ha1get r hrlt, if_neg hrne]
          exact hi3
      · refine ⟨?_, ?_, ?_⟩
        · rw [harch' x, if_neg hx1]
          exact hi1
        · rw [findArchD, harch' x, if_neg hx1]
          exact hi2
        · rw [findArchD, harch' x, if_neg hx1]
          exact hi3
    intro p hp
    have hlp : alookup st'.entity_locations p.1 = some p.2 := mem_alookup_of_nodup hndL hp
    have hpe : p.1 ≠ e := by
      intro hh
      rw [hh, he'] at hlp
      exact Option.noConfusion hlp
    by_cases hpd : loc.2 < a.entities.length - 1 ∧
        p.1 = a.entities.getD (a.entities.length - 1) 0
    · obtain ⟨hsw, hpd1⟩ := hpd
      rw [hpd1, hdl' hsw] at hlp
      injection hlp with hlp
      rw [← hlp]
      refine ⟨by rw [harch_aid]; rfl, ?_, ?_⟩
      · rw [hfind' loc.1 a1 harch_aid, ha1len]
        omega
      · rw [hfind' loc.1 a1 harch_aid, ha1get loc.2 hsw, if_pos rfl, hpd1]
    · have hy2 : loc.2 < a.entities.length - 1 →
          p.1 ≠ a.entities.getD (a.entities.length - 1) 0 := by
        intro hsw he2
        exact hpd ⟨hsw, he2⟩
      rw [hpres p.1 hpe hy2] at hlp
      exact hmain p.1 p.2.1 p.2.2 hlp hpe hy2
  · intro q hq er her
    have hlq : alookup st'.archetypes q.1 = some q.2 := mem_alookup_of_nodup hndA hq
    obtain ⟨hbound, hgd⟩ := getD_of_getElem? 0 (List.mem_enum_iff_getElem?.mp her)
    rw [harch' q.1] at hlq
    by_cases hq1 : q.1 = loc.1
    · rw [if_pos hq1] at hlq
      injection hlq with hlq
      rw [← hlq] at hbound hgd
      rw [ha1len] at hbound
      rw [ha1get er.1 hbound] at hgd
      by_cases hrr : er.1 = loc.2
      · rw [if_pos hrr] at hgd
        have hsw : loc.2 < a.entities.length - 1 := by omega
        rw [hq1, ← hgd, hrr]
        exact hdl' hsw
      · rw [if_neg hrr] at hgd
        have hlk : alookup st.entity_locations er.2 = some (loc.1, er.1) :=
          hCmp' loc.1 a ha er.1 er.2
            (by rw [← hgd]; exact getElem?_of_getD _ _ 0 (by omega))
        have hne1 : er.2 ≠ e := hne_e _ _ _ hlk (Or.inr hrr)
        have hne2 : loc.2 < a.entities.length - 1 →
            er.2 ≠ a.entities.getD (a.entities.length - 1) 0 :=
          fun _ => hne_dl _ _ _ hlk (Or.inr (by omega))
        rw [hq1, hpres er.2 hne1 hne2]
        exact hlk
    · rw [if_neg hq1] at hlq
      have hlk : alookup st.entity_locations er.2 = some (q.1, er.1) :=
        hCmp' q.1 q.2 hlq er.1 er.2
          (by rw [← hgd]; exact getElem?_of_getD _ _ 0 hbound)
      have hne1 : er.2 ≠ e := hne_e _ _ _ hlk (Or.inl hq1)
      have hne2 : loc.2 < a.entities.length - 1 →
          er.2 ≠ a.entities.getD (a.entities.length - 1) 0 :=
        fun _ => hne_dl _ _ _ hlk (Or.inl hq1)
      rw [hpres er.2 hne1 hne2]
      exact hlk
  · intro p hp
    rw [hG]
    rw [hL] at hp
    have hp1 : p ∈ locs1 := (List.mem_filter.mp hp).1
    rcases hcs with ⟨-, lloc, hlloc, hlocs1, -⟩ | ⟨-, hlocs1, -⟩
    · rw [hlocs1] at hp1
      rcases mem_aset_elim hp1 with h1 | h1
      · have hb := hBnd _ (alookup_eq_some_mem hdlook)
        rw [h1]
        exact hb
      · exact hBnd p h1
    · rw [hlocs1] at hp1
      exact hBnd p hp1

/-- `add_component` preserves the storage invariant. -/
theorem storageInv_add {st st' : ArchetypeStorage} {e cid size : Nat} {v : List Nat}
    {b : Bool} (hinv : StorageInv st)
    (h : add_component st e cid size v = some (st', b)) : StorageInv st' := by
  unfold add_component at h
  simp only [Option.bind_eq_bind, Option.bind_eq_some] at h
  obtain ⟨loc, hloc, h⟩ := h
  obtain ⟨a, ha, h⟩ := h
  by_cases hhc : a.has_component cid
  · rw [if_pos hhc] at h
    simp only [Option.some.injEq, Prod.mk.injEq] at h
    rw [← h.1]
    exact hinv
  · rw [if_neg hhc] at h
    simp only [Option.bind_eq_bind, Option.bind_eq_some] at h
    set nA := calculate_archetype_id
      (insert_info (infos_of a) (insert_pos a.component_ids cid) (cid, size)) with hnAdef
    set mkA := Archetype.mk_from_infos nA
      (insert_info (infos_of a) (insert_pos a.component_ids cid) (cid, size)) with hmkAdef
    obtain ⟨na, hna, h⟩ := h
    rw [alookup_aemplace_self] at hna
    injection hna with hna
    by_cases h4 : nA = loc.1
    · rw [if_pos h4] at h
      exact absurd h (by simp)
    · rw [if_neg h4] at h
      simp only [Archetype.add_entity, Option.bind_eq_bind, Option.bind_eq_some] at h
      obtain ⟨⟨na2, clocs2⟩, hloop, h⟩ := h
      obtain ⟨⟨locs1, a1⟩, htake, h⟩ := h
      simp only [Option.some.injEq, Prod.mk.injEq] at h
      obtain ⟨hrec, -⟩ := h
      have hinv2 := hinv
      unfold StorageInv arch0ok archsAligned lockstep locSound locComplete idBound at hinv2
      obtain ⟨hA1, hA2, h0, hAl, hLS, hSnd, hCmp, hBnd⟩ := hinv2
      obtain ⟨h0s, h0ids, h0cmp⟩ := h0
      have hfind : ∀ x arch, alookup st.archetypes x = some arch → findArchD st x = arch := by
        intro x arch hx
        rw [findArchD, hx]
        rfl
      have hCmp' : ∀ x arch, alookup st.archetypes x = some arch → ∀ r ent,
          arch.entities[r]? = some ent →
          alookup st.entity_locations ent = some (x, r) := by
        intro x arch hx r ent hr
        exact hCmp (x, arch) (alookup_eq_some_mem hx) (r, ent)
          (List.mem_enum_iff_getElem?.mpr hr)
      have hSnd' : ∀ y x r, alookup st.entity_locations y = some (x, r) →
          (alookup st.archetypes x).isSome = true ∧
          r < (findArchD st x).entities.length ∧
          (findArchD st x).entities.getD r 0 = y := by
        intro y x r hy
        exact hSnd (y, (x, r)) (alookup_eq_some_mem hy)
      obtain ⟨-, hrow, hrowe⟩ := hSnd' e loc.1 loc.2 hloc
      rw [hfind loc.1 a ha] at hrow hrowe
      have hA : st'.archetypes =
          aset (aset (aemplace st.archetypes nA mkA) nA na2) loc.1 a1 := by
        rw [← hrec]
      have hL : st'.entity_locations = aset locs1 e (nA, na.entities.length) := by
        rw [← hrec]
      have hG : st'.id_gen = st.id_gen := by
        rw [← hrec]
      have hQ : na.id = nA ∧ na.component_ids = na.components.map ComponentArray.id ∧
          (∀ c ∈ na.components, c.count = na.entities.length ∧
            c.array.length = c.count * c.each_size) ∧
          (∀ r ent, na.entities[r]? = some ent →
            alookup st.entity_locations ent = some (nA, r)) ∧
          (nA = 0 → na.component_ids = [] ∧ na.components = []) ∧
          (∀ Q, alookup st.archetypes nA = some Q → Q = na) := by
        rcases hq : alookup st.archetypes nA with _ | Q
        · rw [hq, Option.getD_none] at hna
          refine ⟨?_, ?_, ?_, ?_, ?_, ?_⟩
          · rw [← hna, hmkAdef]
            rfl
          · rw [← hna, hmkAdef]
            exact mk_from_infos_aligned _ _
          · intro c hc
            rw [← hna, hmkAdef] at hc ⊢
            simp only [Archetype.mk_from_infos] at hc ⊢
            obtain ⟨p, -, rfl⟩ := List.mem_map.mp hc
            exact ⟨rfl, by simp⟩
          · intro r ent hr
            rw [← hna, hmkAdef] at hr
            simp only [Archetype.mk_from_infos] at hr
            simp at hr
          · intro h0eq
            rw [h0eq] at hq
            rw [hq] at h0s
            exact absurd h0s (by simp)
          · intro Q hQ2
            exact Option.noConfusion hQ2
        · rw [hq, Option.getD_some] at hna
          rw [hna] at hq
          have hmem := alookup_eq_some_mem hq
          have hAlq := hAl _ hmem
          refine ⟨hAlq.1, hAlq.2, fun c hc => hLS _ hmem c hc, ?_, ?_, ?_⟩
          · intro r ent hr
            exact hCmp' nA na hq r ent hr
          · intro h0eq
            rw [h0eq] at hq
            have hf := hfind 0 na hq
            rw [hf] at h0ids h0cmp
            exact ⟨h0ids, h0cmp⟩
          · intro Q2 hQ2
            exact (Option.some.inj hQ2).symm.trans hna
      obtain ⟨hQid, hQids, hQlock, hQloc, hQzero, hQstored⟩ := hQ
      have hloop' : for_loop
          (add_copy_step a loc.2 (insert_pos a.component_ids cid) cid nA v) 0
          (na.components.map ComponentArray.grow).length
          (⟨na.id, na.component_ids, na.entities ++ [e],
            na.components.map ComponentArray.grow⟩,
           aemplace st.component_locations cid []) = some (na2, clocs2) := hloop
      unfold for_loop at hloop'
      rw [Nat.sub_zero] at hloop'
      obtain ⟨hsid, hsids, hsents, hslen, -, hswr⟩ :=
        add_loop_shape a loc.2 (insert_pos a.component_ids cid) cid nA v
          (na.components.map ComponentArray.grow).length 0
          ⟨na.id, na.component_ids, na.entities ++ [e],
            na.components.map ComponentArray.grow⟩
          (aemplace st.component_locations cid []) na2 clocs2 hloop'
      have h2id : na2.id = na.id := hsid
      have h2ids : na2.component_ids = na.component_ids := hsids
      have h2ents : na2.entities = na.entities ++ [e] := hsents
      have h2len : na2.components.length = na.components.length := by
        have hl2 : na2.components.length =
            (na.components.map ComponentArray.grow).length := hslen
        rw [List.length_map] at hl2
        exact hl2
      have h2cols : ∀ x, x < na.components.length →
          (na2.components.getD x default).id = (na.components.getD x default).id ∧
          (na2.components.getD x default).each_size =
            (na.components.getD x default).each_size ∧
          (na2.components.getD x default).count = (na.components.getD x default).count + 1 ∧
          (na2.components.getD x default).array.length =
            (na.components.getD x default).array.length +
              (na.components.getD x default).each_size := by
        intro x hx
        have hx1 : x < (na.components.map ComponentArray.grow).length := by
          rw [List.length_map]
          exact hx
        have hw2 : na2.components.getD x default =
            add_write a loc.2 (insert_pos a.component_ids cid) v x
              ((na.components.map ComponentArray.grow).getD x default) :=
          hswr x (Nat.zero_le x) (by omega) hx1
        rw [getD_map_lt ComponentArray.grow na.components x default default hx] at hw2
        obtain ⟨hqc, hql⟩ := hQlock (na.components.getD x default) (by
          rw [List.getD_eq_getElem _ _ hx]
          exact List.getElem_mem _)
        have hgrowlen : (na.components.getD x default).grow.array.length =
            (na.components.getD x default).grow.count *
              (na.components.getD x default).grow.each_size := by
          rw [grow_array_length, grow_count, grow_each_size, hql, Nat.add_mul, Nat.one_mul]
        obtain ⟨hd1, hd2, hd3, hd4⟩ := add_write_dims a loc.2 (insert_pos a.component_ids cid)
          v x ((na.components.getD x default).grow) (by rw [grow_count]; omega) hgrowlen
        rw [hw2]
        refine ⟨?_, ?_, ?_, ?_⟩
        · rw [hd1, grow_id]
        · rw [hd2, grow_each_size]
        · rw [hd3, grow_count]
        · rw [hd4, grow_array_length]
      obtain ⟨hemp, h1id, h1ids, h1comps, hcs⟩ := take_out_entity_cases _ _ _ _ _ htake
      have hkeys1 : akeys locs1 = akeys st.entity_locations := take_out_entity_keys htake
      have hsomeE : (alookup locs1 e).isSome = true := by
        rw [alookup_isSome_iff_mem_akeys, hkeys1, ← alookup_isSome_iff_mem_akeys, hloc]
        rfl
      obtain ⟨w, hw⟩ := Option.isSome_iff_exists.mp hsomeE
      have hdlook : alookup st.entity_locations
          (a.entities.getD (a.entities.length - 1) 0) =
          some (loc.1, a.entities.length - 1) :=
        hCmp' loc.1 a ha _ _ (getElem?_of_getD _ _ 0 (by omega))
      have hcaseF : (loc.2 < a.entities.length - 1 ∧
          (∀ y, alookup st'.entity_locations y =
            if y = e then some (nA, na.entities.length)
            else if y = a.entities.getD (a.entities.length - 1) 0 then some (loc.1, loc.2)
            else alookup st.entity_locations y) ∧
          a1.entities =
            (a.entities.set loc.2 (a.entities.getD (a.entities.length - 1) 0)).dropLast) ∨
        (¬ loc.2 < a.entities.length - 1 ∧
          (∀ y, alookup st'.entity_locations y =
            if y = e then some (nA, na.entities.length)
            else alookup st.entity_locations y) ∧
          a1.entities = a.entities.dropLast) := by
        rcases hcs with ⟨hsw, lloc, hlloc, hlocs1, hents1⟩ | ⟨hsw, hlocs1, hents1⟩
        · left
          have hll : lloc = (loc.1, a.entities.length - 1) :=
            Option.some.inj (hlloc.symm.trans hdlook)
          refine ⟨hsw, ?_, hents1⟩
          intro y
          rw [hL, alookup_aset]
          by_cases hy1 : y = e
          · rw [if_pos hy1, if_pos hy1, hw]
            rfl
          · rw [if_neg hy1, if_neg hy1, hlocs1, alookup_aset]
            by_cases hy2 : y = a.entities.getD (a.entities.length - 1) 0
            · rw [if_pos hy2, if_pos hy2, hlloc, hll]
              rfl
            · rw [if_neg hy2, if_neg hy2]
        · right
          refine ⟨hsw, ?_, hents1⟩
          intro y
          rw [hL, alookup_aset]
          by_cases hy1 : y = e
          · rw [if_pos hy1, if_pos hy1, hw]
            rfl
          · rw [if_neg hy1, if_neg hy1, hlocs1]
      have hndA : (akeys st'.archetypes).Nodup := by
        rw [hA, akeys_aset, akeys_aset]
        exact nodup_akeys_aemplace _ _ hA1
      have hkL : akeys st'.entity_locations = akeys st.entity_locations := by
        rw [hL, akeys_aset, hkeys1]
      have harchF : ∀ x, alookup st'.archetypes x =
          if x = loc.1 then some a1 else if x = nA then some na2
          else alookup st.archetypes x := by
        intro x
        rw [hA, alookup_aset]
        by_cases hx1 : x = loc.1
        · rw [if_pos hx1, if_pos hx1, alookup_aset,
            if_neg (fun hh => h4 hh.symm), alookup_aemplace,
            if_neg (fun hh => h4 hh.symm), ha]
          rfl
        · rw [if_neg hx1, if_neg hx1, alookup_aset]
          by_cases hx2 : x = nA
          · rw [if_pos hx2, if_pos hx2, alookup_aemplace_self]
            rfl
          · rw [if_neg hx2, if_neg hx2, alookup_aemplace, if_neg hx2]
      exact migrate_inv hinv
        ⟨hloc, ha, h4, hQid, hQids, hQlock, hQloc, hQzero, hQstored,
         h2id, h2ids, h2ents, h2len, h2cols, h1id, h1ids, h1comps,
         hcaseF, harchF, hndA, hkL, hG⟩

/-- `remove_component` preserves the storage invariant. -/
theorem storageInv_remove {st st' : ArchetypeStorage} {e cid : Nat}
    (hinv : StorageInv st) (h : remove_component st e cid = some st') : StorageInv st' := by
  unfold remove_component at h
  simp only [Option.bind_eq_bind, Option.bind_eq_some] at h
  obtain ⟨loc, hloc, h⟩ := h
  obtain ⟨a, ha, h⟩ := h
  by_cases hhc : a.has_component cid
  · rw [if_neg (not_not_intro hhc)] at h
    simp only [Option.bind_eq_bind, Option.bind_eq_some] at h
    set nA := calculate_archetype_id
      (remove_info (infos_of a) (a.component_ids.findIdx (fun id => id = cid))) with hnAdef
    set mkR := Archetype.mk_from_infos nA
      (remove_info (infos_of a) (a.component_ids.findIdx (fun id => id = cid))) with hmkRdef
    obtain ⟨na, hna, h⟩ := h
    rw [alookup_aemplace_self] at hna
    injection hna with hna
    by_cases h4 : nA = loc.1
    · rw [if_pos h4] at h
      exact absurd h (by simp)
    · rw [if_neg h4] at h
      simp only [Archetype.add_entity, Option.bind_eq_bind, Option.bind_eq_some] at h
      obtain ⟨⟨na2, clocs2⟩, hloop, h⟩ := h
      obtain ⟨⟨locs1, a1⟩, htake, h⟩ := h
      simp only [Option.some.injEq] at h
      have hinv2 := hinv
      unfold StorageInv arch0ok archsAligned lockstep locSound locComplete idBound at hinv2
      obtain ⟨hA1, hA2, h0, hAl, hLS, hSnd, hCmp, hBnd⟩ := hinv2
      obtain ⟨h0s, h0ids, h0cmp⟩ := h0
      have hfind : ∀ x arch, alookup st.archetypes x = some arch → findArchD st x = arch := by
        intro x arch hx
        rw [findArchD, hx]
        rfl
      have hCmp' : ∀ x arch, alookup st.archetypes x = some arch → ∀ r ent,
          arch.entities[r]? = some ent →
          alookup st.entity_locations ent = some (x, r) := by
        intro x arch hx r ent hr
        exact hCmp (x, arch) (alookup_eq_some_mem hx) (r, ent)
          (List.mem_enum_iff_getElem?.mpr hr)
      have hSnd' : ∀ y x r, alookup st.entity_locations y = some (x, r) →
          (alookup st.archetypes x).isSome = true ∧
          r < (findArchD st x).entities.length ∧
          (findArchD st x).entities.getD r 0 = y := by
        intro y x r hy
        exact hSnd (y, (x, r)) (alookup_eq_some_mem hy)
      obtain ⟨-, hrow, hrowe⟩ := hSnd' e loc.1 loc.2 hloc
      rw [hfind loc.1 a ha] at hrow hrowe
      have hA : st'.archetypes =
          aset (aset (aemplace st.archetypes nA mkR) nA na2) loc.1 a1 := by
        rw [← h]
      have hL : st'.entity_locations = aset locs1 e (nA, na.entities.length) := by
        rw [← h]
      have hG : st'.id_gen = st.id_gen := by
        rw [← h]
      have hQ : na.id = nA ∧ na.component_ids = na.components.map ComponentArray.id ∧
          (∀ c ∈ na.components, c.count = na.entities.length ∧
            c.array.length = c.count * c.each_size) ∧
          (∀ r ent, na.entities[r]? = some ent →
            alookup st.entity_locations ent = some (nA, r)) ∧
          (nA = 0 → na.component_ids = [] ∧ na.components = []) ∧
          (∀ Q, alookup st.archetypes nA = some Q → Q = na) := by
        rcases hq : alookup st.archetypes nA with _ | Q
        · rw [hq, Option.getD_none] at hna
          refine ⟨?_, ?_, ?_, ?_, ?_, ?_⟩
          · rw [← hna, hmkRdef]
            rfl
          · rw [← hna, hmkRdef]
            exact mk_from_infos_aligned _ _
          · intro c hc
            rw [← hna, hmkRdef] at hc ⊢
            simp only [Archetype.mk_from_infos] at hc ⊢
            obtain ⟨p, -, rfl⟩ := List.mem_map.mp hc
            exact ⟨rfl, by simp⟩
          · intro r ent hr
            rw [← hna, hmkRdef] at hr
            simp only [Archetype.mk_from_infos] at hr
            simp at hr
          · intro h0eq
            rw [h0eq] at hq
            rw [hq] at h0s
            exact absurd h0s (by simp)
          · intro Q hQ2
            exact Option.noConfusion hQ2
        · rw [hq, Option.getD_some] at hna
          rw [hna] at hq
          have hmem := alookup_eq_some_mem hq
          have hAlq := hAl _ hmem
          refine ⟨hAlq.1, hAlq.2, fun c hc => hLS _ hmem c hc, ?_, ?_, ?_⟩
          · intro r ent hr
            exact hCmp' nA na hq r ent hr
          · intro h0eq
            rw [h0eq] at hq
            have hf := hfind 0 na hq
            rw [hf] at h0ids h0cmp
            exact ⟨h0ids, h0cmp⟩
          · intro Q2 hQ2
            exact (Option.some.inj hQ2).symm.trans hna
      obtain ⟨hQid, hQids, hQlock, hQloc, hQzero, hQstored⟩ := hQ
      have hloop' : for_loop
          (remove_copy_step a loc.2 (a.component_ids.findIdx (fun id => id = cid)) nA) 0
          a.components.length
          (⟨na.id, na.component_ids, na.entities ++ [e],
            na.components.map ComponentArray.grow⟩,
           st.component_locations) = some (na2, clocs2) := hloop
      unfold for_loop at hloop'
      rw [Nat.sub_zero] at hloop'
      have hwf : ∀ x, x < (na.components.map ComponentArray.grow).length →
          1 ≤ ((na.components.map ComponentArray.grow).getD x default).count ∧
          ((na.components.map ComponentArray.grow).getD x default).array.length =
            ((na.components.map ComponentArray.grow).getD x default).count *
              ((na.components.map ComponentArray.grow).getD x default).each_size := by
        intro x hx
        have hx0 : x < na.components.length := by
          rw [List.length_map] at hx
          exact hx
        rw [getD_map_lt ComponentArray.grow na.components x default default hx0]
        obtain ⟨hqc, hql⟩ := hQlock (na.components.getD x default) (by
          rw [List.getD_eq_getElem _ _ hx0]
          exact List.getElem_mem _)
        constructor
        · rw [grow_count]
          omega
        · rw [grow_array_length, grow_count, grow_each_size, hql, Nat.add_mul, Nat.one_mul]
      obtain ⟨hsid, hsids, hsents, hslen, hscols⟩ :=
        remove_loop_shape a loc.2 (a.component_ids.findIdx (fun id => id = cid)) nA
          a.components.length 0
          ⟨na.id, na.component_ids, na.entities ++ [e],
            na.components.map ComponentArray.grow⟩
          st.component_locations na2 clocs2 hwf hloop'
      have h2id : na2.id = na.id := hsid
      have h2ids : na2.component_ids = na.component_ids := hsids
      have h2ents : na2.entities = na.entities ++ [e] := hsents
      have h2len : na2.components.length = na.components.length := by
        have hl2 : na2.components.length =
            (na.components.map ComponentArray.grow).length := hslen
        rw [List.length_map] at hl2
        exact hl2
      have h2cols : ∀ x, x < na.components.length →
          (na2.components.getD x default).id = (na.components.getD x default).id ∧
          (na2.components.getD x default).each_size =
            (na.components.getD x default).each_size ∧
          (na2.components.getD x default).count = (na.components.getD x default).count + 1 ∧
          (na2.components.getD x default).array.length =
            (na.components.getD x default).array.length +
              (na.components.getD x default).each_size := by
        intro x hx
        have hx1 : x < (na.components.map ComponentArray.grow).length := by
          rw [List.length_map]
          exact hx
        obtain ⟨hp1, hp2, hp3, hp4⟩ := hscols x hx1
        have hp1' : (na2.components.getD x default).id =
            ((na.components.map ComponentArray.grow).getD x default).id := hp1
        have hp2' : (na2.components.getD x default).each_size =
            ((na.components.map ComponentArray.grow).getD x default).each_size := hp2
        have hp3' : (na2.components.getD x default).count =
            ((na.components.map ComponentArray.grow).getD x default).count := hp3
        have hp4' : (na2.components.getD x default).array.length =
            ((na.components.map ComponentArray.grow).getD x default).array.length := hp4
        rw [getD_map_lt ComponentArray.grow na.components x default default hx]
          at hp1' hp2' hp3' hp4'
        refine ⟨?_, ?_, ?_, ?_⟩
        · rw [hp1', grow_id]
        · rw [hp2', grow_each_size]
        · rw [hp3', grow_count]
        · rw [hp4', grow_array_length]
      obtain ⟨hemp, h1id, h1ids, h1comps, hcs⟩ := take_out_entity_cases _ _ _ _ _ htake
      have hkeys1 : akeys locs1 = akeys st.entity_locations := take_out_entity_keys htake
      have hsomeE : (alookup locs1 e).isSome = true := by
        rw [alookup_isSome_iff_mem_akeys, hkeys1, ← alookup_isSome_iff_mem_akeys, hloc]
        rfl
      obtain ⟨w, hw⟩ := Option.isSome_iff_exists.mp hsomeE
      have hdlook : alookup st.entity_locations
          (a.entities.getD (a.entities.length - 1) 0) =
          some (loc.1, a.entities.length - 1) :=
        hCmp' loc.1 a ha _ _ (getElem?_of_getD _ _ 0 (by omega))
      have hcaseF : (loc.2 < a.entities.length - 1 ∧
          (∀ y, alookup st'.entity_locations y =
            if y = e then some (nA, na.entities.length)
            else if y = a.entities.getD (a.entities.length - 1) 0 then some (loc.1, loc.2)
            else alookup st.entity_locations y) ∧
          a1.entities =
            (a.entities.set loc.2 (a.entities.getD (a.entities.length - 1) 0)).dropLast) ∨
        (¬ loc.2 < a.entities.length - 1 ∧
          (∀ y, alookup st'.entity_locations y =
            if y = e then some (nA, na.entities.length)
            else alookup st.entity_locations y) ∧
          a1.entities = a.entities.dropLast) := by
        rcases hcs with ⟨hsw, lloc, hlloc, hlocs1, hents1⟩ | ⟨hsw, hlocs1, hents1⟩
        · left
          have hll : lloc = (loc.1, a.entities.length - 1) :=
            Option.some.inj (hlloc.symm.trans hdlook)
          refine ⟨hsw, ?_, hents1⟩
          intro y
          rw [hL, alookup_aset]
          by_cases hy1 : y = e
          · rw [if_pos hy1, if_pos hy1, hw]
            rfl
          · rw [if_neg hy1, if_neg hy1, hlocs1, alookup_aset]
            by_cases hy2 : y = a.entities.getD (a.entities.length - 1) 0
            · rw [if_pos hy2, if_pos hy2, hlloc, hll]
              rfl
            · rw [if_neg hy2, if_neg hy2]
        · right
          refine ⟨hsw, ?_, hents1⟩
          intro y
          rw [hL, alookup_aset]
          by_cases hy1 : y = e
          · rw [if_pos hy1, if_pos hy1, hw]
            rfl
          · rw [if_neg hy1, if_neg hy1, hlocs1]
      have hndA : (akeys st'.archetypes).Nodup := by
        rw [hA, akeys_aset, akeys_aset]
        exact nodup_akeys_aemplace _ _ hA1
      have hkL : akeys st'.entity_locations = akeys st.entity_locations := by
        rw [hL, akeys_aset, hkeys1]
      have harchF : ∀ x, alookup st'.archetypes x =
          if x = loc.1 then some a1 else if x = nA then some na2
          else alookup st.archetypes x := by
        intro x
        rw [hA, alookup_aset]
        by_cases hx1 : x = loc.1
        · rw [if_pos hx1, if_pos hx1, alookup_aset,
            if_neg (fun hh => h4 hh.symm), alookup_aemplace,
            if_neg (fun hh => h4 hh.symm), ha]
          rfl
        · rw [if_neg hx1, if_neg hx1, alookup_aset]
          by_cases hx2 : x = nA
          · rw [if_pos hx2, if_pos hx2, alookup_aemplace_self]
            rfl
          · rw [if_neg hx2, if_neg hx2, alookup_aemplace, if_neg hx2]
      exact migrate_inv hinv
        ⟨hloc, ha, h4, hQid, hQids, hQlock, hQloc, hQzero, hQstored,
         h2id, h2ids, h2ents, h2len, h2cols, h1id, h1ids, h1comps,
         hcaseF, harchF, hndA, hkL, hG⟩
  · rw [if_pos hhc] at h
    injection h with h
    rw [← h]
    exact hinv

/-- `Command::run` preserves the storage invariant: every dispatched record
is one of the four storage operations or a no-op. -/
theorem storageInv_run :
    ∀ (buf : List (Nat × CommandRec)) (st st' : ArchetypeStorage)
      (evs : List (Nat × ConsumeKind)),
      StorageInv st → run st buf = some (st', evs) → StorageInv st'
  | [], st, st', evs, hinv, h => by
    simp only [run, Option.some.injEq, Prod.mk.injEq] at h
    rw [← h.1]
    exact hinv
  | (k, c) :: rest, st, st', evs, hinv, h => by
    simp only [run, Option.bind_eq_bind, Option.bind_eq_some] at h
    obtain ⟨⟨st1, ev⟩, h1, h⟩ := h
    obtain ⟨⟨st2, evs2⟩, h2, h3⟩ := h
    have hinv1 : StorageInv st1 := by
      cases c with
      | createEntity =>
        simp only [run_one, Option.some.injEq, Prod.mk.injEq] at h1
        rw [← h1.1]
        exact hinv
      | deleteEntity e2 =>
        simp only [run_one] at h1
        by_cases hm : amem st.entity_locations e2
        · rw [if_pos hm] at h1
          simp only [Option.bind_eq_bind, Option.bind_eq_some] at h1
          obtain ⟨stx, hd, h1⟩ := h1
          simp only [Option.some.injEq, Prod.mk.injEq] at h1
          rw [← h1.1]
          exact storageInv_delete hinv hd
        · rw [if_neg hm] at h1
          simp only [Option.some.injEq, Prod.mk.injEq] at h1
          rw [← h1.1]
          exact hinv
      | addComponent e2 cid size v =>
        simp only [run_one, Option.bind_eq_bind, Option.bind_eq_some] at h1
        obtain ⟨⟨stx, applied⟩, hadd, h1⟩ := h1
        simp only [Option.some.injEq, Prod.mk.injEq] at h1
        rw [← h1.1]
        exact storageInv_add hinv hadd
      | removeComponent e2 cid =>
        simp only [run_one, Option.bind_eq_bind, Option.bind_eq_some] at h1
        obtain ⟨stx, hrem, h1⟩ := h1
        simp only [Option.some.injEq, Prod.mk.injEq] at h1
        rw [← h1.1]
        exact storageInv_remove hinv hrem
    have hfin : st2 = st' := by
      simp only [Option.some.injEq, Prod.mk.injEq] at h3
      exact h3.1
    rw [← hfin]
    exact storageInv_run rest st1 st2 evs2 hinv1 h2

/-- C5: after every public operation of the storage API (`create_entity`,
`delete_entity`, `add_component`, `remove_component`, command `run` and
`discard`), the storage invariant holds: for every live entity `e` the
archetype recorded in its entity-location entry stores `e` at the recorded
row (`locSound`, covering the swap-remove fix-up of the displaced entity's
row), every column of every archetype is in lock-step with its entity list
(`lockstep`), and the remaining structural plumbing (`StorageInv`) is
maintained.  The invariant holds of the initial storage and is preserved by
`apply_op` for every operation, hence holds in every reachable state. -/
theorem storage_location_lockstep_invariant :
    StorageInv ArchetypeStorage.init ∧
    ∀ (st : ArchetypeStorage) (op : PublicOp) (st' : ArchetypeStorage),
      StorageInv st → apply_op st op = some st' → StorageInv st' := by
  constructor
  · unfold StorageInv arch0ok archsAligned lockstep locSound locComplete idBound
    decide
  · intro st op st' hinv h
    cases op with
    | create =>
      simp only [apply_op, Option.map_eq_some'] at h
      obtain ⟨⟨st1, e⟩, hc, he⟩ := h
      rw [← he]
      exact storageInv_create hinv hc
    | delete e => exact storageInv_delete hinv h
    | add e cid size v =>
      simp only [apply_op, Option.map_eq_some'] at h
      obtain ⟨⟨st1, bb⟩, hc, he⟩ := h
      rw [← he]
      exact storageInv_add hinv hc
    | remove e cid => exact storageInv_remove hinv h
    | runBuf buf =>
      simp only [apply_op, Option.map_eq_some'] at h
      obtain ⟨⟨st1, evs⟩, hc, he⟩ := h
      rw [← he]
      exact storageInv_run buf st st1 evs hinv hc
    | discardBuf buf =>
      simp only [apply_op, Option.some.injEq] at h
      rw [← h]
      exact hinv

/-- Witness for C5: the invariant, instantiated at the concrete reachable
state `sample1` obtained by applying `create` to a fresh storage. -/
theorem storage_location_lockstep_invariant_witness : StorageInv sample1 :=
  storage_location_lockstep_invariant.2 sample0 PublicOp.create sample1
    (by
      unfold StorageInv arch0ok archsAligned lockstep locSound locComplete idBound
      decide)
    (by decide)

/-! ## Query-cursor adequacy (claims C1 and C9) -/

/-- When the current candidate archetype is exhausted, `get_next_entity`
behaves exactly as from the advanced cursor (the skip consumes no yield). -/
theorem get_next_skip (st : ArchetypeStorage) (q : QueryState)
    (hpos : q.pos < q.archs.length)
    (hidx : q.index = (findArchD st (q.archs.getD q.pos (0, 0)).1).entities.length) :
    QueryState.get_next_entity st q =
      QueryState.get_next_entity st { q with pos := q.pos + 1, index := 0 } := by
  unfold QueryState.get_next_entity
  have h1 : q.archs.length - q.pos = (q.archs.length - (q.pos + 1)) + 1 := by omega
  rw [h1]
  simp only [QueryState.get_next_entity_aux]
  rw [if_pos hidx]

/-- A non-exhausted candidate archetype yields its `index`-th entity. -/
theorem get_next_yield (st : ArchetypeStorage) (q : QueryState)
    (hpos : q.pos < q.archs.length)
    (hidx : q.index < (findArchD st (q.archs.getD q.pos (0, 0)).1).entities.length) :
    QueryState.get_next_entity st q =
      (some ((findArchD st (q.archs.getD q.pos (0, 0)).1).entities.getD q.index 0),
       { q with index := q.index + 1 }) := by
  unfold QueryState.get_next_entity
  have h1 : q.archs.length - q.pos = (q.archs.length - (q.pos + 1)) + 1 := by omega
  rw [h1]
  simp only [QueryState.get_next_entity_aux]
  rw [if_neg (by omega), if_pos hidx]

/-- Past the last candidate archetype the cursor returns the sentinel. -/
theorem get_next_end (st : ArchetypeStorage) (q : QueryState)
    (hpos : q.archs.length ≤ q.pos) :
    (QueryState.get_next_entity st q).1 = none := by
  unfold QueryState.get_next_entity
  rw [Nat.sub_eq_zero_of_le hpos]
  rfl

/-- Collecting through one candidate archetype yields the tail of its
entity list and continues from the advanced cursor. -/
theorem collect_arch (st : ArchetypeStorage) :
    ∀ (k : Nat) (q : QueryState) (f : Nat),
      q.pos < q.archs.length →
      q.index + k = (findArchD st (q.archs.getD q.pos (0, 0)).1).entities.length →
      collect st q (f + k) =
        ((findArchD st (q.archs.getD q.pos (0, 0)).1).entities.drop q.index) ++
        collect st { q with pos := q.pos + 1, index := 0 } f
  | 0, q, f, hpos, hidx => by
    have hskip := get_next_skip st q hpos (by omega)
    have hdrop : (findArchD st (q.archs.getD q.pos (0, 0)).1).entities.drop q.index = [] :=
      List.drop_eq_nil_of_le (by omega)
    rw [hdrop, List.nil_append, Nat.add_zero]
    cases f with
    | zero => rfl
    | succ f2 =>
      simp only [collect]
      rw [hskip]
  | k + 1, q, f, hpos, hidx => by
    have hlt : q.index < (findArchD st (q.archs.getD q.pos (0, 0)).1).entities.length := by
      omega
    have hyield := get_next_yield st q hpos hlt
    have harith : f + (k + 1) = (f + k) + 1 := by omega
    rw [harith]
    have hstep : collect st q ((f + k) + 1) =
        (findArchD st (q.archs.getD q.pos (0, 0)).1).entities.getD q.index 0 ::
          collect st { q with index := q.index + 1 } (f + k) := by
      simp only [collect]
      rw [hyield]
    rw [hstep]
    rw [List.getD_eq_getElem _ _ hlt, List.drop_eq_getElem_cons hlt, List.cons_append]
    congr 1
    exact collect_arch st k { q with index := q.index + 1 } f hpos (by
      show q.index + 1 + k = (findArchD st (q.archs.getD q.pos (0, 0)).1).entities.length
      omega)

/-- A full pass from a rewound cursor yields exactly the concatenation of
the entity lists of the remaining candidate archetypes (in order). -/
theorem collect_pass (st : ArchetypeStorage) :
    ∀ (n : Nat) (q : QueryState) (f : Nat),
      q.pos + n = q.archs.length → q.index = 0 → 1 ≤ f →
      collect st q
        (f + (((q.archs.drop q.pos).map
          (fun p => (findArchD st p.1).entities)).flatten).length) =
      ((q.archs.drop q.pos).map (fun p => (findArchD st p.1).entities)).flatten
  | 0, q, f, hpos, hidx, hf => by
    have hdrop : q.archs.drop q.pos = [] := List.drop_eq_nil_of_le (by omega)
    rw [hdrop]
    simp only [List.map_nil, List.flatten_nil, List.length_nil, Nat.add_zero]
    obtain ⟨f2, rfl⟩ : ∃ f2, f = f2 + 1 := ⟨f - 1, by omega⟩
    simp only [collect]
    have hend := get_next_end st q (by omega)
    rcases hg : QueryState.get_next_entity st q with ⟨o, q1⟩
    rw [hg] at hend
    have ho : o = none := hend
    subst ho
    rfl
  | n + 1, q, f, hpos, hidx, hf => by
    have hposlt : q.pos < q.archs.length := by omega
    rw [List.drop_eq_getElem_cons hposlt]
    simp only [List.map_cons, List.flatten_cons, List.length_append]
    have hgd : q.archs.getD q.pos (0, 0) = q.archs[q.pos] :=
      List.getD_eq_getElem _ _ hposlt
    have harith : f + ((findArchD st (q.archs[q.pos]).1).entities.length +
        (((q.archs.drop (q.pos + 1)).map
          (fun p => (findArchD st p.1).entities)).flatten).length) =
        (f + (((q.archs.drop (q.pos + 1)).map
          (fun p => (findArchD st p.1).entities)).flatten).length) +
        (findArchD st (q.archs[q.pos]).1).entities.length := by omega
    rw [harith]
    have hch := collect_arch st (findArchD st (q.archs[q.pos]).1).entities.length q
      (f + (((q.archs.drop (q.pos + 1)).map
        (fun p => (findArchD st p.1).entities)).flatten).length)
      hposlt (by rw [hgd, hidx]; omega)
    rw [hch, hgd, hidx, List.drop_zero]
    have hih := collect_pass st n { q with pos := q.pos + 1, index := 0 } f
      (by show q.pos + 1 + n = q.archs.length; omega) rfl hf
    have hih2 : collect st { q with pos := q.pos + 1, index := 0 }
        (f + (((q.archs.drop (q.pos + 1)).map
          (fun p => (findArchD st p.1).entities)).flatten).length) =
        ((q.archs.drop (q.pos + 1)).map (fun p => (findArchD st p.1).entities)).flatten := hih
    rw [hih2]

/-- `full_pass` on a fresh query is the concatenation of the entity lists
of the archetypes resolved by `update_archs`. -/
theorem full_pass_eq_flatten (st : ArchetypeStorage) (A B : List Nat)
    (hne : st.archetypes.length ≠ 0) :
    full_pass st (QueryState.fresh A B) =
      ((update_archs st A B).map (fun p => (findArchD st p.1).entities)).flatten := by
  have hstart : (QueryState.fresh A B).start st =
      ⟨A, B, update_archs st A B, st.archetypes.length, 0, 0⟩ := by
    unfold QueryState.fresh QueryState.start
    rw [if_pos (show (0 : Nat) ≠ st.archetypes.length from fun hh => hne hh.symm)]
  unfold full_pass
  rw [hstart]
  have hfl : (((update_archs st A B).map
      (fun p => (findArchD st p.1).entities)).flatten).length =
      ((update_archs st A B).map
        (fun p => (findArchD st p.1).entities.length)).sum := by
    rw [List.length_flatten, List.map_map]
    rfl
  have hcp := collect_pass st (update_archs st A B).length
    ⟨A, B, update_archs st A B, st.archetypes.length, 0, 0⟩
    ((update_archs st A B).length + 1)
    (by show 0 + (update_archs st A B).length = (update_archs st A B).length; omega)
    rfl (by omega)
  have hcp2 : collect st ⟨A, B, update_archs st A B, st.archetypes.length, 0, 0⟩
      (((update_archs st A B).length + 1) +
        (((update_archs st A B).map
          (fun p => (findArchD st p.1).entities)).flatten).length) =
      ((update_archs st A B).map (fun p => (findArchD st p.1).entities)).flatten := hcp
  have hfuel : passFuel st ⟨A, B, update_archs st A B, st.archetypes.length, 0, 0⟩ =
      ((update_archs st A B).length + 1) +
        (((update_archs st A B).map
          (fun p => (findArchD st p.1).entities)).flatten).length := by
    show (update_archs st A B).length +
      ((update_archs st A B).map (fun p => (findArchD st p.1).entities.length)).sum + 1 = _
    rw [hfl]
    omega
  rw [hfuel]
  exact hcp2

/-! ## `update_archs` characterization -/

theorem aemplace_fold_mem_elim :
    ∀ (l acc : List (Nat × Nat)) (p : Nat × Nat),
      p ∈ l.foldl (fun a r => aemplace a r.1 r.2) acc → p ∈ acc ∨ ∃ rr ∈ l, p = rr
  | [], acc, p, h => Or.inl h
  | r :: l, acc, p, h => by
    rcases aemplace_fold_mem_elim l (aemplace acc r.1 r.2) p h with h1 | ⟨rr, hrr, he⟩
    · rcases mem_aemplace_elim h1 with h2 | h2
      · exact Or.inl h2
      · refine Or.inr ⟨r, List.mem_cons_self _ _, ?_⟩
        rw [h2]
    · exact Or.inr ⟨rr, List.mem_cons_of_mem _ hrr, he⟩

theorem aemplace_fold_key_mem :
    ∀ (l acc : List (Nat × Nat)) (k : Nat),
      (k ∈ akeys acc ∨ ∃ rr ∈ l, rr.1 = k) →
      k ∈ akeys (l.foldl (fun a r => aemplace a r.1 r.2) acc)
  | [], acc, k, h => by
    rcases h with h | ⟨rr, hrr, -⟩
    · exact h
    · simp at hrr
  | r :: l, acc, k, h => by
    apply aemplace_fold_key_mem l (aemplace acc r.1 r.2) k
    rcases h with h | ⟨rr, hrr, he⟩
    · left
      rw [← alookup_isSome_iff_mem_akeys] at h ⊢
      exact alookup_aemplace_isSome_mono _ _ h
    · rcases List.mem_cons.mp hrr with h2 | h2
      · left
        rw [← alookup_isSome_iff_mem_akeys]
        subst h2
        rw [← he]
        rw [alookup_aemplace_self]
        rfl
      · exact Or.inr ⟨rr, h2, he⟩

theorem aemplace_fold_nodup :
    ∀ (l acc : List (Nat × Nat)), (akeys acc).Nodup →
      (akeys (l.foldl (fun a r => aemplace a r.1 r.2) acc)).Nodup
  | [], _, h => h
  | r :: l, acc, h =>
    aemplace_fold_nodup l (aemplace acc r.1 r.2) (nodup_akeys_aemplace _ _ h)

theorem union_mem_elim :
    ∀ (L : List (Nat × List (Nat × Nat))) (acc : List (Nat × Nat)) (p : Nat × Nat),
      p ∈ L.foldl (fun acc2 q0 => q0.2.foldl (fun a r => aemplace a r.1 r.2) acc2) acc →
      p ∈ acc ∨ ∃ q0 ∈ L, ∃ rr ∈ q0.2, p = rr
  | [], acc, p, h => Or.inl h
  | q0 :: L, acc, p, h => by
    rcases union_mem_elim L _ p h with h1 | ⟨q1, hq1, rr, hrr, he⟩
    · rcases aemplace_fold_mem_elim q0.2 acc p h1 with h2 | ⟨rr, hrr, he⟩
      · exact Or.inl h2
      · exact Or.inr ⟨q0, List.mem_cons_self _ _, rr, hrr, he⟩
    · exact Or.inr ⟨q1, List.mem_cons_of_mem _ hq1, rr, hrr, he⟩

theorem union_key_mem :
    ∀ (L : List (Nat × List (Nat × Nat))) (acc : List (Nat × Nat)) (k : Nat),
      (k ∈ akeys acc ∨ ∃ q0 ∈ L, ∃ rr ∈ q0.2, rr.1 = k) →
      k ∈ akeys (L.foldl (fun acc2 q0 => q0.2.foldl (fun a r => aemplace a r.1 r.2) acc2) acc)
  | [], acc, k, h => by
    rcases h with h | ⟨q0, hq0, -⟩
    · exact h
    · simp at hq0
  | q0 :: L, acc, k, h => by
    apply union_key_mem L _ k
    rcases h with h | ⟨q1, hq1, rr, hrr, he⟩
    · exact Or.inl (aemplace_fold_key_mem q0.2 acc k (Or.inl h))
    · rcases List.mem_cons.mp hq1 with h2 | h2
      · subst h2
        exact Or.inl (aemplace_fold_key_mem q1.2 acc k (Or.inr ⟨rr, hrr, he⟩))
      · exact Or.inr ⟨q1, h2, rr, hrr, he⟩

theorem union_nodup :
    ∀ (L : List (Nat × List (Nat × Nat))) (acc : List (Nat × Nat)),
      (akeys acc).Nodup →
      (akeys (L.foldl (fun acc2 q0 =>
        q0.2.foldl (fun a r => aemplace a r.1 r.2) acc2) acc)).Nodup
  | [], _, h => h
  | q0 :: L, acc, h => union_nodup L _ (aemplace_fold_nodup q0.2 acc h)

theorem inter_fold_mem (clocs : List (Nat × List (Nat × Nat))) :
    ∀ (rest : List Nat) (acc : List (Nat × Nat)) (p : Nat × Nat),
      p ∈ rest.foldl (fun acc2 c =>
        match alookup clocs c with
        | none => []
        | some m => map_intersection acc2 m) acc ↔
      p ∈ acc ∧ ∀ c ∈ rest, ∃ m, alookup clocs c = some m ∧ amem m p.1 = true
  | [], acc, p => by simp
  | c :: rest, acc, p => by
    rw [List.foldl_cons]
    rcases hc : alookup clocs c with _ | m
    · simp only [hc]
      rw [inter_fold_mem clocs rest [] p]
      constructor
      · rintro ⟨h1, -⟩
        simp at h1
      · rintro ⟨-, hall⟩
        obtain ⟨m, hm, -⟩ := hall c (List.mem_cons_self _ _)
        rw [hc] at hm
        exact Option.noConfusion hm
    · simp only [hc]
      rw [inter_fold_mem clocs rest (map_intersection acc m) p]
      unfold map_intersection
      rw [List.mem_filter]
      constructor
      · rintro ⟨⟨h1, h2⟩, h3⟩
        refine ⟨h1, ?_⟩
        intro c2 hc2
        rcases List.mem_cons.mp hc2 with h4 | h4
        · subst h4
          exact ⟨m, hc, h2⟩
        · exact h3 c2 h4
      · rintro ⟨h1, h2⟩
        obtain ⟨m2, hm2, ha2⟩ := h2 c (List.mem_cons_self _ _)
        rw [hc] at hm2
        injection hm2 with hm2
        subst hm2
        exact ⟨⟨h1, ha2⟩, fun c2 hc2 => h2 c2 (List.mem_cons_of_mem _ hc2)⟩

theorem excl_fold_mem (clocs : List (Nat × List (Nat × Nat))) :
    ∀ (B : List Nat) (acc : List (Nat × Nat)) (p : Nat × Nat),
      p ∈ B.foldl (fun acc2 b =>
        match alookup clocs b with
        | none => acc2
        | some m => map_exclude acc2 m) acc ↔
      p ∈ acc ∧ ∀ b ∈ B, ∀ m, alookup clocs b = some m → amem m p.1 = false
  | [], acc, p => by simp
  | b :: B, acc, p => by
    rw [List.foldl_cons]
    rcases hb : alookup clocs b with _ | m
    · simp only [hb]
      rw [excl_fold_mem clocs B acc p]
      constructor
      · rintro ⟨h1, h2⟩
        refine ⟨h1, ?_⟩
        intro b2 hb2 m2 hm2
        rcases List.mem_cons.mp hb2 with h4 | h4
        · subst h4
          rw [hb] at hm2
          exact Option.noConfusion hm2
        · exact h2 b2 h4 m2 hm2
      · rintro ⟨h1, h2⟩
        exact ⟨h1, fun b2 hb2 m2 hm2 => h2 b2 (List.mem_cons_of_mem _ hb2) m2 hm2⟩
    · simp only [hb]
      rw [excl_fold_mem clocs B (map_exclude acc m) p]
      unfold map_exclude
      rw [List.mem_filter]
      constructor
      · rintro ⟨⟨h1, h2⟩, h3⟩
        refine ⟨h1, ?_⟩
        intro b2 hb2 m2 hm2
        rcases List.mem_cons.mp hb2 with h4 | h4
        · subst h4
          rw [hb] at hm2
          injection hm2 with hm2
          subst hm2
          simpa using h2
        · exact h3 b2 h4 m2 hm2
      · rintro ⟨h1, h2⟩
        have hbm := h2 b (List.mem_cons_self _ _) m hb
        refine ⟨⟨h1, by simpa using hbm⟩, ?_⟩
        exact fun b2 hb2 m2 hm2 => h2 b2 (List.mem_cons_of_mem _ hb2) m2 hm2

theorem inter_fold_sublist (clocs : List (Nat × List (Nat × Nat))) :
    ∀ (rest : List Nat) (acc : List (Nat × Nat)),
      (rest.foldl (fun acc2 c =>
        match alookup clocs c with
        | none => []
        | some m => map_intersection acc2 m) acc).Sublist acc
  | [], acc => List.Sublist.refl acc
  | c :: rest, acc => by
    rw [List.foldl_cons]
    rcases hc : alookup clocs c with _ | m
    · simp only [hc]
      exact (inter_fold_sublist clocs rest []).trans (List.nil_sublist acc)
    · simp only [hc]
      exact (inter_fold_sublist clocs rest (map_intersection acc m)).trans
        (List.filter_sublist acc)

theorem excl_fold_sublist (clocs : List (Nat × List (Nat × Nat))) :
    ∀ (B : List Nat) (acc : List (Nat × Nat)),
      (B.foldl (fun acc2 b =>
        match alookup clocs b with
        | none => acc2
        | some m => map_exclude acc2 m) acc).Sublist acc
  | [], acc => List.Sublist.refl acc
  | b :: B, acc => by
    rw [List.foldl_cons]
    rcases hb : alookup clocs b with _ | m
    · simp only [hb]
      exact excl_fold_sublist clocs B acc
    · simp only [hb]
      exact (excl_fold_sublist clocs B (map_exclude acc m)).trans
        (List.filter_sublist acc)

theorem update_archs_nil_eq (st : ArchetypeStorage) (B : List Nat) :
    update_archs st [] B =
      B.foldl (fun acc2 b => match alookup st.component_locations b with
        | none => acc2
        | some m => map_exclude acc2 m)
        (st.component_locations.foldl
          (fun acc2 q0 => q0.2.foldl (fun a r => aemplace a r.1 r.2) acc2) []) := rfl

theorem update_archs_cons_eq (st : ArchetypeStorage) (c0 : Nat) (rest B : List Nat) :
    update_archs st (c0 :: rest) B =
      B.foldl (fun acc2 b => match alookup st.component_locations b with
        | none => acc2
        | some m => map_exclude acc2 m)
        (match alookup st.component_locations c0 with
         | none => []
         | some m0 =>
           if m0.isEmpty then []
           else rest.foldl (fun acc2 c => match alookup st.component_locations c with
             | none => []
             | some m => map_intersection acc2 m) m0) := rfl

/-- Soundness of one inverted-index entry: it names a stored archetype
whose id list contains the indexing component. -/
theorem index_sound_mem (st : ArchetypeStorage) (hS : indexSound st) :
    ∀ q0 ∈ st.component_locations, ∀ rr ∈ q0.2,
      ∃ arch, alookup st.archetypes rr.1 = some arch ∧ q0.1 ∈ arch.component_ids := by
  intro q0 hq0 rr hrr
  obtain ⟨h1, h2⟩ := hS q0 hq0 rr hrr
  obtain ⟨arch, harch⟩ := Option.isSome_iff_exists.mp h1
  refine ⟨arch, harch, ?_⟩
  have hfa : findArchD st rr.1 = arch := by
    rw [findArchD, harch]
    rfl
  rw [hfa] at h2
  by_cases hlt : rr.2 < arch.component_ids.length
  · rw [List.getD_eq_getElem _ _ hlt] at h2
    rw [← h2]
    exact List.getElem_mem _
  · rw [List.getD_eq_default _ _ (by omega)] at h2
    omega

/-- Completeness of the inverted index: every component occurrence of a
stored archetype is indexed. -/
theorem index_complete_lookup (st : ArchetypeStorage) (hC : indexComplete st) :
    ∀ aid arch c, alookup st.archetypes aid = some arch → c ∈ arch.component_ids →
      ∃ m i, alookup st.component_locations c = some m ∧ alookup m aid = some i := by
  intro aid arch c harch hc
  obtain ⟨i, hi, he⟩ := List.mem_iff_getElem.mp hc
  have henum : (i, c) ∈ arch.component_ids.enum :=
    List.mem_enum_iff_getElem?.mpr (by rw [List.getElem?_eq_getElem hi, he])
  obtain ⟨m, hm, hmx⟩ := hC (aid, arch) (alookup_eq_some_mem harch) (i, c) henum
  exact ⟨m, i, hm, hmx⟩

/-- The candidate set resolved by `update_archs` holds exactly the stored
archetypes with a nonempty component set containing every include and no
exclude. -/
theorem mem_update_archs_iff (st : ArchetypeStorage)
    (hS : indexSound st) (hC : indexComplete st) (A B : List Nat) (aid : Nat) :
    aid ∈ akeys (update_archs st A B) ↔
      ∃ arch, alookup st.archetypes aid = some arch ∧
        arch.component_ids ≠ [] ∧
        (∀ c ∈ A, c ∈ arch.component_ids) ∧
        (∀ b ∈ B, b ∉ arch.component_ids) := by
  have hBdir : ∀ (arch : Archetype), alookup st.archetypes aid = some arch →
      ∀ b m, alookup st.component_locations b = some m → b ∈ arch.component_ids →
      amem m aid = true := by
    intro arch harch b m hm hmem
    obtain ⟨m2, i2, hm2, hi2⟩ := index_complete_lookup st hC aid arch b harch hmem
    rw [hm] at hm2
    injection hm2 with hm2
    subst hm2
    unfold amem
    rw [hi2]
    rfl
  have hBrev : ∀ (arch : Archetype), alookup st.archetypes aid = some arch →
      ∀ b m, alookup st.component_locations b = some m → amem m aid = true →
      b ∈ arch.component_ids := by
    intro arch harch b m hm hmem
    obtain ⟨i, hi⟩ := Option.isSome_iff_exists.mp (by unfold amem at hmem; exact hmem)
    obtain ⟨arch2, harch3, hcmem⟩ :=
      index_sound_mem st hS (b, m) (alookup_eq_some_mem hm) (aid, i)
        (alookup_eq_some_mem hi)
    have harch4 : alookup st.archetypes aid = some arch2 := harch3
    rw [harch] at harch4
    have he2 : arch = arch2 := Option.some.inj harch4
    have hbmem : b ∈ arch2.component_ids := hcmem
    rw [← he2] at hbmem
    exact hbmem
  constructor
  · intro h
    obtain ⟨v, hv⟩ := akeys_mem_exists h
    rcases A with _ | ⟨c0, rest⟩
    · rw [update_archs_nil_eq] at hv
      rw [excl_fold_mem] at hv
      obtain ⟨hbase, hBc⟩ := hv
      rcases union_mem_elim _ _ _ hbase with h0 | ⟨q0, hq0, rr, hrr, he⟩
      · simp at h0
      · obtain ⟨arch, harch, hc0mem⟩ := index_sound_mem st hS q0 hq0 rr hrr
        have hrra : rr.1 = aid := by
          rw [← he]
        rw [hrra] at harch
        refine ⟨arch, harch, ?_, ?_, ?_⟩
        · intro hnil
          rw [hnil] at hc0mem
          simp at hc0mem
        · intro c hc
          simp at hc
        · intro b hb hmem
          obtain ⟨m2, i2, hm2, hi2⟩ := index_complete_lookup st hC aid arch b harch hmem
          have hfalse : amem m2 aid = false := hBc b hb m2 hm2
          rw [hBdir arch harch b m2 hm2 hmem] at hfalse
          exact Bool.noConfusion hfalse
    · rw [update_archs_cons_eq] at hv
      rw [excl_fold_mem] at hv
      obtain ⟨hbase, hBc⟩ := hv
      rcases hc0 : alookup st.component_locations c0 with _ | m0
      · simp only [hc0] at hbase
        simp at hbase
      · simp only [hc0] at hbase
        by_cases hemp : m0.isEmpty
        · rw [if_pos hemp] at hbase
          simp at hbase
        · rw [if_neg hemp] at hbase
          rw [inter_fold_mem] at hbase
          obtain ⟨hm0, hrest⟩ := hbase
          obtain ⟨arch, harch0, hc0mem⟩ :=
            index_sound_mem st hS (c0, m0) (alookup_eq_some_mem hc0) (aid, v) hm0
          have harch : alookup st.archetypes aid = some arch := harch0
          have hc0mem2 : c0 ∈ arch.component_ids := hc0mem
          refine ⟨arch, harch, ?_, ?_, ?_⟩
          · intro hnil
            rw [hnil] at hc0mem2
            simp at hc0mem2
          · intro c hc
            rcases List.mem_cons.mp hc with h4 | h4
            · rw [h4]
              exact hc0mem2
            · obtain ⟨m, hm, hamem⟩ := hrest c h4
              exact hBrev arch harch c m hm hamem
          · intro b hb hmem
            obtain ⟨m2, i2, hm2, hi2⟩ :=
              index_complete_lookup st hC aid arch b harch hmem
            have hfalse : amem m2 aid = false := hBc b hb m2 hm2
            rw [hBdir arch harch b m2 hm2 hmem] at hfalse
            exact Bool.noConfusion hfalse
  · rintro ⟨arch, harch, hnil, hA, hB⟩
    have hBc : ∀ b ∈ B, ∀ m, alookup st.component_locations b = some m →
        amem m aid = false := by
      intro b hb m hm
      by_cases habs : amem m aid = true
      · exact absurd (hBrev arch harch b m hm habs) (hB b hb)
      · simpa using habs
    rcases A with _ | ⟨c0, rest⟩
    · obtain ⟨c0, hc0mem⟩ : ∃ c, c ∈ arch.component_ids := by
        rcases hrc : arch.component_ids with _ | ⟨x, xs⟩
        · exact absurd hrc hnil
        · exact ⟨x, hrc ▸ List.mem_cons_self x xs⟩
      obtain ⟨m, i, hm, hi⟩ := index_complete_lookup st hC aid arch c0 harch hc0mem
      have hkey : aid ∈ akeys (st.component_locations.foldl
          (fun acc2 q0 => q0.2.foldl (fun a r => aemplace a r.1 r.2) acc2) []) :=
        union_key_mem _ [] aid (Or.inr ⟨(c0, m), alookup_eq_some_mem hm, (aid, i),
          alookup_eq_some_mem hi, rfl⟩)
      obtain ⟨v, hv⟩ := akeys_mem_exists hkey
      rw [update_archs_nil_eq]
      have hv2 : ((aid, v) : Nat × Nat) ∈ B.foldl
          (fun acc2 b => match alookup st.component_locations b with
            | none => acc2
            | some m2 => map_exclude acc2 m2)
          (st.component_locations.foldl
            (fun acc2 q0 => q0.2.foldl (fun a r => aemplace a r.1 r.2) acc2) []) := by
        rw [excl_fold_mem]
        exact ⟨hv, fun b hb m2 hm2 => hBc b hb m2 hm2⟩
      exact mem_akeys_of_mem hv2
    · have hc0mem : c0 ∈ arch.component_ids := hA c0 (List.mem_cons_self _ _)
      obtain ⟨m0, i0, hm0, hi0⟩ := index_complete_lookup st hC aid arch c0 harch hc0mem
      have hment : (aid, i0) ∈ m0 := alookup_eq_some_mem hi0
      have hempf : ¬ m0.isEmpty = true := by
        intro habs
        rw [List.isEmpty_iff.mp habs] at hment
        simp at hment
      rw [update_archs_cons_eq]
      simp only [hm0, if_neg hempf]
      have hv2 : ((aid, i0) : Nat × Nat) ∈ B.foldl
          (fun acc2 b => match alookup st.component_locations b with
            | none => acc2
            | some m2 => map_exclude acc2 m2)
          (rest.foldl (fun acc2 c => match alookup st.component_locations c with
            | none => []
            | some m => map_intersection acc2 m) m0) := by
        rw [excl_fold_mem, inter_fold_mem]
        refine ⟨⟨hment, ?_⟩, fun b hb m2 hm2 => hBc b hb m2 hm2⟩
        intro c hc
        obtain ⟨mc, ic, hmc, hic⟩ := index_complete_lookup st hC aid arch c harch
          (hA c (List.mem_cons_of_mem _ hc))
        refine ⟨mc, hmc, ?_⟩
        unfold amem
        rw [hic]
        rfl
      exact mem_akeys_of_mem hv2

/-- Every entry of the candidate set names a stored archetype. -/
theorem update_archs_entry_arch (st : ArchetypeStorage) (hS : indexSound st)
    (A B : List Nat) :
    ∀ p ∈ update_archs st A B, ∃ arch, alookup st.archetypes p.1 = some arch ∧
      arch.component_ids ≠ [] := by
  intro p hp
  rcases A with _ | ⟨c0, rest⟩
  · rw [update_archs_nil_eq] at hp
    rw [excl_fold_mem] at hp
    rcases union_mem_elim _ _ _ hp.1 with h0 | ⟨q0, hq0, rr, hrr, he⟩
    · simp at h0
    · obtain ⟨arch, harch, hcm⟩ := index_sound_mem st hS q0 hq0 rr hrr
      rw [he]
      refine ⟨arch, harch, ?_⟩
      intro hnil
      rw [hnil] at hcm
      simp at hcm
  · rw [update_archs_cons_eq] at hp
    rw [excl_fold_mem] at hp
    obtain ⟨hbase, -⟩ := hp
    rcases hc0 : alookup st.component_locations c0 with _ | m0
    · simp only [hc0] at hbase
      simp at hbase
    · simp only [hc0] at hbase
      by_cases hemp : m0.isEmpty
      · rw [if_pos hemp] at hbase
        simp at hbase
      · rw [if_neg hemp] at hbase
        rw [inter_fold_mem] at hbase
        obtain ⟨arch, harch, hcm⟩ :=
          index_sound_mem st hS (c0, m0) (alookup_eq_some_mem hc0) p hbase.1
        refine ⟨arch, harch, ?_⟩
        intro hnil
        have hcm2 : c0 ∈ arch.component_ids := hcm
        rw [hnil] at hcm2
        simp at hcm2

/-- The candidate set has no duplicate archetype keys. -/
theorem update_archs_nodup (st : ArchetypeStorage) (hN : indexNodup st)
    (A B : List Nat) : (akeys (update_archs st A B)).Nodup := by
  have hbase : ∀ (base : List (Nat × Nat)), (akeys base).Nodup →
      (akeys (B.foldl (fun acc2 b => match alookup st.component_locations b with
        | none => acc2
        | some m => map_exclude acc2 m) base)).Nodup := by
    intro base hb
    exact ((excl_fold_sublist st.component_locations B base).map Prod.fst).nodup hb
  rcases A with _ | ⟨c0, rest⟩
  · rw [update_archs_nil_eq]
    exact hbase _ (union_nodup st.component_locations [] (by simp [akeys]))
  · rw [update_archs_cons_eq]
    rcases hc0 : alookup st.component_locations c0 with _ | m0
    · simp only [hc0]
      exact hbase [] (by simp [akeys])
    · simp only [hc0]
      by_cases hemp : m0.isEmpty
      · rw [if_pos hemp]
        exact hbase [] (by simp [akeys])
      · rw [if_neg hemp]
        apply hbase
        have hm0nodup : (akeys m0).Nodup := hN.2 (c0, m0) (alookup_eq_some_mem hc0)
        exact ((inter_fold_sublist st.component_locations rest m0).map Prod.fst).nodup
          hm0nodup

/-- Entity lists of stored archetypes have no duplicates (every row's
entity has a unique recorded location). -/
theorem stored_entities_nodup (st : ArchetypeStorage) (hCmp : locComplete st)
    {aid : Nat} {arch : Archetype} (h : alookup st.archetypes aid = some arch) :
    arch.entities.Nodup := by
  rw [List.nodup_iff_injective_get]
  intro i j hij
  have hi := hCmp (aid, arch) (alookup_eq_some_mem h) (i.1, arch.entities.get i)
    (List.mem_enum_iff_getElem?.mpr (by rw [List.getElem?_eq_getElem i.2]; rfl))
  have hj := hCmp (aid, arch) (alookup_eq_some_mem h) (j.1, arch.entities.get j)
    (List.mem_enum_iff_getElem?.mpr (by rw [List.getElem?_eq_getElem j.2]; rfl))
  rw [hij] at hi
  rw [hj] at hi
  injection hi with hi
  injection hi with hi1 hi2
  exact Fin.ext hi2.symm

/-- Membership in one full query pass, characterized through the inverted
index: exactly the entities of stored archetypes with a nonempty id set
containing all includes and no excludes. -/
theorem mem_full_pass_iff (st : ArchetypeStorage) (hinv : IndexInv st)
    (A B : List Nat) (e : Nat) :
    e ∈ full_pass st (QueryState.fresh A B) ↔
      ∃ aid r arch, alookup st.entity_locations e = some (aid, r) ∧
        alookup st.archetypes aid = some arch ∧
        arch.component_ids ≠ [] ∧
        (∀ c ∈ A, c ∈ arch.component_ids) ∧
        (∀ b ∈ B, b ∉ arch.component_ids) := by
  obtain ⟨hSt, hS, hC, hN⟩ := hinv
  have hStC := hSt
  unfold StorageInv arch0ok locSound locComplete at hStC
  obtain ⟨-, -, h0, -, -, hSnd, hCmp, -⟩ := hStC
  have hnz : st.archetypes.length ≠ 0 := by
    obtain ⟨h0s, -, -⟩ := h0
    intro hlen
    rw [List.length_eq_zero.mp hlen] at h0s
    simp [alookup] at h0s
  rw [full_pass_eq_flatten st A B hnz]
  rw [List.mem_flatten]
  constructor
  · rintro ⟨l, hl, hel⟩
    obtain ⟨p, hp, rfl⟩ := List.mem_map.mp hl
    have hkey : p.1 ∈ akeys (update_archs st A B) := mem_akeys_of_mem hp
    obtain ⟨arch, harch, hnil, hA2, hB2⟩ :=
      (mem_update_archs_iff st hS hC A B p.1).mp hkey
    have hfa : findArchD st p.1 = arch := by
      rw [findArchD, harch]
      rfl
    rw [hfa] at hel
    obtain ⟨r, hr, he⟩ := List.mem_iff_getElem.mp hel
    have hloc := hCmp (p.1, arch) (alookup_eq_some_mem harch) (r, e)
      (List.mem_enum_iff_getElem?.mpr (by rw [List.getElem?_eq_getElem hr, he]))
    exact ⟨p.1, r, arch, hloc, harch, hnil, hA2, hB2⟩
  · rintro ⟨aid, r, arch, hloc, harch, hnil, hA2, hB2⟩
    obtain ⟨v, hv⟩ := akeys_mem_exists ((mem_update_archs_iff st hS hC A B aid).mpr
      ⟨arch, harch, hnil, hA2, hB2⟩)
    refine ⟨(findArchD st aid).entities, ?_, ?_⟩
    · exact List.mem_map.mpr ⟨(aid, v), hv, rfl⟩
    · obtain ⟨-, hb, hg⟩ := hSnd (e, (aid, r)) (alookup_eq_some_mem hloc)
      have hb2 : r < (findArchD st aid).entities.length := hb
      have hg2 : (findArchD st aid).entities.getD r 0 = e := hg
      rw [← hg2, List.getD_eq_getElem _ _ hb2]
      exact List.getElem_mem _

/-- One full query pass yields no duplicates. -/
theorem full_pass_nodup (st : ArchetypeStorage) (hinv : IndexInv st) (A B : List Nat) :
    (full_pass st (QueryState.fresh A B)).Nodup := by
  obtain ⟨hSt, hS, hC, hN⟩ := hinv
  have hStC := hSt
  unfold StorageInv arch0ok locComplete at hStC
  obtain ⟨-, -, h0, -, -, -, hCmp, -⟩ := hStC
  have hnz : st.archetypes.length ≠ 0 := by
    obtain ⟨h0s, -, -⟩ := h0
    intro hlen
    rw [List.length_eq_zero.mp hlen] at h0s
    simp [alookup] at h0s
  rw [full_pass_eq_flatten st A B hnz]
  rw [List.nodup_flatten]
  constructor
  · intro l hl
    obtain ⟨p, hp, rfl⟩ := List.mem_map.mp hl
    obtain ⟨arch, harch, -⟩ := update_archs_entry_arch st hS A B p hp
    have hfa : findArchD st p.1 = arch := by
      rw [findArchD, harch]
      rfl
    rw [hfa]
    exact stored_entities_nodup st hCmp harch
  · rw [List.pairwise_map]
    have hkn2 : ((update_archs st A B).map Prod.fst).Nodup := update_archs_nodup st hN A B
    have hpw := List.pairwise_map.mp hkn2
    refine List.Pairwise.imp_of_mem ?_ hpw
    intro p q hpmem hqmem hne
    intro x hxp hxq
    obtain ⟨archp, harchp, -⟩ := update_archs_entry_arch st hS A B p hpmem
    obtain ⟨archq, harchq, -⟩ := update_archs_entry_arch st hS A B q hqmem
    have hfap : findArchD st p.1 = archp := by
      rw [findArchD, harchp]
      rfl
    have hfaq : findArchD st q.1 = archq := by
      rw [findArchD, harchq]
      rfl
    rw [hfap] at hxp
    rw [hfaq] at hxq
    obtain ⟨r1, hr1, he1⟩ := List.mem_iff_getElem.mp hxp
    obtain ⟨r2, hr2, he2⟩ := List.mem_iff_getElem.mp hxq
    have hl1 := hCmp (p.1, archp) (alookup_eq_some_mem harchp) (r1, x)
      (List.mem_enum_iff_getElem?.mpr (by rw [List.getElem?_eq_getElem hr1, he1]))
    have hl2 := hCmp (q.1, archq) (alookup_eq_some_mem harchq) (r2, x)
      (List.mem_enum_iff_getElem?.mpr (by rw [List.getElem?_eq_getElem hr2, he2]))
    rw [hl1] at hl2
    injection hl2 with hl2
    injection hl2 with hl3 hl4
    exact hne hl3

/-- C9: an entity that currently has no components (it lives in the empty
archetype, id 0) is never yielded by any query — including one with empty
include and exclude lists: the candidate set is resolved solely from the
component-id inverted index, which never indexes the empty archetype. -/
theorem empty_archetype_never_queried (st : ArchetypeStorage) (e r : Nat)
    (A B : List Nat) (hinv : IndexInv st)
    (hloc : alookup st.entity_locations e = some (0, r)) :
    e ∉ full_pass st (QueryState.fresh A B) := by
  intro hmem
  have hiff := (mem_full_pass_iff st hinv A B e).mp hmem
  obtain ⟨aid, r2, arch, hloc2, harch, hnil, -, -⟩ := hiff
  rw [hloc] at hloc2
  injection hloc2 with hloc2
  injection hloc2 with h1 h2
  obtain ⟨hSt, -, -, -⟩ := hinv
  have hStC := hSt
  unfold StorageInv arch0ok at hStC
  obtain ⟨-, -, h0, -, -, -, -, -⟩ := hStC
  obtain ⟨-, hids0, -⟩ := h0
  rw [← h1] at harch
  have hfa : findArchD st 0 = arch := by
    rw [findArchD, harch]
    rfl
  rw [hfa] at hids0
  exact hnil hids0

/-- Witness for C9: entity 2 of `sample4` lives in the empty archetype and
is not yielded by the all-entities query. -/
theorem empty_archetype_never_queried_witness :
    (2 : Nat) ∉ full_pass sample4 (QueryState.fresh [] []) :=
  empty_archetype_never_queried sample4 2 0 [] []
    (by
      unfold IndexInv StorageInv arch0ok archsAligned lockstep locSound locComplete
        idBound indexSound indexComplete indexNodup
      decide)
    (by decide)

/-- C1 (corrected): as stated, the claim fails for live entities with no
components — entity 1 of `sample1` is live and its archetype's (empty)
component-id list contains every id of the empty include list and none of
the empty exclude list, yet one full pass of `query.with().without()`
yields nothing, because the candidate set is resolved from the component
inverted index, which never lists the empty archetype (first conjunct, the
counterexample).  The claim holds once restricted to archetypes with at
least one component: one full pass (`start` then `get_next_entity` until
the sentinel) yields, without duplicates, exactly the live entities whose
archetype's component-id list is nonempty, contains every id of `A` and no
id of `B` (second conjunct). -/
theorem query_full_pass_exactly :
    (alookup sample1.entity_locations 1 = some (0, 0) ∧
     (findArchD sample1 0).component_ids = [] ∧
     full_pass sample1 (QueryState.fresh [] []) = []) ∧
    (∀ (st : ArchetypeStorage) (A B : List Nat), IndexInv st →
      (full_pass st (QueryState.fresh A B)).Nodup ∧
      ∀ e, e ∈ full_pass st (QueryState.fresh A B) ↔
        ∃ aid r arch, alookup st.entity_locations e = some (aid, r) ∧
          alookup st.archetypes aid = some arch ∧
          arch.component_ids ≠ [] ∧
          (∀ c ∈ A, c ∈ arch.component_ids) ∧
          (∀ b ∈ B, b ∉ arch.component_ids)) := by
  constructor
  · exact ⟨by decide, by decide, by decide⟩
  · intro st A B hinv
    exact ⟨full_pass_nodup st hinv A B, fun e => mem_full_pass_iff st hinv A B e⟩

/-- Witness for C1: the characterization applied to `sample2` with include
list `[10]`. -/
theorem query_full_pass_exactly_witness :
    (full_pass sample2 (QueryState.fresh [10] [])).Nodup :=
  (query_full_pass_exactly.2 sample2 [10] []
    (by
      unfold IndexInv StorageInv arch0ok archsAligned lockstep locSound locComplete
        idBound indexSound indexComplete indexNodup
      decide)).1

/-! ## Claim C4 — add/remove round-trip leaves other components bit-identical -/

/-- A `memcpy` of exactly the value's length is the identity. -/
theorem bytesOf_of_length (s : Nat) (v : List Nat) (h : v.length = s) :
    bytesOf s v = v := by
  unfold bytesOf
  rw [← h, List.take_of_length_le (Nat.le_refl _)]
  simp

/-- An in-range element of a lock-step column is exactly `each_size`
bytes. -/
theorem get_at_length (c : ComponentArray) (row : Nat)
    (hlen : c.array.length = c.count * c.each_size) (hrow : row < c.count) :
    (c.get_at row).length = c.each_size := by
  unfold ComponentArray.get_at
  rw [List.length_take, List.length_drop, hlen]
  have h1 : (row + 1) * c.each_size ≤ c.count * c.each_size :=
    Nat.mul_le_mul_right _ hrow
  have h2 : (row + 1) * c.each_size = row * c.each_size + c.each_size := by ring
  omega

theorem getD_take {α : Type} (l : List α) (j x : Nat) (d : α) (h : x < j) :
    (l.take j).getD x d = l.getD x d := by
  by_cases hx : x < l.length
  · rw [List.getD_eq_getElem _ _ (by rw [List.length_take]; omega),
      List.getD_eq_getElem _ _ hx, List.getElem_take]
  · rw [List.getD_eq_default _ _ (by rw [List.length_take]; omega),
      List.getD_eq_default _ _ (by omega)]

theorem getD_drop {α : Type} (l : List α) (j k : Nat) (d : α) :
    (l.drop j).getD k d = l.getD (j + k) d := by
  rw [List.getD_eq_getElem?_getD, List.getD_eq_getElem?_getD, List.getElem?_drop]

/-- `find_if` over a list whose first occurrence of `cid` sits after a
`cid`-free prefix. -/
theorem findIdx_append_cons (l1 l2 : List Nat) (cid : Nat)
    (h : ∀ x ∈ l1, x ≠ cid) :
    (l1 ++ cid :: l2).findIdx (fun id => id = cid) = l1.length := by
  induction l1 with
  | nil => simp [List.findIdx_cons]
  | cons x xs ih =>
    simp only [List.cons_append, List.findIdx_cons]
    have hx : x ≠ cid := h x (List.mem_cons_self _ _)
    simp only [hx, decide_False, cond_false, List.length_cons]
    rw [ih (fun y hy => h y (List.mem_cons_of_mem _ hy))]

theorem insert_info_length (l : List (Nat × Nat)) (j : Nat) (y : Nat × Nat)
    (hj : j ≤ l.length) : (insert_info l j y).length = l.length + 1 := by
  unfold insert_info
  rw [List.length_append, List.length_append, List.length_take, List.length_drop]
  simp
  omega

theorem insert_info_getD_lt (l : List (Nat × Nat)) (j : Nat) (y : Nat × Nat)
    (x : Nat) (hj : j ≤ l.length) (hx : x < j) :
    (insert_info l j y).getD x (0, 0) = l.getD x (0, 0) := by
  unfold insert_info
  rw [List.append_assoc,
    getD_append_left _ _ x _ (by rw [List.length_take]; omega),
    getD_take _ _ _ _ hx]

theorem insert_info_getD_gt (l : List (Nat × Nat)) (j : Nat) (y : Nat × Nat)
    (x : Nat) (hj : j ≤ l.length) (hx : j < x) :
    (insert_info l j y).getD x (0, 0) = l.getD (x - 1) (0, 0) := by
  unfold insert_info
  have hlen : (l.take j ++ [y]).length = j + 1 := by
    rw [List.length_append, List.length_take]
    simp
    omega
  rw [List.getD_eq_getElem?_getD, List.getElem?_append_right (by rw [hlen]; omega),
    ← List.getD_eq_getElem?_getD, hlen, getD_drop]
  congr 1
  omega

/-- Removing the inserted info undoes the insertion. -/
theorem remove_info_insert_info (l : List (Nat × Nat)) (j : Nat) (y : Nat × Nat)
    (hj : j ≤ l.length) : remove_info (insert_info l j y) j = l := by
  unfold remove_info insert_info
  rw [List.append_assoc, List.take_left' (by rw [List.length_take]; omega)]
  have hlen : (l.take j ++ [y]).length = j + 1 := by
    rw [List.length_append, List.length_take]
    simp
    omega
  rw [← List.append_assoc, List.drop_left' hlen, List.take_append_drop]

theorem getD_mem {α : Type} (l : List α) (n : Nat) (d : α) (h : n < l.length) :
    l.getD n d ∈ l := by
  rw [List.getD_eq_getElem _ _ h]
  exact List.getElem_mem h

/-- Two lists of equal length that agree at every in-range `getD` are
equal. -/
theorem ext_getD {α : Type} (l1 l2 : List α) (d : α) (hlen : l1.length = l2.length)
    (h : ∀ i, i < l1.length → l1.getD i d = l2.getD i d) : l1 = l2 := by
  apply List.ext_getElem hlen
  intro i h1 h2
  have h3 := h i h1
  rw [List.getD_eq_getElem _ _ h1, List.getD_eq_getElem _ _ h2] at h3
  exact h3

/-- `Archetype::has_component` is membership in the id list. -/
theorem has_component_iff_mem (a : Archetype) (cid : Nat) :
    a.has_component cid = true ↔ cid ∈ a.component_ids := by
  unfold Archetype.has_component
  exact List.elem_iff

/-- Under index completeness, every column of a stored archetype has an
inverted-index entry for its component id. -/
theorem hkeys_of_index (st : ArchetypeStorage) (hiC : indexComplete st)
    (hAl : ∀ q ∈ st.archetypes,
      q.2.id = q.1 ∧ q.2.component_ids = q.2.components.map ComponentArray.id)
    {aid : Nat} {a : Archetype} (h2 : alookup st.archetypes aid = some a) :
    ∀ c ∈ a.components, (alookup st.component_locations c.id).isSome = true := by
  intro c hc
  have haq := alookup_eq_some_mem h2
  have hal : a.component_ids = a.components.map ComponentArray.id := (hAl (aid, a) haq).2
  have hmem : c.id ∈ a.component_ids := by
    rw [hal]
    exact List.mem_map_of_mem _ hc
  obtain ⟨i, hlt, hgi⟩ := List.getElem_of_mem hmem
  have henum : (i, c.id) ∈ a.component_ids.enum :=
    List.mem_enum_iff_getElem?.mpr (by rw [List.getElem?_eq_getElem hlt, hgi])
  unfold indexComplete at hiC
  obtain ⟨m, hm, -⟩ := hiC (aid, a) haq (i, c.id) henum
  have hm' : alookup st.component_locations c.id = some m := hm
  rw [hm']
  rfl

/-- A swap-remove never loses a location entry. -/
theorem take_out_keeps_isSome (locs : List (Nat × Location)) (a : Archetype) (i : Nat)
    (locs1 : List (Nat × Location)) (a1 : Archetype)
    (h : Archetype.take_out_entity locs a i = some (locs1, a1)) (x : Nat)
    (hx : (alookup locs x).isSome = true) : (alookup locs1 x).isSome = true := by
  obtain ⟨-, -, -, -, hdisj⟩ := take_out_entity_cases locs a i locs1 a1 h
  rcases hdisj with ⟨-, lloc, hll, hlocs1, -⟩ | ⟨-, hlocs1, -⟩
  · rw [hlocs1, alookup_aset]
    by_cases hxe : x = a.entities.getD (a.entities.length - 1) 0
    · rw [if_pos hxe, hll]
      rfl
    · rw [if_neg hxe]
      exact hx
  · rw [hlocs1]
    exact hx

theorem insert_info_getD_at (l : List (Nat × Nat)) (j : Nat) (y : Nat × Nat)
    (hj : j ≤ l.length) : (insert_info l j y).getD j (0, 0) = y := by
  unfold insert_info
  rw [List.append_assoc]
  have hlt : (l.take j).length = j := by
    rw [List.length_take]
    omega
  rw [List.getD_eq_getElem?_getD, List.getElem?_append_right (by omega), hlt]
  simp

/-- Evaluate `get_component` from the four lookups it chains. -/
theorem get_component_eq (st : ArchetypeStorage) (e cid aid row colIdx : Nat)
    (arch : Archetype) (m : List (Nat × Nat))
    (h1 : alookup st.entity_locations e = some (aid, row))
    (h2 : alookup st.archetypes aid = some arch)
    (h3 : alookup st.component_locations cid = some m)
    (h4 : alookup m arch.id = some colIdx) :
    get_component st e cid = some ((arch.components.getD colIdx default).get_at row) := by
  unfold get_component
  rw [h1]
  simp only [Option.some_bind, Option.bind_eq_bind]
  rw [h2]
  simp only [Option.some_bind]
  rw [h3]
  simp only [Option.some_bind]
  rw [h4]
  simp only [Option.some_bind]

/-- The storage `add_component` produces on a successful migration,
assembled from the copy-loop outputs (used to chain a subsequent
`remove_component` against it). -/
def add_result (st : ArchetypeStorage) (NA : Nat) (infos : List (Nat × Nat))
    (aid : Nat) (na2 a1 : Archetype) (locs1 : List (Nat × Location))
    (e m : Nat) (clocs2 : List (Nat × List (Nat × Nat))) : ArchetypeStorage :=
  { st with
    archetypes := aset (aset
      (aemplace st.archetypes NA (Archetype.mk_from_infos NA infos)) NA na2) aid a1
    entity_locations := aset locs1 e (NA, m)
    component_locations := clocs2 }

/-- A swap-remove of a valid row always succeeds under location
completeness. -/
theorem take_out_entity_total (st : ArchetypeStorage) (hCmp : locComplete st)
    {aid row : Nat} {a : Archetype}
    (h2 : alookup st.archetypes aid = some a) (hrow : row < a.entities.length) :
    ∃ locs1 a1, Archetype.take_out_entity st.entity_locations a row = some (locs1, a1) := by
  have hemp : a.entities.isEmpty = false := by
    rcases hent : a.entities with _ | ⟨y, ys⟩
    · rw [hent] at hrow
      simp at hrow
    · rfl
  unfold Archetype.take_out_entity
  by_cases hsw : row < a.entities.length - 1
  · have hmem : a.entities[a.entities.length - 1]? =
        some (a.entities.getD (a.entities.length - 1) 0) :=
      getElem?_of_getD _ _ 0 (by omega)
    have hdl : alookup st.entity_locations (a.entities.getD (a.entities.length - 1) 0) =
        some (aid, a.entities.length - 1) :=
      hCmp (aid, a) (alookup_eq_some_mem h2)
        (a.entities.length - 1, a.entities.getD (a.entities.length - 1) 0)
        (List.mem_enum_iff_getElem?.mpr hmem)
    simp only [hemp, Bool.false_eq_true, if_false, if_pos hsw, Option.bind_eq_bind]
    rw [hdl]
    simp only [Option.some_bind]
    exact ⟨_, _, rfl⟩
  · simp only [hemp, Bool.false_eq_true, if_false, if_neg hsw, Option.bind_eq_bind,
      Option.some_bind]
    exact ⟨_, _, rfl⟩

/-- Counterexample to the original C1 statement: entity 1 of `sample1` is
live in the empty archetype, whose component-id list contains every id of
the empty include list and no id of the empty exclude list, yet one full
pass of `query.with().without()` yields nothing — the candidate set is
built from the component inverted index, which never lists the empty
archetype. -/
theorem query_full_pass_counterexample :
    alookup sample1.entity_locations 1 = some (0, 0) ∧
    (∀ c ∈ ([] : List Nat), c ∈ (findArchD sample1 0).component_ids) ∧
    (∀ b ∈ ([] : List Nat), b ∉ (findArchD sample1 0).component_ids) ∧
    1 ∉ full_pass sample1 (QueryState.fresh [] []) :=
  ⟨by decide, by simp, by simp, by decide⟩

/-- C4: for every live entity `e` that initially lacks component `cid`,
performing `add_component` and then `remove_component` of `cid` succeeds
and leaves every other component of `e` bit-identical to its value before
the pair of calls (migration copies are raw `memcpy`s of the row bytes and
the source row is swap-removed without running destructors).  `NA` is the
id of the intermediate archetype; the hypotheses record that its id does
not collide with the source archetype's (`h4`), that the source archetype
is stored under the hash of its own infos (`hstore`), and that the
intermediate archetype's infos are the inserted info list (`hQinfos`) —
all facts the storage maintains by construction. -/
theorem add_remove_roundtrip_bytes
    (st : ArchetypeStorage) (e cid size : Nat) (v : List Nat)
    (aid row NA : Nat) (a naQ : Archetype)
    (hinv : IndexInv st)
    (h1 : alookup st.entity_locations e = some (aid, row))
    (h2 : alookup st.archetypes aid = some a)
    (h3 : a.has_component cid = false)
    (hNA : NA = calculate_archetype_id (add_infos a cid size))
    (hnaQ : naQ = add_target st a cid size)
    (h4 : NA ≠ aid)
    (hstore : calculate_archetype_id (infos_of a) = aid)
    (hQinfos : infos_of naQ = add_infos a cid size) :
    ∃ st1 st2,
      add_component st e cid size v = some (st1, true) ∧
      remove_component st1 e cid = some st2 ∧
      ∀ c ∈ a.component_ids,
        (get_component st e c).isSome = true ∧
        get_component st2 e c = get_component st e c := by
  have hSI : StorageInv st := hinv.1
  have hiC : indexComplete st := hinv.2.2.1
  unfold StorageInv archsAligned lockstep locSound locComplete at hSI
  obtain ⟨hndA, hndL, h0ok, hAl, hLS, hSnd, hCmp, hBnd⟩ := hSI
  have haq : (aid, a) ∈ st.archetypes := alookup_eq_some_mem h2
  have haid : a.id = aid := (hAl (aid, a) haq).1
  have ha_align : a.component_ids = a.components.map ComponentArray.id := (hAl (aid, a) haq).2
  have halign : a.component_ids.length = a.components.length := by
    rw [ha_align, List.length_map]
  have hep : (e, (aid, row)) ∈ st.entity_locations := alookup_eq_some_mem h1
  have hfa : findArchD st aid = a := by
    unfold findArchD
    rw [h2]
    rfl
  have hrow : row < a.entities.length := by
    have h5 : row < (findArchD st aid).entities.length := (hSnd (e, (aid, row)) hep).2.1
    rw [hfa] at h5
    exact h5
  have hnotmem : cid ∉ a.component_ids := by
    intro hm
    have h5 := (has_component_iff_mem a cid).mpr hm
    rw [h3] at h5
    exact Bool.noConfusion h5
  obtain ⟨j, hjdef2⟩ : ∃ j, j = insert_pos a.component_ids cid := ⟨_, rfl⟩
  have hj_le : j ≤ a.component_ids.length := by
    rw [hjdef2]
    exact List.findIdx_le_length _
  have hinfos_len : (infos_of a).length = a.components.length := by
    unfold infos_of
    rw [List.length_map]
  have hjle' : j ≤ (infos_of a).length := by
    rw [hinfos_len, ← halign]
    exact hj_le
  have hadd_len : (add_infos a cid size).length = a.components.length + 1 := by
    unfold add_infos
    rw [← hjdef2, insert_info_length _ _ _ hjle', hinfos_len]
  have hnalenQ : naQ.components.length = a.components.length + 1 := by
    have h5 : (infos_of naQ).length = naQ.components.length := by
      unfold infos_of
      rw [List.length_map]
    rw [hQinfos, hadd_len] at h5
    omega
  have hQcase : (∃ q, alookup st.archetypes NA = some q ∧ naQ = q) ∨
      (alookup st.archetypes NA = none ∧
       naQ = Archetype.mk_from_infos NA (add_infos a cid size)) := by
    rw [hnaQ, hNA]
    unfold add_target
    cases hl : alookup st.archetypes (calculate_archetype_id (add_infos a cid size)) with
    | none => exact Or.inr ⟨rfl, rfl⟩
    | some q => exact Or.inl ⟨q, rfl, rfl⟩
  have hQalign : naQ.component_ids = naQ.components.map ComponentArray.id := by
    rcases hQcase with ⟨q, hl, hEq⟩ | ⟨hl, hEq⟩
    · rw [hEq]
      exact (hAl (NA, q) (alookup_eq_some_mem hl)).2
    · rw [hEq]
      exact mk_from_infos_aligned _ _
  have hQlock : ∀ x, x < naQ.components.length →
      (naQ.components.getD x default).count = naQ.entities.length ∧
      (naQ.components.getD x default).array.length =
        (naQ.components.getD x default).count * (naQ.components.getD x default).each_size := by
    rcases hQcase with ⟨q, hl, hEq⟩ | ⟨hl, hEq⟩
    · rw [hEq]
      intro x hx
      exact hLS (NA, q) (alookup_eq_some_mem hl) _ (getD_mem _ _ _ hx)
    · rw [hEq]
      intro x hx
      have hlen5 : (Archetype.mk_from_infos NA (add_infos a cid size)).components.length =
          (add_infos a cid size).length := by
        show ((add_infos a cid size).map
          (fun p => ({ id := p.1, each_size := p.2, count := 0, array := [] } :
            ComponentArray))).length = _
        rw [List.length_map]
      have hx' : x < (add_infos a cid size).length := by
        rw [← hlen5]
        exact hx
      have h6 : (Archetype.mk_from_infos NA (add_infos a cid size)).components.getD x default =
          { id := ((add_infos a cid size).getD x (0, 0)).1,
            each_size := ((add_infos a cid size).getD x (0, 0)).2,
            count := 0, array := [] } := by
        show ((add_infos a cid size).map
          (fun p => ({ id := p.1, each_size := p.2, count := 0, array := [] } :
            ComponentArray))).getD x default = _
        rw [getD_map_lt _ _ _ (0, 0) default hx']
      rw [h6]
      exact ⟨rfl, (Nat.zero_mul _).symm⟩
  have hkeysA : ∀ c ∈ a.components, (alookup st.component_locations c.id).isSome = true :=
    hkeys_of_index st hiC hAl h2
  obtain ⟨locs1, a1, htakeA⟩ := take_out_entity_total st hCmp h2 hrow
  obtain ⟨na2, clocs2, hadd, hid2, hids2, hents2, hlen2, hwr2, hext2⟩ :=
    add_component_spec st e cid size v aid row a NA naQ locs1 a1 h1 h2 h3 halign hNA hnaQ
      h4 hnalenQ hkeysA htakeA
  rw [← hjdef2] at hwr2
  obtain ⟨hempA, ha1id, ha1ids, ha1comp, hdisjA⟩ :=
    take_out_entity_cases st.entity_locations a row locs1 a1 htakeA
  have ha1len : a1.entities.length = a.entities.length - 1 := by
    rcases hdisjA with ⟨hsw, lloc, hll, hlocs1, hents1⟩ | ⟨hsw, hlocs1, hents1⟩
    · rw [hents1, List.length_dropLast, List.length_set]
    · rw [hents1, List.length_dropLast]
  have hSI1 := storageInv_add hinv.1 hadd
  unfold StorageInv at hSI1
  obtain ⟨-, -, -, -, -, -, hCmp1, -⟩ := hSI1
  -- facts about the intermediate storage
  have hL1 : alookup (add_result st NA (add_infos a cid size) aid na2 a1 locs1 e
      naQ.entities.length clocs2).entity_locations e = some (NA, naQ.entities.length) := by
    show alookup (aset locs1 e (NA, naQ.entities.length)) e = some (NA, naQ.entities.length)
    rw [alookup_aset, if_pos rfl]
    have hkeep : (alookup locs1 e).isSome = true := by
      apply take_out_keeps_isSome st.entity_locations a row locs1 a1 htakeA
      rw [h1]
      rfl
    obtain ⟨w, hw⟩ := Option.isSome_iff_exists.mp hkeep
    rw [hw]
    rfl
  have hA1NA : alookup (add_result st NA (add_infos a cid size) aid na2 a1 locs1 e
      naQ.entities.length clocs2).archetypes NA = some na2 := by
    show alookup (aset (aset (aemplace st.archetypes NA
      (Archetype.mk_from_infos NA (add_infos a cid size))) NA na2) aid a1) NA = some na2
    rw [alookup_aset, if_neg h4, alookup_aset, if_pos rfl, alookup_aemplace_self]
    rfl
  have hAaid1 : alookup (add_result st NA (add_infos a cid size) aid na2 a1 locs1 e
      naQ.entities.length clocs2).archetypes aid = some a1 := by
    show alookup (aset (aset (aemplace st.archetypes NA
      (Archetype.mk_from_infos NA (add_infos a cid size))) NA na2) aid a1) aid = some a1
    rw [alookup_aset, if_pos rfl, alookup_aset, if_neg (fun hh : aid = NA => h4 hh.symm),
      alookup_aemplace, if_neg (fun hh : aid = NA => h4 hh.symm), h2]
    rfl
  have hnids : naQ.component_ids = a.component_ids.take j ++ (cid :: a.component_ids.drop j) := by
    have hq1 : naQ.component_ids = (add_infos a cid size).map Prod.fst := by
      rw [hQalign]
      have h5 : (infos_of naQ).map Prod.fst = naQ.components.map ComponentArray.id := by
        unfold infos_of
        rw [List.map_map]
        rfl
      rw [← hQinfos, h5]
    have hq2 : (add_infos a cid size).map Prod.fst =
        a.component_ids.take j ++ (cid :: a.component_ids.drop j) := by
      unfold add_infos insert_info
      rw [← hjdef2, List.map_append, List.map_append, List.map_take, List.map_drop]
      have h5 : (infos_of a).map Prod.fst = a.component_ids := by
        unfold infos_of
        rw [List.map_map, ha_align]
        rfl
      rw [h5, List.append_assoc]
      rfl
    exact hq1.trans hq2
  have htakene : ∀ x ∈ a.component_ids.take j, x ≠ cid := by
    intro x hx hxe
    exact hnotmem (hxe ▸ List.take_subset _ _ hx)
  have hfind : na2.component_ids.findIdx (fun id => id = cid) = j := by
    rw [hids2, hnids, findIdx_append_cons _ _ _ htakene, List.length_take]
    omega
  have h3'' : na2.has_component cid = true := by
    have hmm : cid ∈ na2.component_ids := by
      rw [hids2, hnids]
      exact List.mem_append.mpr (Or.inr (List.mem_cons_self _ _))
    exact (has_component_iff_mem na2 cid).mpr hmm
  have hjlt2 : j < na2.components.length := by
    rw [hlen2, hnalenQ]
    omega
  have hinfos2 : infos_of na2 = add_infos a cid size := by
    have hlenI : (infos_of na2).length = na2.components.length := by
      unfold infos_of
      rw [List.length_map]
    apply ext_getD _ _ (0, 0)
    · rw [hlenI, hlen2, hnalenQ, hadd_len]
    · intro x hx
      have hx2 : x < na2.components.length := by
        rw [← hlenI]
        exact hx
      have hxQ : x < naQ.components.length := by
        rw [← hlen2]
        exact hx2
      have h5 : (infos_of na2).getD x (0, 0) =
          ((na2.components.getD x default).id, (na2.components.getD x default).each_size) := by
        unfold infos_of
        exact getD_map_lt _ _ _ default _ hx2
      have hQk := hQlock x hxQ
      have hcM : 1 ≤ ((naQ.components.getD x default).grow).count := by
        rw [grow_count]
        omega
      have hlM : ((naQ.components.getD x default).grow).array.length =
          ((naQ.components.getD x default).grow).count *
            ((naQ.components.getD x default).grow).each_size := by
        rw [grow_array_length, grow_count, grow_each_size, hQk.2, Nat.succ_mul]
      obtain ⟨hWid, hWes, -, -⟩ :=
        add_write_dims a row j v x ((naQ.components.getD x default).grow) hcM hlM
      have h7 : (infos_of naQ).getD x (0, 0) =
          ((naQ.components.getD x default).id, (naQ.components.getD x default).each_size) := by
        unfold infos_of
        exact getD_map_lt _ _ _ default _ hxQ
      rw [h5, hwr2 x hxQ, hWid, hWes, grow_id, grow_each_size, ← h7, hQinfos]
  have haid2 : calculate_archetype_id (remove_infos na2 cid) = aid := by
    unfold remove_infos
    rw [hfind, hinfos2]
    unfold add_infos
    rw [← hjdef2, remove_info_insert_info _ _ _ hjle']
    exact hstore
  have hnaQ2 : a1 = remove_target (add_result st NA (add_infos a cid size) aid na2 a1 locs1 e
      naQ.entities.length clocs2) na2 cid := by
    unfold remove_target
    rw [haid2, hAaid1]
    rfl
  have hnalen2 : a1.components.length = na2.components.length - 1 := by
    rw [ha1comp, List.length_map, hlen2, hnalenQ]
    omega
  have hkeys2 : ∀ c ∈ na2.components,
      (alookup (add_result st NA (add_infos a cid size) aid na2 a1 locs1 e
        naQ.entities.length clocs2).component_locations c.id).isSome = true := by
    show ∀ c ∈ na2.components, (alookup clocs2 c.id).isSome = true
    intro c hcm
    obtain ⟨x, hxlt, hgx⟩ := List.getElem_of_mem hcm
    have hxlt2 : x < naQ.components.length := by
      rw [← hlen2]
      exact hxlt
    have hgx' : na2.components.getD x default = c := by
      rw [List.getD_eq_getElem _ _ hxlt, hgx]
    have hW := hwr2 x hxlt2
    rw [hgx'] at hW
    have hQk := hQlock x hxlt2
    have hcM : 1 ≤ ((naQ.components.getD x default).grow).count := by
      rw [grow_count]
      omega
    have hlM : ((naQ.components.getD x default).grow).array.length =
        ((naQ.components.getD x default).grow).count *
          ((naQ.components.getD x default).grow).each_size := by
      rw [grow_array_length, grow_count, grow_each_size, hQk.2, Nat.succ_mul]
    have hWid : c.id = (naQ.components.getD x default).id := by
      rw [hW]
      exact ((add_write_dims a row j v x ((naQ.components.getD x default).grow) hcM hlM).1).trans
        (grow_id _)
    have hcid2 : c.id = ((add_infos a cid size).getD x (0, 0)).1 := by
      rw [hWid, ← hQinfos]
      unfold infos_of
      rw [getD_map_lt _ _ _ default _ hxlt2]
    unfold clocs_extend at hext2
    obtain ⟨hk2, -, -⟩ := hext2
    by_cases hxj : x = j
    · have hat : (add_infos a cid size).getD x (0, 0) = (cid, size) := by
        rw [hxj]
        unfold add_infos
        rw [← hjdef2]
        exact insert_info_getD_at _ _ _ hjle'
      have hcc : c.id = cid := by
        rw [hcid2, hat]
      rw [hcc, alookup_isSome_iff_mem_akeys, hk2, ← alookup_isSome_iff_mem_akeys,
        alookup_aemplace_self]
      rfl
    · have hxb : x < a.components.length + 1 := by
        rw [← hnalenQ]
        exact hxlt2
      have hxa : (if x < j then x else x - 1) < a.components.length := by
        by_cases hxlj : x < j
        · rw [if_pos hxlj]
          have h9 : j ≤ a.components.length := by
            rw [← halign]
            exact hj_le
          omega
        · rw [if_neg hxlj]
          omega
      have hentry : (add_infos a cid size).getD x (0, 0) =
          (infos_of a).getD (if x < j then x else x - 1) (0, 0) := by
        by_cases hxlj : x < j
        · rw [if_pos hxlj]
          unfold add_infos
          rw [← hjdef2]
          exact insert_info_getD_lt _ _ _ _ hjle' hxlj
        · rw [if_neg hxlj]
          unfold add_infos
          rw [← hjdef2]
          exact insert_info_getD_gt _ _ _ _ hjle' (by omega)
      have hcol : c.id = (a.components.getD (if x < j then x else x - 1) default).id := by
        rw [hcid2, hentry]
        unfold infos_of
        rw [getD_map_lt _ _ _ default _ hxa]
      have h8 := hkeysA (a.components.getD (if x < j then x else x - 1) default)
        (getD_mem a.components (if x < j then x else x - 1) default hxa)
      rw [hcol, alookup_isSome_iff_mem_akeys, hk2, ← alookup_isSome_iff_mem_akeys]
      exact alookup_aemplace_isSome_mono _ _ h8
  have hrow2 : naQ.entities.length < na2.entities.length := by
    rw [hents2, List.length_append]
    simp
  obtain ⟨locs2, a2, htake2⟩ :=
    take_out_entity_total (add_result st NA (add_infos a cid size) aid na2 a1 locs1 e
      naQ.entities.length clocs2) hCmp1 hA1NA hrow2
  obtain ⟨nb2, clocs3, hrem, hid3, hids3, hents3, hlen3, hwr3, hext3⟩ :=
    remove_component_spec (add_result st NA (add_infos a cid size) aid na2 a1 locs1 e
      naQ.entities.length clocs2) e cid NA naQ.entities.length na2 aid j a1 locs2 a2
      hL1 hA1NA h3'' hfind.symm hjlt2 haid2.symm hnaQ2 (fun hh : aid = NA => h4 hh.symm)
      hnalen2 hkeys2 htake2
  obtain ⟨st2v, hrem2, hA2eq, hL2eq, hC2eq⟩ :
      ∃ s, remove_component (add_result st NA (add_infos a cid size) aid na2 a1 locs1 e
          naQ.entities.length clocs2) e cid = some s ∧
        s.archetypes = aset (aset (aemplace (add_result st NA (add_infos a cid size) aid na2 a1
          locs1 e naQ.entities.length clocs2).archetypes aid
          (Archetype.mk_from_infos aid (remove_infos na2 cid))) aid nb2) NA a2 ∧
        s.entity_locations = aset locs2 e (aid, a1.entities.length) ∧
        s.component_locations = clocs3 :=
    ⟨_, hrem, rfl, rfl, rfl⟩
  refine ⟨_, st2v, hadd, hrem2, ?_⟩
  intro c hc
  have hne : c ≠ cid := fun hh => hnotmem (hh ▸ hc)
  obtain ⟨i, hilt, hgi⟩ := List.getElem_of_mem hc
  have hicomp : i < a.components.length := by
    rw [← halign]
    exact hilt
  have henum : (i, c) ∈ a.component_ids.enum :=
    List.mem_enum_iff_getElem?.mpr (by rw [List.getElem?_eq_getElem hilt, hgi])
  have hiC' := hiC
  unfold indexComplete at hiC'
  obtain ⟨m0, hm0raw, hmi0raw⟩ := hiC' (aid, a) haq (i, c) henum
  have hm0 : alookup st.component_locations c = some m0 := hm0raw
  have hmi0 : alookup m0 aid = some i := hmi0raw
  have hmia : alookup m0 a.id = some i := by
    rw [haid]
    exact hmi0
  have hsrc : get_component st e c =
      some ((a.components.getD i default).get_at row) :=
    get_component_eq st e c aid row i a m0 h1 h2 hm0 hmia
  -- the index chain into the final storage
  have hstep1 : alookup (aemplace st.component_locations cid []) c = some m0 := by
    rw [alookup_aemplace, if_neg hne]
    exact hm0
  unfold clocs_extend at hext2 hext3
  obtain ⟨-, -, hext2c⟩ := hext2
  obtain ⟨-, -, hext3c⟩ := hext3
  obtain ⟨m2, hm2, hx2, -⟩ := hext2c c m0 hstep1
  have hmi2 : alookup m2 aid = some i := by
    rw [hx2 aid (fun hh : aid = NA => h4 hh.symm)]
    exact hmi0
  obtain ⟨m3, hm3, -, hw3⟩ := hext3c c m2 hm2
  have hmi3 : alookup m3 aid = some i := hw3 i hmi2
  have hnbid : nb2.id = aid := by
    rw [hid3, ha1id, haid]
  have hI2 : alookup m3 nb2.id = some i := by
    rw [hnbid]
    exact hmi3
  have hsome1 : (alookup (aset locs1 e (NA, naQ.entities.length)) e).isSome = true := by
    have h9 : alookup (aset locs1 e (NA, naQ.entities.length)) e =
        some (NA, naQ.entities.length) := hL1
    rw [h9]
    rfl
  have hsome2 : (alookup locs2 e).isSome = true :=
    take_out_keeps_isSome _ na2 naQ.entities.length locs2 a2 htake2 e hsome1
  have hL2 : alookup st2v.entity_locations e = some (aid, a1.entities.length) := by
    rw [hL2eq, alookup_aset, if_pos rfl]
    obtain ⟨w, hw⟩ := Option.isSome_iff_exists.mp hsome2
    rw [hw]
    rfl
  have hA2 : alookup st2v.archetypes aid = some nb2 := by
    rw [hA2eq, alookup_aset, if_neg (fun hh : aid = NA => h4 hh.symm),
      alookup_aset, if_pos rfl, alookup_aemplace_self]
    rfl
  have hC2 : alookup st2v.component_locations c = some m3 := by
    rw [hC2eq]
    exact hm3
  have hdst : get_component st2v e c =
      some ((nb2.components.getD i default).get_at a1.entities.length) :=
    get_component_eq st2v e c aid a1.entities.length i nb2 m3 hL2 hA2 hC2 hI2
  -- the byte chase
  have hlsA : (a.components.getD i default).count = a.entities.length ∧
      (a.components.getD i default).array.length =
        (a.components.getD i default).count * (a.components.getD i default).each_size :=
    hLS (aid, a) haq _ (getD_mem _ _ _ hicomp)
  have hcArow : row < (a.components.getD i default).count := by
    rw [hlsA.1]
    exact hrow
  have hgetlen : ((a.components.getD i default).get_at row).length =
      (a.components.getD i default).each_size :=
    get_at_length _ row hlsA.2 hcArow
  have hbytesid : bytesOf (a.components.getD i default).each_size
      ((a.components.getD i default).get_at row) = (a.components.getD i default).get_at row :=
    bytesOf_of_length _ _ hgetlen
  have hi_a1 : i < a1.components.length := by
    rw [ha1comp, List.length_map]
    exact hicomp
  have ha1col : a1.components.getD i default = (a.components.getD i default).take_out_at row := by
    rw [ha1comp]
    exact getD_map_lt _ _ _ default _ hicomp
  obtain ⟨k, hkdef⟩ : ∃ k, k = if i < j then i else i + 1 := ⟨_, rfl⟩
  have hjlea : j ≤ a.components.length := by
    rw [← halign]
    exact hj_le
  have hknej : k ≠ j := by
    rw [hkdef]
    by_cases hij : i < j
    · rw [if_pos hij]
      omega
    · rw [if_neg hij]
      omega
  have hklt : k < naQ.components.length := by
    rw [hnalenQ, hkdef]
    by_cases hij : i < j
    · rw [if_pos hij]
      omega
    · rw [if_neg hij]
      omega
  have hcollapse : (if k < j then k else k - 1) = i := by
    rw [hkdef]
    by_cases hij : i < j
    · rw [if_pos hij, if_pos hij]
    · rw [if_neg hij]
      have h9 : ¬ i + 1 < j := by omega
      rw [if_neg h9]
      omega
  -- the element size at column k of the intermediate archetype
  have h7Q : (infos_of naQ).getD k (0, 0) =
      ((naQ.components.getD k default).id, (naQ.components.getD k default).each_size) := by
    unfold infos_of
    exact getD_map_lt _ _ _ default _ hklt
  have h6k : (add_infos a cid size).getD k (0, 0) = (infos_of a).getD i (0, 0) := by
    rw [hkdef]
    by_cases hij : i < j
    · rw [if_pos hij]
      unfold add_infos
      rw [← hjdef2]
      exact insert_info_getD_lt _ _ _ _ hjle' hij
    · rw [if_neg hij]
      unfold add_infos
      rw [← hjdef2]
      rw [insert_info_getD_gt _ _ _ _ hjle' (by omega)]
      have h9 : i + 1 - 1 = i := by omega
      rw [h9]
  have h7a : (infos_of a).getD i (0, 0) =
      ((a.components.getD i default).id, (a.components.getD i default).each_size) := by
    unfold infos_of
    exact getD_map_lt _ _ _ default _ hicomp
  have heachk : (naQ.components.getD k default).each_size =
      (a.components.getD i default).each_size := by
    have h8 := (h7Q.symm.trans (hQinfos ▸ (h6k.trans h7a) : (infos_of naQ).getD k (0, 0) =
      ((a.components.getD i default).id, (a.components.getD i default).each_size)))
    exact congrArg Prod.snd h8
  have hQk := hQlock k hklt
  have hGkcount : ((naQ.components.getD k default).grow).count = naQ.entities.length + 1 := by
    rw [grow_count, hQk.1]
  have hGklen : ((naQ.components.getD k default).grow).array.length =
      naQ.entities.length * ((naQ.components.getD k default).grow).each_size +
        ((naQ.components.getD k default).grow).each_size := by
    rw [grow_array_length, grow_each_size, hQk.2, hQk.1]
  have hna2k : na2.components.getD k default =
      ((naQ.components.getD k default).grow).set_at
        (((naQ.components.getD k default).grow).count - 1)
        ((a.components.getD i default).get_at row) := by
    rw [hwr2 k hklt]
    unfold add_write
    rw [if_neg hknej, hcollapse]
  have hbound1 : ((((naQ.components.getD k default).grow).count - 1) + 1) *
      ((naQ.components.getD k default).grow).each_size ≤
        ((naQ.components.getD k default).grow).array.length := by
    rw [hGkcount]
    show (naQ.entities.length + 1) * ((naQ.components.getD k default).grow).each_size ≤ _
    rw [hGklen, Nat.succ_mul]
  have hbytes2 : (na2.components.getD k default).get_at naQ.entities.length =
      (a.components.getD i default).get_at row := by
    rw [hna2k]
    have hm' : ((naQ.components.getD k default).grow).count - 1 = naQ.entities.length := by
      rw [hGkcount]
      omega
    rw [← hm', get_at_set_at_self _ _ _ hbound1, grow_each_size, heachk]
    exact hbytesid
  -- the destination column of the final archetype
  have hGcount : (((a.components.getD i default).take_out_at row).grow).count =
      a.entities.length := by
    rw [grow_count, take_out_at_count]
    have h9 := hlsA.1
    omega
  have hGes : (((a.components.getD i default).take_out_at row).grow).each_size =
      (a.components.getD i default).each_size := by
    rw [grow_each_size, take_out_at_each_size]
  have hGlen : (((a.components.getD i default).take_out_at row).grow).array.length =
      a.entities.length * (a.components.getD i default).each_size := by
    rw [grow_array_length, take_out_at_array_length _ row hlsA.2 hcArow,
      take_out_at_each_size, Nat.sub_one_mul]
    have h9 : (a.components.getD i default).each_size ≤
        (a.components.getD i default).count * (a.components.getD i default).each_size :=
      Nat.le_mul_of_pos_left _ (by omega)
    rw [hlsA.1] at h9 ⊢
    omega
  have hwr3i : nb2.components.getD i default =
      ((((a.components.getD i default).take_out_at row).grow).set_at
        ((((a.components.getD i default).take_out_at row).grow).count - 1)
        ((na2.components.getD k default).get_at naQ.entities.length)) := by
    have h9 := hwr3 i hi_a1
    rw [← hkdef] at h9
    rw [h9, ha1col]
    rfl
  have hslot : (((a.components.getD i default).take_out_at row).grow).count - 1 =
      a1.entities.length := by
    rw [hGcount, ha1len]
  have hbound2 : ((((((a.components.getD i default).take_out_at row).grow).count - 1) + 1) *
      (((a.components.getD i default).take_out_at row).grow).each_size) ≤
        (((a.components.getD i default).take_out_at row).grow).array.length := by
    have h9 : ((((a.components.getD i default).take_out_at row).grow).count - 1) + 1 =
        (((a.components.getD i default).take_out_at row).grow).count := by
      rw [hGcount]
      omega
    rw [h9, hGcount, hGes, hGlen]
  have hfinal : (nb2.components.getD i default).get_at a1.entities.length =
      (a.components.getD i default).get_at row := by
    rw [hwr3i, hbytes2, ← hslot, get_at_set_at_self _ _ _ hbound2, hGes]
    exact hbytesid
  refine ⟨by rw [hsrc]; rfl, ?_⟩
  rw [hdst, hsrc, hfinal]

/-- Witness for C4: entity 1 of `sample2` holds component 10 = `[3, 4]`;
adding component 20 (`[7]`) and removing it again succeeds, and component
10 reads back bit-identically. -/
theorem add_remove_roundtrip_bytes_witness :
    ∃ st1 st2,
      add_component sample2 1 20 1 [7] = some (st1, true) ∧
      remove_component st1 1 20 = some st2 ∧
      ∀ c ∈ archP.component_ids,
        (get_component sample2 1 c).isSome = true ∧
        get_component st2 1 c = get_component sample2 1 c :=
  add_remove_roundtrip_bytes sample2 1 20 1 [7] aidP 0 aidPV archP
    (Archetype.mk_from_infos aidPV [(10, 2), (20, 1)])
    (by unfold IndexInv StorageInv arch0ok archsAligned lockstep locSound locComplete idBound
          indexSound indexComplete indexNodup
        decide)
    (by decide) (by decide) (by decide) (by decide) (by decide) (by decide) (by decide)
    (by decide)

end Ruecs
